import Mathlib

/-!
# go-env: decoding a structure from environment variables

A shallow embedding of `env.go` (package `env`): the walker `Decode` and the
coercer `setField`, together with the parts of the Go standard library they
call (`strconv.ParseInt`, `strconv.ParseUint`, `strconv.ParseBool`,
`strings.Split`, `strings.ToUpper`, `os.Getenv`) and the part of `reflect`
they rely on (kinds, zero values, settability).

Modelling conventions.

* A Go value is a tree (`Value`); its static type is a `GoType`.  A defined
  (named) type is `GoType.named n`, looked up in the declarations `D`, so a
  type may mention itself (`type Node struct { Next *Node }`).
* Pointers are owned: `Value.ptr none` is a nil pointer and
  `Value.ptr (some v)` points to `v`.  Two pointers never share a pointee.
* A Go procedure that writes through its argument returns the updated value
  together with an `Outcome`: `nil`, a returned `error`, or a panic.
* The recursion of `Decode` over pointers and of `setField` over list elements
  is not bounded by the size of a type once types may mention themselves, so
  both take a recursion budget; `none` means the budget was too small.  A
  result obtained with some budget is the result for every larger budget
  (`Decode_mono`, `setField_mono`).
* `int` and `uint` are 64 bits wide (`IntSize`).
* Text is a Lean `String`, read character by character.  The digits, signs,
  separators and letters the code looks at are all ASCII, where bytes and
  characters coincide.
-/

namespace GoEnv

/-! ## Types and values -/

/-- Kinds of Go types, after `reflect.Kind`. -/
inductive Kind
  | Invalid | Bool | Int | Int8 | Int16 | Int32 | Int64
  | Uint | Uint8 | Uint16 | Uint32 | Uint64 | Uintptr
  | Float32 | Float64 | Complex64 | Complex128
  | Array | Chan | Func | Interface | Map | Ptr | Slice | String | Struct
  | RawPointer
  deriving DecidableEq, Repr

/-- Field descriptor of a structure type, after `reflect.StructField`.
`tag` is the result of `Tag.Lookup("env")`; `exported` says that a value of
the field obtained from an addressable structure can be set. -/
structure StructField (T : Type) where
  name : String
  typ : T
  tag : Option String
  exported : Bool

/-- Go types.  `basic k` is the predeclared type of kind `k` and also stands
for any type of a kind the decoder never looks inside (floating point, array,
channel, function, interface). -/
inductive GoType
  | basic (k : Kind)
  | slice (elem : GoType)
  | map (key elem : GoType)
  | ptr (elem : GoType)
  | struct (fields : List (StructField GoType))
  | named (name : String)

/-- Type declarations of the program: the underlying type of each defined
type.  In Go an underlying type is never itself a defined type. -/
abbrev Decls := String → GoType

/-- Go values. -/
inductive Value
  | bool (b : Bool)
  | int (i : Int)
  | uint (u : Nat)
  | string (s : String)
  | slice (elems : Option (List Value))
  | map (entries : Option (List (Value × Value)))
  | ptr (pointee : Option Value)
  | struct (fields : List Value)
  | other (k : Kind)

/-- The process environment as `os.Getenv` sees it: the value of a variable,
the empty text when the variable is not set. -/
abbrev Env := String → String

/-- One step of name resolution: a defined type is replaced by its
underlying type. -/
def resolve (D : Decls) : GoType → GoType
  | .named n => D n
  | t => t

/-- Kind of a type, `Type.Kind()`. -/
def kind (D : Decls) (t : GoType) : Kind :=
  match resolve D t with
  | .basic k => k
  | .slice _ => Kind.Slice
  | .map _ _ => Kind.Map
  | .ptr _ => Kind.Ptr
  | .struct _ => Kind.Struct
  | .named _ => Kind.Invalid

/-- Element type of a pointer or slice type, `Type.Elem()`. -/
def elemType (D : Decls) (t : GoType) : GoType :=
  match resolve D t with
  | .slice e => e
  | .ptr e => e
  | .map _ e => e
  | _ => .basic Kind.Invalid

/-- Size of `int` and `uint` in bits, `strconv.IntSize`, on a 64-bit
target. -/
def IntSize : Nat := 64

/-- Size in bits of a sized kind, `Type.Bits()`. -/
def Bits : Kind → Nat
  | .Int => IntSize
  | .Int8 => 8
  | .Int16 => 16
  | .Int32 => 32
  | .Int64 => 64
  | .Uint => IntSize
  | .Uint8 => 8
  | .Uint16 => 16
  | .Uint32 => 32
  | .Uint64 => 64
  | .Uintptr => IntSize
  | .Float32 => 32
  | .Float64 => 64
  | .Complex64 => 64
  | .Complex128 => 128
  | _ => 0

/-- Zero value of a type without components. -/
def zeroBasic : Kind → Value
  | .Bool => .bool false
  | .Int => .int 0
  | .Int8 => .int 0
  | .Int16 => .int 0
  | .Int32 => .int 0
  | .Int64 => .int 0
  | .Uint => .uint 0
  | .Uint8 => .uint 0
  | .Uint16 => .uint 0
  | .Uint32 => .uint 0
  | .Uint64 => .uint 0
  | .Uintptr => .uint 0
  | .String => .string ""
  | k => .other k

/-- All results of a list of computations, if none ran out of budget. -/
def allSome {α : Type} : List (Option α) → Option (List α)
  | [] => some []
  | none :: _ => none
  | some a :: rest =>
    match allSome rest with
    | none => none
    | some as => some (a :: as)

/-- Zero value of a type, one level; `self` is used for component types. -/
def ZeroBody (self : GoType → Option Value) (D : Decls) : GoType → Option Value
  | .basic k => some (zeroBasic k)
  | .slice _ => some (.slice none)
  | .map _ _ => some (.map none)
  | .ptr _ => some (.ptr none)
  | .struct fs =>
    match allSome (fs.map (fun f => self f.typ)) with
    | none => none
    | some vs => some (.struct vs)
  | .named n => self (D n)

/-- Zero value of a type, as `reflect.New` and `reflect.MakeSlice` build
it. -/
def Zero : Nat → Decls → GoType → Option Value
  | 0, D, t => ZeroBody (fun _ => none) D t
  | n + 1, D, t => ZeroBody (Zero n D) D t

/-! ## strings -/

/-- Pieces of a text between occurrences of a separator character. -/
def splitChars (sep : Char) : List Char → List (List Char)
  | [] => [[]]
  | c :: cs =>
    if c = sep then [] :: splitChars sep cs
    else
      match splitChars sep cs with
      | [] => [[c]]
      | p :: ps => (c :: p) :: ps

/-- The call `strings.Split(s, sep)` for a separator of one character. -/
def Split (s : String) (sep : Char) : List String :=
  (splitChars sep s.data).map String.mk

/-- The call `strings.Join(elems, sep)` for a separator of one character. -/
def Join : List String → Char → String
  | [], _ => ""
  | [a], _ => a
  | a :: b :: rest, sep => a ++ String.mk [sep] ++ Join (b :: rest) sep

/-- The case tables of package `unicode`, which depend on the Go release:
`upper r` is the upper case of a rune `r` outside ASCII,
`unicode.To(unicode.UpperCase, r)`.  The model takes the tables as given. -/
class CaseTables where
  upper : Char → Char

/-- Case tables that map no rune outside ASCII.  The examples of this
development are evaluated with them; their annotations are ASCII, so the
tables are never consulted there.  Every general statement is about
arbitrary tables. -/
instance (priority := low) asciiTables : CaseTables := ⟨fun c => c⟩

/-- The function `unicode.ToUpper(r)`: within ASCII the letters a to z are
mapped to A to Z and every other rune to itself; a rune outside ASCII is
mapped by the case tables. -/
def upperRune [CaseTables] (c : Char) : Char :=
  if c.toNat ≤ 127 then Char.toUpper c else CaseTables.upper c

/-- The call `strings.ToUpper(s)`: every rune of the text is mapped by
`unicode.ToUpper`.  (On ASCII text the code takes a shortcut with the same
result.) -/
def ToUpper [CaseTables] (s : String) : String :=
  String.mk (s.data.map upperRune)

/-! ## strconv -/

/-- Errors of the number parsers (`strconv.NumError.Err`). -/
inductive NumError
  | ErrSyn
  | ErrRange
  | ErrBase
  | ErrBitSize
  deriving DecidableEq, Repr

/-- The helper `lower(c)` of strconv: `c | ('x' - 'X')`. -/
def lower (c : Char) : Nat := c.toNat ||| 0x20

def maxUint64 : Nat := 2 ^ 64 - 1

/-- State of the digit loop of `ParseUint` when it ends. -/
inductive LoopResult
  | done (n : Nat) (underscores : Bool)
  | fail (val : Nat) (e : NumError)

/-- The digit a character stands for in the loop of `ParseUint`: '0' to '9',
or a letter in either case counting from ten. -/
def digitVal (c : Char) : Option Nat :=
  if 48 ≤ c.toNat ∧ c.toNat ≤ 57 then some (c.toNat - 48)
  else if 97 ≤ lower c ∧ lower c ≤ 122 then some (lower c - 97 + 10)
  else none

/-- The digit loop of `ParseUint`: `n` is the value read so far, in 64-bit
unsigned arithmetic. -/
def parseUintLoop (base : Nat) (base0 : Bool) (cutoff maxVal : Nat) :
    List Char → Nat → Bool → LoopResult
  | [], n, us => .done n us
  | c :: cs, n, us =>
    if c = '_' ∧ base0 = true then parseUintLoop base base0 cutoff maxVal cs n true
    else
      match digitVal c with
      | none => .fail 0 .ErrSyn
      | some d =>
        if d ≥ base then .fail 0 .ErrSyn
        else if n ≥ cutoff then .fail maxVal .ErrRange
        else
          let nb := (n * base) % 2 ^ 64
          let n1 := (nb + d) % 2 ^ 64
          if n1 < nb ∨ n1 > maxVal then .fail maxVal .ErrRange
          else parseUintLoop base base0 cutoff maxVal cs n1 us

/-- The loop of `underscoreOK`; `saw` is the last class of character seen. -/
def underscoreOKLoop (hex : Bool) : List Char → Char → Bool
  | [], saw => saw != '_'
  | c :: cs, saw =>
    if (48 ≤ c.toNat ∧ c.toNat ≤ 57) ∨ (hex = true ∧ 97 ≤ lower c ∧ lower c ≤ 102) then
      underscoreOKLoop hex cs '0'
    else if c = '_' then
      if saw ≠ '0' then false else underscoreOKLoop hex cs '_'
    else if saw = '_' then false
    else underscoreOKLoop hex cs '!'

/-- Whether the underscores of a numeral are placed as Go allows:
`underscoreOK`. -/
def underscoreOK (s : List Char) : Bool :=
  let s1 : List Char :=
    match s with
    | c :: rest => if c = '-' ∨ c = '+' then rest else s
    | [] => s
  match s1 with
  | c0 :: c1 :: rest =>
    if c0 = '0' ∧ (lower c1 = 98 ∨ lower c1 = 111 ∨ lower c1 = 120) then
      underscoreOKLoop (lower c1 = 120) rest '0'
    else underscoreOKLoop false s1 '^'
  | _ => underscoreOKLoop false s1 '^'

/-- Base and remaining text chosen by `ParseUint` for base 0: the prefixes
0b, 0o, 0x and a plain leading 0. -/
def detectBase (s : List Char) : Nat × List Char :=
  match s with
  | c0 :: rest =>
    if c0 = '0' then
      match rest with
      | c1 :: rest2 =>
        if s.length ≥ 3 ∧ lower c1 = 98 then (2, rest2)
        else if s.length ≥ 3 ∧ lower c1 = 111 then (8, rest2)
        else if s.length ≥ 3 ∧ lower c1 = 120 then (16, rest2)
        else (8, rest)
      | [] => (8, rest)
    else (10, s)
  | [] => (10, s)

/-- The function `strconv.ParseUint` on the characters of the text. -/
def parseUintChars (s0 : List Char) (base bitSize : Nat) : Nat × Option NumError :=
  if s0 = [] then (0, some .ErrSyn)
  else
    let base0 := decide (base = 0)
    let pre : Option (Nat × List Char) :=
      if 2 ≤ base ∧ base ≤ 36 then some (base, s0)
      else if base = 0 then some (detectBase s0)
      else none
    match pre with
    | none => (0, some .ErrBase)
    | some (b, s) =>
      if bitSize > 64 then (0, some .ErrBitSize)
      else
        let bits := if bitSize = 0 then IntSize else bitSize
        let cutoff := maxUint64 / b + 1
        let maxVal := (2 ^ bits - 1) % 2 ^ 64
        match parseUintLoop b base0 cutoff maxVal s 0 false with
        | .fail v e => (v, some e)
        | .done n us =>
          if us = true ∧ underscoreOK s0 = false then (0, some .ErrSyn)
          else (n, none)

/-- The function `strconv.ParseUint(s, base, bitSize)`: value and error. -/
def ParseUint (s : String) (base bitSize : Nat) : Nat × Option NumError :=
  parseUintChars s.data base bitSize

/-- Conversion to a signed integer of `bits` bits (two's complement). -/
def wrapSigned (bits : Nat) (x : Int) : Int :=
  (x + 2 ^ (bits - 1)) % 2 ^ bits - 2 ^ (bits - 1)

/-- The function `strconv.ParseInt(s, base, bitSize)`: value and error. -/
def ParseInt (s : String) (base bitSize : Nat) : Int × Option NumError :=
  match s.data with
  | [] => (0, some .ErrSyn)
  | c :: rest =>
    let neg := decide (c = '-')
    let body := if c = '+' ∨ c = '-' then rest else c :: rest
    match parseUintChars body base bitSize with
    | (un, err) =>
      if err.isSome ∧ err ≠ some .ErrRange then (0, err)
      else
        let bits := if bitSize = 0 then IntSize else bitSize
        let cutoff : Nat := (2 ^ (bits - 1)) % 2 ^ 64
        if neg = false ∧ un ≥ cutoff then (((cutoff : Int) - 1), some .ErrRange)
        else if neg = true ∧ un > cutoff then (-(cutoff : Int), some .ErrRange)
        else
          let n := wrapSigned 64 (un : Int)
          ((if neg = true then wrapSigned 64 (-n) else n), none)

/-- The function `strconv.ParseBool(str)`: value and whether it failed. -/
def ParseBool (str : String) : Bool × Option NumError :=
  if str = "1" ∨ str = "t" ∨ str = "T" ∨ str = "true" ∨ str = "TRUE" ∨ str = "True" then
    (true, none)
  else if str = "0" ∨ str = "f" ∨ str = "F" ∨ str = "false" ∨ str = "FALSE"
      ∨ str = "False" then
    (false, none)
  else (false, some .ErrSyn)

/-! ## Outcomes -/

/-- Errors that `Decode` and `setField` return. -/
inductive DecodeError
  | mapNotConvertible (t : GoType)

/-- Reasons for which a call halts the process (Go panics):
`unsupportedType` is the panic of `setField` on a kind it does not name;
`numFieldOnNonStruct` is the panic of `Value.NumField` on a value that is not
a structure; `setUnaddressable` is the panic of `Value.Set` on the nil pointer
passed to `Decode` itself; `badValue` stands for a value that does not have
the shape of its type, which no Go program can pass. -/
inductive Panic
  | unsupportedType (k : Kind)
  | numFieldOnNonStruct (k : Kind)
  | setUnaddressable
  | badValue

/-- How a call ends: it returns nil, returns an error, or halts. -/
inductive Outcome
  | nil
  | error (e : DecodeError)
  | halt (p : Panic)

/-! ## The coercer: setField -/

/-- The only map type the coercer fills: `map[string]string`. -/
def allowedMapType : GoType := .map (.basic Kind.String) (.basic Kind.String)

/-- The test `t.ConvertibleTo(allowedMapType)` for a type of kind Map: the
underlying type is identical to `map[string]string`. -/
def ConvertibleToAllowed (D : Decls) (t : GoType) : Bool :=
  match resolve D t with
  | .map (.basic Kind.String) (.basic Kind.String) => true
  | _ => false

/-- The method `Value.SetInt(x)` on a field of signed kind `k`. -/
def SetInt (k : Kind) (x : Int) : Value := .int (wrapSigned (Bits k) x)

/-- The method `Value.SetUint(x)` on a field of unsigned kind `k`. -/
def SetUint (k : Kind) (x : Nat) : Value := .uint (x % 2 ^ Bits k)

/-- The method `Value.SetMapIndex(key, elem)` for a text key and a text
element: an existing entry for the key is replaced. -/
def SetMapIndex : List (Value × Value) → String → String → List (Value × Value)
  | [], k, v => [(.string k, .string v)]
  | (.string k1, v1) :: rest, k, v =>
    if k1 = k then (.string k, .string v) :: rest
    else (.string k1, v1) :: SetMapIndex rest k v
  | e :: rest, k, v => e :: SetMapIndex rest k v

/-- The element stored in a map under a text key, `Value.MapIndex(key)`. -/
def MapIndex : List (Value × Value) → String → Option Value
  | [], _ => none
  | (.string k1, v1) :: rest, k => if k1 = k then some v1 else MapIndex rest k
  | _ :: rest, k => MapIndex rest k

/-- The loop of `setField` over the pieces of a map text. -/
def fillMap : List String → List (Value × Value) → List (Value × Value)
  | [], m => m
  | piece :: rest, m =>
    match Split piece '=' with
    | [k, v] => fillMap rest (SetMapIndex m k v)
    | _ => fillMap rest m

/-- The loop of `setField` over the pieces of a list text: each element of
the fresh slice is coerced in turn, and the first failure ends the loop. -/
def setElems (self : GoType → Value → String → Option (Value × Outcome))
    (et : GoType) (z : Value) : List String → Option (List Value × Outcome)
  | [] => some ([], .nil)
  | v :: rest =>
    match self et z v with
    | none => none
    | some (e, .nil) =>
      match setElems self et z rest with
      | none => none
      | some (es, o) => some (e :: es, o)
    | some (e, o) => some (e :: rest.map (fun _ => z), o)

/-- Body of `setField(field, value)`; `self` is the recursive call and `zero`
builds the elements of a fresh slice. -/
def setFieldBody (self : GoType → Value → String → Option (Value × Outcome))
    (zero : GoType → Option Value) (D : Decls) (t : GoType) (field : Value)
    (value : String) : Option (Value × Outcome) :=
  match kind D t with
  | .String => some (.string value, .nil)
  | .Int => some (SetInt .Int (ParseInt value 0 (Bits .Int)).1, .nil)
  | .Int32 => some (SetInt .Int32 (ParseInt value 0 (Bits .Int32)).1, .nil)
  | .Int64 => some (SetInt .Int64 (ParseInt value 0 (Bits .Int64)).1, .nil)
  | .Uint => some (SetUint .Uint (ParseUint value 0 (Bits .Uint)).1, .nil)
  | .Uint32 => some (SetUint .Uint32 (ParseUint value 0 (Bits .Uint32)).1, .nil)
  | .Uint64 => some (SetUint .Uint64 (ParseUint value 0 (Bits .Uint64)).1, .nil)
  | .Slice =>
    match zero (elemType D t) with
    | none => none
    | some z =>
      match setElems self (elemType D t) z (Split value ',') with
      | none => none
      | some (elems, .nil) => some (.slice (some elems), .nil)
      | some (_, o) => some (field, o)
  | .Map =>
    if ConvertibleToAllowed D t = false then some (field, .error (.mapNotConvertible t))
    else some (.map (some (fillMap (Split value ',') [])), .nil)
  | .Bool => some (.bool (ParseBool value).1, .nil)
  | k => some (field, .halt (.unsupportedType k))

/-- The function `setField(field, value)`: the new value of the field and
the outcome. -/
def setField : Nat → Decls → GoType → Value → String → Option (Value × Outcome)
  | 0, D => setFieldBody (fun _ _ _ => none) (Zero 0 D) D
  | n + 1, D => setFieldBody (setField n D) (Zero (n + 1) D) D

/-! ## The walker: Decode -/

/-- The allocation step for a pointer field: a nil pointer is set to a fresh
zero value of the element type `et`; another pointer is kept. -/
def allocIfNil (zero : GoType → Option Value) (et : GoType) : Value → Option Value
  | .ptr none =>
    match zero et with
    | none => none
    | some z => some (.ptr (some z))
  | fval => some fval

/-- The recursive call on a nested structure field, `Decode(fval.Addr())`:
the field's new value and the outcome of the call. -/
def decodeNested (self : GoType → Value → Option (Value × Outcome)) (t : GoType)
    (fval : Value) : Option (Value × Outcome) :=
  match self (.ptr t) (.ptr (some fval)) with
  | none => none
  | some (.ptr (some fv), o) => some (fv, o)
  | some (_, o) => some (fval, o)

/-- One iteration of the field loop of `Decode`, for the field `f` with
current value `fval`; `addressable` says that the structure was reached
through a pointer. -/
def decodeField [CaseTables] (self : GoType → Value → Option (Value × Outcome))
    (setF : GoType → Value → String → Option (Value × Outcome))
    (zero : GoType → Option Value) (D : Decls) (env : Env) (addressable : Bool)
    (f : StructField GoType) (fval : Value) : Option (Value × Outcome) :=
  match f.tag with
  | none => some (fval, .nil)
  | some tag =>
    if (addressable && f.exported) = false then some (fval, .nil)
    else if kind D f.typ = Kind.Ptr then
      match allocIfNil zero (elemType D f.typ) fval with
      | none => none
      | some fval1 => self f.typ fval1
    else
      let inner : Option (Value × Outcome) :=
        if kind D f.typ = Kind.Struct then decodeNested self f.typ fval
        else some (fval, .nil)
      match inner with
      | none => none
      | some (fval1, .nil) =>
        let str := env (ToUpper tag)
        if str = "" then some (fval1, .nil) else setF f.typ fval1 str
      | some (fval1, o) => some (fval1, o)

/-- The field loop of `Decode`: fields are visited in declaration order and
the first outcome other than nil ends the loop. -/
def decodeFields (step : StructField GoType → Value → Option (Value × Outcome)) :
    List (StructField GoType) → List Value → Option (List Value × Outcome)
  | f :: fs, v :: vs =>
    match step f v with
    | none => none
    | some (v1, .nil) =>
      match decodeFields step fs vs with
      | none => none
      | some (vs1, o) => some (v1 :: vs1, o)
    | some (v1, o) => some (v1 :: vs, o)
  | _, vs => some (vs, .nil)

/-- Body of `Decode(v)` for an argument of dynamic type `t` and value `v`;
`self` is the recursive call. -/
def DecodeBody [CaseTables] (self : GoType → Value → Option (Value × Outcome))
    (setF : GoType → Value → String → Option (Value × Outcome))
    (zero : GoType → Option Value) (D : Decls) (env : Env) (t : GoType) (v : Value) :
    Option (Value × Outcome) :=
  match resolve D t with
  | .ptr et =>
    match v with
    | .ptr none => some (v, .halt .setUnaddressable)
    | .ptr (some pv) =>
      match resolve D et with
      | .struct fs =>
        match pv with
        | .struct vs =>
          match decodeFields (decodeField self setF zero D env true) fs vs with
          | none => none
          | some (vs1, o) => some (.ptr (some (.struct vs1)), o)
        | _ => some (v, .halt .badValue)
      | _ => some (v, .halt (.numFieldOnNonStruct (kind D et)))
    | _ => some (v, .halt .badValue)
  | .struct fs =>
    match v with
    | .struct vs =>
      match decodeFields (decodeField self setF zero D env false) fs vs with
      | none => none
      | some (vs1, o) => some (.struct vs1, o)
    | _ => some (v, .halt .badValue)
  | _ => some (v, .halt (.numFieldOnNonStruct (kind D t)))

/-- The function `Decode(v)`: the updated argument and the outcome; `none`
when the recursion budget is too small. -/
def Decode [CaseTables] : Nat → Decls → Env → GoType → Value → Option (Value × Outcome)
  | 0, D, env => DecodeBody (fun _ _ => none) (setField 0 D) (Zero 0 D) D env
  | n + 1, D, env => DecodeBody (Decode n D env) (setField (n + 1) D) (Zero (n + 1) D) D env

/-! ## Vocabulary of the statements -/

/-- An exported field of a structure type. -/
def exportedField (name : String) (typ : GoType) (tag : Option String) :
    StructField GoType :=
  ⟨name, typ, tag, true⟩

/-- The kinds for which `setField` always returns nil: text, the integer
kinds it names, and boolean. -/
def scalarKind : Kind → Bool
  | .String => true
  | .Int => true
  | .Int32 => true
  | .Int64 => true
  | .Uint => true
  | .Uint32 => true
  | .Uint64 => true
  | .Bool => true
  | _ => false

/-- A field whose iteration in `Decode` cannot fail: it is skipped (no
annotation, or not writable) or it is of a scalar kind. -/
def Benign (D : Decls) (g : StructField GoType) : Prop :=
  g.tag = none ∨ g.exported = false ∨ scalarKind (kind D g.typ) = true

/-- A field that `Decode` does not write under the environment `env`: it is
skipped, or it is neither a pointer nor a structure and its own variable is
absent or empty. -/
def Untouched [CaseTables] (D : Decls) (env : Env) (g : StructField GoType) : Prop :=
  g.tag = none ∨ g.exported = false ∨
    (∃ tg, g.tag = some tg ∧ env (ToUpper tg) = "" ∧
      kind D g.typ ≠ Kind.Ptr ∧ kind D g.typ ≠ Kind.Struct)

/-! ## The structures of the test file -/

/-- Declarations of `TestEmbedded`: the defined type `Structptr`. -/
def embeddedDecls : Decls := fun n =>
  if n = "Structptr" then
    .struct [exportedField "PtrVal" (.basic Kind.String) (some "PTR_VAL")]
  else .basic Kind.Invalid

/-- The type `structtype` of `TestEmbedded`: a text field, an un-annotated
nested structure and an un-annotated pointer to `Structptr`. -/
def embeddedType : GoType :=
  .struct
    [exportedField "Val" (.basic Kind.String) (some "STRUCT_TEST"),
     exportedField "Embedded"
       (.struct [exportedField "EmbeddedVal" (.basic Kind.String) (some "EMBEDDED_TEST")])
       none,
     exportedField "Ptr" (.ptr (.named "Structptr")) none]

/-- The environment `TestEmbedded` sets up. -/
def embeddedEnv : Env := fun k =>
  if k = "STRUCT_TEST" then "test!!"
  else if k = "EMBEDDED_TEST" then "embedded text"
  else if k = "PTR_VAL" then "ptr value text"
  else ""

/-- The value `structtype{}` of `TestEmbedded`. -/
def embeddedZero : Value := .struct [.string "", .struct [.string ""], .ptr none]

/-- No defined types. -/
def noDecls : Decls := fun _ => .basic Kind.Invalid

/-- An environment without variables. -/
def emptyEnv : Env := fun _ => ""

/-- The type `structtype` of `TestString`: one annotated text field. -/
def stringType : GoType :=
  .struct [exportedField "Val" (.basic Kind.String) (some "STRUCT_TEST")]

/-- The environment `TestString` sets up. -/
def stringEnv : Env := fun k => if k = "STRUCT_TEST" then "test!!" else ""

/-- Declarations for `mixedType`: the defined type `Inner`, a structure with
one annotated text field. -/
def mixedDecls : Decls := fun n =>
  if n = "Inner" then .struct [exportedField "Host" (.basic Kind.String) (some "HOST")]
  else .basic Kind.Invalid

/-- A structure with an annotated text field, an annotated pointer to
`Inner`, and an annotated map from text to integers. -/
def mixedType : GoType :=
  .struct
    [exportedField "Val" (.basic Kind.String) (some "NAME"),
     exportedField "Ptr" (.ptr (.named "Inner")) (some "INNER"),
     exportedField "Limits" (.map (.basic Kind.String) (.basic Kind.Int)) (some "LIMITS")]

/-- An environment that sets NAME and LIMITS and nothing else. -/
def mixedEnv : Env := fun k =>
  if k = "NAME" then "x" else if k = "LIMITS" then "a=1" else ""

/-- The type `invalidstructtype` of `TestMap`: an annotated map from text to
integers. -/
def invalidMapType : GoType :=
  .struct [exportedField "Val" (.map (.basic Kind.String) (.basic Kind.Int)) (some "STRUCT_MAP")]

/-- The environment `TestMap` sets up. -/
def mapEnv : Env := fun k => if k = "STRUCT_MAP" then "a=b,x=y,1=2,!!!!=n" else ""

/-! ## Texts -/

/-- The characters of the pieces, with a separator between neighbours. -/
def joinChars (sep : Char) : List (List Char) → List Char
  | [] => []
  | [a] => a
  | a :: b :: rest => a ++ sep :: joinChars sep (b :: rest)

/-- The text has no occurrence of the character. -/
def Free (c : Char) (s : String) : Prop := c ∉ s.data

/-- The piece reads `k=v` with exactly one '='. -/
def IsPair (piece k v : String) : Prop :=
  piece = k ++ "=" ++ v ∧ Free '=' k ∧ Free '=' v

/-- Among the pieces, the last one that reads `k=...` reads `k=v`. -/
def LastPair (pieces : List String) (k v : String) : Prop :=
  ∃ pre p post, pieces = pre ++ p :: post ∧ IsPair p k v ∧
    ∀ q ∈ post, ∀ v1, ¬ IsPair q k v1

/-- Among the pairs, the last one with key `k` has value `v`. -/
def LastOf (ps : List (String × String)) (k v : String) : Prop :=
  ∃ pre post, ps = pre ++ (k, v) :: post ∧ ∀ q ∈ post, q.1 ≠ k

/-- The value of the last piece that splits at '=' into the key `k` and one
more part. -/
def lastValue : List String → String → Option String
  | [], _ => none
  | p :: rest, k =>
    match lastValue rest k with
    | some v => some v
    | none =>
      match Split p '=' with
      | [k1, v1] => if k1 = k then some v1 else none
      | _ => none

/-- A map built by the coercer: text keys and text elements, no key twice. -/
def TextMap : List (Value × Value) → Prop
  | [] => True
  | (.string k, .string _) :: rest => MapIndex rest k = none ∧ TextMap rest
  | _ :: _ => False

/-- The type `structtype` of `TestSlice`: an annotated list of texts. -/
def sliceType : GoType :=
  .struct [exportedField "Val" (.slice (.basic Kind.String)) (some "STRUCT_TEST")]

/-- The environment in which STRUCT_TEST holds the given texts joined with
commas. -/
def joinedEnv (xs : List String) : Env := fun k =>
  if k = "STRUCT_TEST" then Join xs ',' else ""

/-- Declarations of `TestMap`: the defined type `mapstr`, whose underlying
type is `map[string]string`. -/
def mapstrDecls : Decls := fun n =>
  if n = "mapstr" then .map (.basic Kind.String) (.basic Kind.String)
  else .basic Kind.Invalid

/-! ## Integers -/

/-- The signed integer kinds `setField` names. -/
def signedKind : Kind → Bool
  | .Int => true
  | .Int32 => true
  | .Int64 => true
  | _ => false

/-- The unsigned integer kinds `setField` names. -/
def unsignedKind : Kind → Bool
  | .Uint => true
  | .Uint32 => true
  | .Uint64 => true
  | _ => false

/-- The integer kinds `setField` does not name: 8 and 16 bits wide. -/
def narrowKind : Kind → Bool
  | .Int8 => true
  | .Int16 => true
  | .Uint8 => true
  | .Uint16 => true
  | _ => false

/-- The text starts with a minus sign. -/
def Negative (text : String) : Prop := text.data.head? = some '-'

/-- The digit a character denotes in a numeral: '0' to '9', then the
letters, in either case, counting from ten. -/
def digitOfChar (c : Char) : Option Nat :=
  if 48 ≤ c.toNat ∧ c.toNat ≤ 57 then some (c.toNat - 48)
  else if 97 ≤ c.toNat ∧ c.toNat ≤ 122 then some (c.toNat - 97 + 10)
  else if 65 ≤ c.toNat ∧ c.toNat ≤ 90 then some (c.toNat - 65 + 10)
  else none

/-- The radix of a numeral: decimal, base 16 with the prefix 0x or 0X, base 8
with a leading 0. -/
inductive Radix
  | decimal
  | hex
  | octal

/-- The base of a radix. -/
def Radix.base : Radix → Nat
  | .decimal => 10
  | .hex => 16
  | .octal => 8

/-- The number denoted by digits, most significant first, in base `b`. -/
def digitsValue (b : Nat) (ds : List Nat) : Nat :=
  ds.foldl (fun acc d => acc * b + d) 0

/-- The characters `cs` are a numeral of radix `r` with the digits `ds`: the
prefix of the radix followed by at least one digit character, each digit
below the base; a decimal numeral has no leading zero. -/
def IsNumeral (cs : List Char) (r : Radix) (ds : List Nat) : Prop :=
  ∃ body : List Char, body.map digitOfChar = ds.map some ∧ (∀ d ∈ ds, d < r.base) ∧
    ds ≠ [] ∧
    match r with
    | .decimal => cs = body ∧ (ds.head? = some 0 → ds = [0])
    | .hex => cs = '0' :: 'x' :: body ∨ cs = '0' :: 'X' :: body
    | .octal => cs = '0' :: body

/-- The sign written in front of a numeral. -/
inductive Sign
  | absent
  | plus
  | minus

/-- The characters of a sign. -/
def Sign.chars : Sign → List Char
  | .absent => []
  | .plus => ['+']
  | .minus => ['-']

/-- The integer a sign makes of a magnitude. -/
def Sign.apply : Sign → Nat → Int
  | .minus, n => -(n : Int)
  | _, n => (n : Int)

/-- The characters `cs` are a sign followed by a numeral. -/
def IsSignedNumeral (cs : List Char) (sg : Sign) (r : Radix) (ds : List Nat) : Prop :=
  ∃ body, cs = sg.chars ++ body ∧ IsNumeral body r ds

/-- The character of a decimal digit. -/
def digitChar (d : Nat) : Char := Char.ofNat (48 + d)

/-- The decimal text of a natural number, `strconv.FormatUint(n, 10)`. -/
def FormatUint (n : Nat) : String :=
  if n = 0 then "0" else String.mk ((Nat.digits 10 n).reverse.map digitChar)

/-- The decimal text of an integer, `strconv.FormatInt(m, 10)`. -/
def FormatInt (m : Int) : String :=
  if m < 0 then String.mk ('-' :: (FormatUint m.natAbs).data) else FormatUint m.natAbs

/-- The type `structtype` of `TestIntegers`. -/
def integersType : GoType :=
  .struct
    [exportedField "Int" (.basic Kind.Int) (some "V_INT"),
     exportedField "Int32" (.basic Kind.Int32) (some "V_INT32"),
     exportedField "Int64" (.basic Kind.Int64) (some "V_INT64"),
     exportedField "Uint" (.basic Kind.Uint) (some "V_UINT"),
     exportedField "Uint32" (.basic Kind.Uint32) (some "V_UINT32"),
     exportedField "Uint64" (.basic Kind.Uint64) (some "V_UINT64")]

/-- The environment `TestIntegers` sets up. -/
def integersEnv : Env := fun k =>
  if k = "V_INT" then "255"
  else if k = "V_INT32" then "392930"
  else if k = "V_INT64" then "39292309209302"
  else if k = "V_UINT" then "255"
  else if k = "V_UINT32" then "392930"
  else if k = "V_UINT64" then "39292309209302"
  else ""

/-! ## The loop inside `Decode` -/

/-- The recursive call that `Decode` with budget `n` makes on a field. -/
def innerDecode [CaseTables] : Nat → Decls → Env → GoType → Value → Option (Value × Outcome)
  | 0, _, _ => fun _ _ => none
  | n + 1, D, env => Decode n D env

/-- One iteration of the field loop inside `Decode` with budget `n`, on a
structure reached through a pointer. -/
def fieldStep [CaseTables] (n : Nat) (D : Decls) (env : Env) :
    StructField GoType → Value → Option (Value × Outcome) :=
  decodeField (innerDecode n D env) (setField n D) (Zero n D) D env true

/-- A structure whose second field, a map from text to integers, cannot be
decoded, between two text fields. -/
def failFastType : GoType :=
  .struct
    [exportedField "First" (.basic Kind.String) (some "NAME"),
     exportedField "Limits" (.map (.basic Kind.String) (.basic Kind.Int)) (some "LIMITS"),
     exportedField "Last" (.basic Kind.String) (some "NAME")]

/-- The kinds `setField` names in its switch. -/
def supportedKind : Kind → Bool
  | .String => true
  | .Int => true
  | .Int32 => true
  | .Int64 => true
  | .Uint => true
  | .Uint32 => true
  | .Uint64 => true
  | .Slice => true
  | .Map => true
  | .Bool => true
  | _ => false

/-- A structure with one annotated pointer to `Inner` (of `mixedDecls`). -/
def ptrHolderType : GoType :=
  .struct [exportedField "Cfg" (.ptr (.named "Inner")) (some "CFG")]

/-- A structure with one annotated nested structure of type `Inner`. -/
def structHolderType : GoType :=
  .struct [exportedField "Cfg" (.named "Inner") (some "CFG")]

/-- An environment that sets CFG and nothing else. -/
def cfgEnv : Env := fun k => if k = "CFG" then "x" else ""

/-- A structure with one annotated nested structure whose only field is a
map from text to integers. -/
def badNestedType : GoType :=
  .struct
    [exportedField "Cfg"
      (.struct
        [exportedField "Limits" (.map (.basic Kind.String) (.basic Kind.Int)) (some "LIMITS")])
      (some "CFG")]

/-- An environment that sets CFG and LIMITS. -/
def cfgLimitsEnv : Env := fun k =>
  if k = "CFG" then "x" else if k = "LIMITS" then "a=1" else ""

/-- A structure with one annotated pointer to an integer. -/
def intPtrType : GoType :=
  .struct [exportedField "Count" (.ptr (.basic Kind.Int)) (some "COUNT")]

/-- A structure with a text field, a pointer to `Inner` (of `mixedDecls`), a
list of texts and a map from text to text, all annotated. -/
def fullType : GoType :=
  .struct
    [exportedField "Val" (.basic Kind.String) (some "NAME"),
     exportedField "Cfg" (.ptr (.named "Inner")) (some "CFG"),
     exportedField "Tags" (.slice (.basic Kind.String)) (some "TAGS"),
     exportedField "Labels" (.map (.basic Kind.String) (.basic Kind.String)) (some "LABELS")]

/-- An environment for `fullType`. -/
def fullEnv : Env := fun k =>
  if k = "NAME" then "x"
  else if k = "HOST" then "h"
  else if k = "TAGS" then "a,b"
  else if k = "LABELS" then "k=v"
  else ""

/-- The result of decoding the zero value of `fullType` under `fullEnv`. -/
def fullDecoded : Value :=
  .ptr (some (.struct
    [.string "x", .ptr (some (.struct [.string "h"])),
     .slice (some [.string "a", .string "b"]),
     .map (some [(.string "k", .string "v")])]))

/-! ## Termination: the types on which the recursion ends, and the count of iterations -/

/-- One level of `zeroDepth`; `self` is used for the types nested by
value. -/
def zeroDepthBody (self : GoType → Bool) (D : Decls) : GoType → Bool
  | .struct fs => fs.all (fun f => self f.typ)
  | .named n => self (D n)
  | _ => true

/-- The recursion of `Zero` on the type ends within `n` nested calls: the
type nests structures by value to depth at most `n`.  Pointers, lists and
maps end the nesting, their zero value being nil.  Every type that Go accepts
has such an `n`. -/
def zeroDepth : Nat → Decls → GoType → Bool
  | 0, D, t => zeroDepthBody (fun _ => false) D t
  | n + 1, D, t => zeroDepthBody (zeroDepth n D) D t

/-- One level of `coerceDepth`; `self` is used for the element type of a
list and `zeroOk` for its zero value. -/
def coerceDepthBody (self zeroOk : GoType → Bool) (D : Decls) (t : GoType) : Bool :=
  if kind D t = Kind.Slice then zeroOk (elemType D t) && self (elemType D t) else true

/-- The recursion of `setField` on the type ends within `n` nested calls:
lists are nested in lists to depth at most `n`, and the elements have zero
values. -/
def coerceDepth : Nat → Decls → GoType → Bool
  | 0, D, t => coerceDepthBody (fun _ => false) (zeroDepth 0 D) D t
  | n + 1, D, t => coerceDepthBody (coerceDepth n D) (zeroDepth (n + 1) D) D t

/-- The field is one that `Decode` does not skip in a structure reached
through a pointer: it is annotated and can be set. -/
def followed (f : StructField GoType) : Bool := f.tag.isSome && f.exported

/-- What the iteration for one field needs in order to end: nothing for a
field that is skipped; for a pointer field a zero value of the element type
and the end of the recursive call on the field's type; for a structure field
the end of the recursive call on a pointer to it; for any other field the end
of the coercer. -/
def walkField (self zeroOk coerceOk : GoType → Bool) (D : Decls)
    (f : StructField GoType) : Bool :=
  !followed f ||
    (if kind D f.typ = Kind.Ptr then zeroOk (elemType D f.typ) && self f.typ
     else if kind D f.typ = Kind.Struct then self (.ptr f.typ)
     else coerceOk f.typ)

/-- One level of `walkDepth`, for the type of an argument of `Decode`; `self`
is used for the types of the recursive calls. -/
def walkDepthBody (self zeroOk coerceOk : GoType → Bool) (D : Decls) (t : GoType) : Bool :=
  match resolve D t with
  | .ptr et =>
    match resolve D et with
    | .struct fs => fs.all (walkField self zeroOk coerceOk D)
    | _ => true
  | _ => true

/-- The recursion of `Decode` on an argument of type `t` ends within `n`
nested calls, whatever the values: the pointer and structure fields that
`Decode` follows, the annotated ones that can be set, lead within `n` steps
to structures without such fields.  Fields that `Decode` skips do not count.
A type that reaches itself through followed fields has no such `n`. -/
def walkDepth : Nat → Decls → GoType → Bool
  | 0, D, t => walkDepthBody (fun _ => false) (zeroDepth 0 D) (coerceDepth 0 D) D t
  | n + 1, D, t =>
    walkDepthBody (walkDepth n D) (zeroDepth (n + 1) D) (coerceDepth (n + 1) D) D t

/-- Number of iterations of the field loop that the iteration for the field
`f` accounts for: itself and the iterations of its recursive call;
`selfCount` counts those of a recursive call. -/
def iterationsField (selfCount : GoType → Value → Option Nat)
    (zero : GoType → Option Value) (D : Decls) (addressable : Bool)
    (f : StructField GoType) (fval : Value) : Option Nat :=
  match f.tag with
  | none => some 1
  | some _ =>
    if (addressable && f.exported) = false then some 1
    else if kind D f.typ = Kind.Ptr then
      match allocIfNil zero (elemType D f.typ) fval with
      | none => none
      | some fval1 =>
        match selfCount f.typ fval1 with
        | none => none
        | some k => some (k + 1)
    else if kind D f.typ = Kind.Struct then
      match selfCount (.ptr f.typ) (.ptr (some fval)) with
      | none => none
      | some k => some (k + 1)
    else some 1

/-- Number of iterations that the field loop of `Decode` runs, those of
recursive calls included: the loop ends with the first iteration whose
outcome is not nil. -/
def iterationsFields (step : StructField GoType → Value → Option (Value × Outcome))
    (count : StructField GoType → Value → Option Nat) :
    List (StructField GoType) → List Value → Option Nat
  | f :: fs, v :: vs =>
    match count f v with
    | none => none
    | some k =>
      match step f v with
      | none => none
      | some (_, .nil) =>
        match iterationsFields step count fs vs with
        | none => none
        | some l => some (k + l)
      | some (_, _) => some k
  | _, _ => some 0

/-- Number of iterations of the field loop in one call of `Decode`, after
`DecodeBody`; `selfCount` counts the iterations of a recursive call. -/
def IterationsBody [CaseTables] (selfCount : GoType → Value → Option Nat)
    (self : GoType → Value → Option (Value × Outcome))
    (setF : GoType → Value → String → Option (Value × Outcome))
    (zero : GoType → Option Value) (D : Decls) (env : Env) (t : GoType) (v : Value) :
    Option Nat :=
  match resolve D t with
  | .ptr et =>
    match v with
    | .ptr (some pv) =>
      match resolve D et with
      | .struct fs =>
        match pv with
        | .struct vs =>
          iterationsFields (decodeField self setF zero D env true)
            (iterationsField selfCount zero D true) fs vs
        | _ => some 0
      | _ => some 0
    | _ => some 0
  | .struct fs =>
    match v with
    | .struct vs =>
      iterationsFields (decodeField self setF zero D env false)
        (iterationsField selfCount zero D false) fs vs
    | _ => some 0
  | _ => some 0

/-- Number of iterations of the field loop that `Decode(v)` runs in all,
nested calls included; `none` when the recursion budget is too small. -/
def Iterations [CaseTables] : Nat → Decls → Env → GoType → Value → Option Nat
  | 0, D, env =>
    IterationsBody (fun _ _ => none) (fun _ _ => none) (setField 0 D) (Zero 0 D) D env
  | n + 1, D, env =>
    IterationsBody (Iterations n D env) (Decode n D env) (setField (n + 1) D)
      (Zero (n + 1) D) D env

/-- The share of one field in the static field count: the field itself and,
for a followed pointer or structure field, the fields counted for the type of
its recursive call. -/
def fieldCountField (self : GoType → Nat) (D : Decls) (addressable : Bool)
    (f : StructField GoType) : Nat :=
  if (f.tag.isSome && (addressable && f.exported)) = false then 1
  else if kind D f.typ = Kind.Ptr then self f.typ + 1
  else if kind D f.typ = Kind.Struct then self (.ptr f.typ) + 1
  else 1

/-- One level of `fieldCount`. -/
def fieldCountBody (self : GoType → Nat) (D : Decls) (t : GoType) : Nat :=
  match resolve D t with
  | .ptr et =>
    match resolve D et with
    | .struct fs => (fs.map (fieldCountField self D true)).sum
    | _ => 0
  | .struct fs => (fs.map (fieldCountField self D false)).sum
  | _ => 0

/-- The static field count of the type of an argument of `Decode`, to nesting
depth `n`: the fields of the structure and, through its followed pointer and
structure fields, the fields of the structures they lead to. -/
def fieldCount : Nat → Decls → GoType → Nat
  | 0, D, t => fieldCountBody (fun _ => 0) D t
  | n + 1, D, t => fieldCountBody (fieldCount n D) D t

/-- Declarations of a chain whose link is not annotated:
`type Chain struct { Val string; Next *Chain }`, `Val` annotated with NAME
and `Next` without annotation. -/
def chainDecls : Decls := fun n =>
  if n = "Chain" then
    .struct [exportedField "Val" (.basic Kind.String) (some "NAME"),
      exportedField "Next" (.ptr (.named "Chain")) none]
  else .basic Kind.Invalid

/-- Declarations of a list node: `type Node struct { Next *Node }`, the
pointer annotated with NEXT. -/
def nodeDecls : Decls := fun n =>
  if n = "Node" then
    .struct [exportedField "Next" (.ptr (.named "Node")) (some "NEXT")]
  else .basic Kind.Invalid

/-! ## Types that differ only in annotations -/

/-- Two annotations name the same variable, on which the two environments
agree: they are equal after upper-casing and the variable of that name has
the same value in both environments. -/
def SameUpper [CaseTables] (env1 env2 : Env) (a b : String) : Prop :=
  ToUpper a = ToUpper b ∧ env1 (ToUpper a) = env2 (ToUpper a)

/-- Corresponding annotations: both absent, or both present and naming the
same variable. -/
def TagsAlike [CaseTables] (env1 env2 : Env) : Option String → Option String → Prop
  | none, none => True
  | some a, some b => SameUpper env1 env2 a b
  | _, _ => False

/-- Corresponding fields: same name, same visibility, corresponding
annotations, types related by `R`. -/
def FieldsAlike [CaseTables] (env1 env2 : Env) (R : GoType → GoType → Prop)
    (f g : StructField GoType) : Prop :=
  f.name = g.name ∧ f.exported = g.exported ∧ TagsAlike env1 env2 f.tag g.tag ∧
    R f.typ g.typ

/-- One level of the comparison of two types: same constructor, same kind,
same name; components related by `R`; map types identical. -/
def AlikeStep [CaseTables] (env1 env2 : Env) (R : GoType → GoType → Prop) (D1 D2 : Decls) :
    GoType → GoType → Prop
  | .basic k1, .basic k2 => k1 = k2
  | .slice a, .slice b => R a b
  | .map k1 e1, .map k2 e2 => k1 = k2 ∧ e1 = e2
  | .ptr a, .ptr b => R a b
  | .struct fs, .struct gs => List.Forall₂ (FieldsAlike env1 env2 R) fs gs
  | .named n, .named m => n = m ∧ R (D1 n) (D2 n)
  | _, _ => False

/-- The relation `R` only relates types that are identical except for their
annotations, corresponding annotations naming the same variable (`SameUpper`):
every pair in `R` passes one level of comparison, with components again in
`R`.  Types that mention themselves are covered. -/
def Alike [CaseTables] (env1 env2 : Env) (R : GoType → GoType → Prop) (D1 D2 : Decls) : Prop :=
  ∀ t1 t2, R t1 t2 → AlikeStep env1 env2 R D1 D2 t1 t2

/-- The relation `R` extended by the pair of invalid types. -/
def orInvalid (R : GoType → GoType → Prop) (a b : GoType) : Prop :=
  R a b ∨ (a = .basic Kind.Invalid ∧ b = .basic Kind.Invalid)

/-- The type of `TestString` with its annotation in lower case. -/
def lowerStringType : GoType :=
  .struct [exportedField "Val" (.basic Kind.String) (some "struct_test")]

/-- The types of `TestString` with the annotation in upper and in lower case,
pointers to them, and their field types. -/
def stringRel (a b : GoType) : Prop :=
  (a = .ptr stringType ∧ b = .ptr lowerStringType) ∨
  (a = stringType ∧ b = lowerStringType) ∨
  (a = .basic Kind.String ∧ b = .basic Kind.String)

/-! ## The field loop -/

theorem decodeFields_length (step : StructField GoType → Value → Option (Value × Outcome)) :
    ∀ (fs : List (StructField GoType)) (vs vs1 : List Value) (o : Outcome),
      decodeFields step fs vs = some (vs1, o) → vs1.length = vs.length := by
  intro fs
  induction fs with
  | nil =>
    intro vs vs1 o h
    simp [decodeFields] at h
    rw [h.1]
  | cons f fs ih =>
    intro vs vs1 o h
    cases vs with
    | nil =>
      simp [decodeFields] at h
      rw [← h.1]
    | cons v vs =>
      rw [decodeFields] at h
      cases hs : step f v with
      | none => simp [hs] at h
      | some r =>
        obtain ⟨v1, o1⟩ := r
        cases o1 with
        | nil =>
          simp only [hs] at h
          cases hr : decodeFields step fs vs with
          | none => simp [hr] at h
          | some r2 =>
            obtain ⟨vs2, o2⟩ := r2
            simp only [hr, Option.some.injEq, Prod.mk.injEq] at h
            rw [← h.1]
            simp [ih vs vs2 o2 hr]
        | error e =>
          simp only [hs, Option.some.injEq, Prod.mk.injEq] at h
          rw [← h.1]; simp
        | halt p =>
          simp only [hs, Option.some.injEq, Prod.mk.injEq] at h
          rw [← h.1]; simp

/-- A field whose iteration never changes its value has, after the loop, the
value it had before, whatever the outcome of the loop. -/
theorem decodeFields_frame (step : StructField GoType → Value → Option (Value × Outcome)) :
    ∀ (fs : List (StructField GoType)) (vs vs1 : List Value) (o : Outcome) (i : Nat),
      decodeFields step fs vs = some (vs1, o) →
      (∀ (f : StructField GoType) (v : Value) (r : Value × Outcome),
        fs[i]? = some f → vs[i]? = some v → step f v = some r → r.1 = v) →
      vs1[i]? = vs[i]? := by
  intro fs
  induction fs with
  | nil =>
    intro vs vs1 o i h _
    simp [decodeFields] at h
    rw [h.1]
  | cons f fs ih =>
    intro vs vs1 o i h hi
    cases vs with
    | nil =>
      simp [decodeFields] at h
      rw [← h.1]
    | cons v vs =>
      rw [decodeFields] at h
      cases hs : step f v with
      | none => simp [hs] at h
      | some r =>
        obtain ⟨v1, o1⟩ := r
        have key : ∀ vs2 : List Value,
            (i ≠ 0 → vs2[i - 1]? = vs[i - 1]?) → (v1 :: vs2)[i]? = (v :: vs)[i]? := by
          intro vs2 h2
          cases i with
          | zero =>
            have := hi f v (v1, o1) (by simp) (by simp) hs
            simp at this
            simp [this]
          | succ k => simpa using h2 (by simp)
        cases o1 with
        | nil =>
          simp only [hs] at h
          cases hr : decodeFields step fs vs with
          | none => simp [hr] at h
          | some r2 =>
            obtain ⟨vs2, o2⟩ := r2
            simp only [hr, Option.some.injEq, Prod.mk.injEq] at h
            rw [← h.1]
            apply key vs2
            intro hne
            apply ih vs vs2 o2 (i - 1) hr
            intro g w r hg hw
            apply hi g w r
            · cases i with
              | zero => exact absurd rfl hne
              | succ k => simpa using hg
            · cases i with
              | zero => exact absurd rfl hne
              | succ k => simpa using hw
        | error e =>
          simp only [hs, Option.some.injEq, Prod.mk.injEq] at h
          rw [← h.1]
          exact key vs (fun _ => rfl)
        | halt p =>
          simp only [hs, Option.some.injEq, Prod.mk.injEq] at h
          rw [← h.1]
          exact key vs (fun _ => rfl)

/-- When the loop ends with nil, every field holds what its own iteration
produced, and that iteration ended with nil. -/
theorem decodeFields_nil_get (step : StructField GoType → Value → Option (Value × Outcome)) :
    ∀ (fs : List (StructField GoType)) (vs vs1 : List Value) (i : Nat)
      (f : StructField GoType) (v : Value),
      decodeFields step fs vs = some (vs1, Outcome.nil) →
      fs[i]? = some f → vs[i]? = some v →
      ∃ v1, vs1[i]? = some v1 ∧ step f v = some (v1, Outcome.nil) := by
  intro fs
  induction fs with
  | nil => intro vs vs1 i f v _ hf; simp at hf
  | cons f0 fs ih =>
    intro vs vs1 i f v h hf hv
    cases vs with
    | nil => simp at hv
    | cons v0 vs =>
      rw [decodeFields] at h
      cases hs : step f0 v0 with
      | none => simp [hs] at h
      | some r =>
        obtain ⟨v1, o1⟩ := r
        cases o1 with
        | nil =>
          simp only [hs] at h
          cases hr : decodeFields step fs vs with
          | none => simp [hr] at h
          | some r2 =>
            obtain ⟨vs2, o2⟩ := r2
            simp only [hr, Option.some.injEq, Prod.mk.injEq] at h
            obtain ⟨h1, h2⟩ := h
            subst h1; subst h2
            cases i with
            | zero =>
              simp at hf hv
              subst hf; subst hv
              exact ⟨v1, by simp, hs⟩
            | succ k =>
              simp at hf hv
              obtain ⟨w, hw1, hw2⟩ := ih vs vs2 k f v hr hf hv
              exact ⟨w, by simpa using hw1, hw2⟩
        | error e => simp [hs] at h
        | halt p => simp [hs] at h

/-- When every iteration ends with nil, so does the loop. -/
theorem decodeFields_all_nil (step : StructField GoType → Value → Option (Value × Outcome)) :
    ∀ (fs : List (StructField GoType)) (vs : List Value),
      (∀ (i : Nat) (f : StructField GoType) (v : Value), fs[i]? = some f → vs[i]? = some v →
        ∃ v1, step f v = some (v1, Outcome.nil)) →
      ∃ vs1, decodeFields step fs vs = some (vs1, Outcome.nil) := by
  intro fs
  induction fs with
  | nil => intro vs _; exact ⟨vs, by simp [decodeFields]⟩
  | cons f0 fs ih =>
    intro vs h
    cases vs with
    | nil => exact ⟨[], by simp [decodeFields]⟩
    | cons v0 vs =>
      obtain ⟨v1, hv1⟩ := h 0 f0 v0 (by simp) (by simp)
      obtain ⟨vs1, hvs1⟩ := ih vs (fun i f v hf hv => h (i + 1) f v (by simpa using hf)
        (by simpa using hv))
      exact ⟨v1 :: vs1, by rw [decodeFields]; simp [hv1, hvs1]⟩

/-- The loop ends with the outcome of the first iteration that does not end
with nil. -/
theorem decodeFields_first_failure
    (step : StructField GoType → Value → Option (Value × Outcome)) :
    ∀ (fs : List (StructField GoType)) (vs : List Value) (i : Nat)
      (f : StructField GoType) (v v1 : Value) (o : Outcome),
      fs[i]? = some f → vs[i]? = some v → step f v = some (v1, o) → o ≠ Outcome.nil →
      (∀ (j : Nat) (g : StructField GoType) (w : Value), j < i → fs[j]? = some g →
        vs[j]? = some w →
        ∃ w1, step g w = some (w1, Outcome.nil)) →
      ∃ vs1, decodeFields step fs vs = some (vs1, o) := by
  intro fs
  induction fs with
  | nil => intro vs i f v v1 o hf; simp at hf
  | cons f0 fs ih =>
    intro vs i f v v1 o hf hv hs ho hb
    cases vs with
    | nil => simp at hv
    | cons v0 vs =>
      cases i with
      | zero =>
        simp at hf hv
        subst hf; subst hv
        refine ⟨v1 :: vs, ?_⟩
        rw [decodeFields]
        cases o with
        | nil => exact absurd rfl ho
        | error e => simp [hs]
        | halt p => simp [hs]
      | succ k =>
        simp at hf hv
        obtain ⟨w1, hw1⟩ := hb 0 f0 v0 (by omega) (by simp) (by simp)
        obtain ⟨vs1, hvs1⟩ := ih vs k f v v1 o hf hv hs ho
          (fun j g w hj hg hw => hb (j + 1) g w (by omega) (by simpa using hg)
            (by simpa using hw))
        exact ⟨w1 :: vs1, by rw [decodeFields]; simp [hw1, hvs1]⟩

/-- When every iteration returns nil without writing, the loop returns nil
and the fields are as before. -/
theorem decodeFields_unchanged (step : StructField GoType → Value → Option (Value × Outcome)) :
    ∀ (fs : List (StructField GoType)) (vs : List Value),
      (∀ f ∈ fs, ∀ v, step f v = some (v, Outcome.nil)) →
      decodeFields step fs vs = some (vs, Outcome.nil) := by
  intro fs
  induction fs with
  | nil => intro vs _; simp [decodeFields]
  | cons f0 fs ih =>
    intro vs h
    cases vs with
    | nil => simp [decodeFields]
    | cons v0 vs =>
      rw [decodeFields]
      simp [h f0 (by simp) v0, ih vs (fun f hf v => h f (by simp [hf]) v)]

/-! ## Unfolding `Decode` and `setField` -/

theorem Decode_eq_body [CaseTables] (n : Nat) (D : Decls) (env : Env) :
    ∃ self, Decode n D env = DecodeBody self (setField n D) (Zero n D) D env := by
  cases n with
  | zero => exact ⟨_, rfl⟩
  | succ k => exact ⟨_, rfl⟩

theorem setField_eq_body (n : Nat) (D : Decls) :
    ∃ self, setField n D = setFieldBody self (Zero n D) D := by
  cases n with
  | zero => exact ⟨_, rfl⟩
  | succ k => exact ⟨_, rfl⟩

theorem DecodeBody_ptr_struct [CaseTables] (self : GoType → Value → Option (Value × Outcome))
    (setF : GoType → Value → String → Option (Value × Outcome))
    (zero : GoType → Option Value) (D : Decls) (env : Env) (t et : GoType)
    (fs : List (StructField GoType)) (vs : List Value)
    (ht : resolve D t = .ptr et) (he : resolve D et = .struct fs) :
    DecodeBody self setF zero D env t (.ptr (some (.struct vs))) =
      match decodeFields (decodeField self setF zero D env true) fs vs with
      | none => none
      | some (vs1, o) => some (.ptr (some (.struct vs1)), o) := by
  simp [DecodeBody, ht, he]

/-- A field without annotation, or one that cannot be set, is passed over. -/
theorem decodeField_skip [CaseTables] (self : GoType → Value → Option (Value × Outcome))
    (setF : GoType → Value → String → Option (Value × Outcome))
    (zero : GoType → Option Value) (D : Decls) (env : Env) (a : Bool)
    (f : StructField GoType) (v : Value) (h : f.tag = none ∨ f.exported = false) :
    decodeField self setF zero D env a f v = some (v, Outcome.nil) := by
  unfold decodeField
  rcases h with h | h
  · simp [h]
  · cases f.tag <;> simp [h]

/-- An annotated, settable field that is neither a pointer nor a structure:
the variable is looked up and a non-empty text goes to the coercer. -/
theorem decodeField_leaf [CaseTables] (self : GoType → Value → Option (Value × Outcome))
    (setF : GoType → Value → String → Option (Value × Outcome))
    (zero : GoType → Option Value) (D : Decls) (env : Env)
    (f : StructField GoType) (v : Value) (tg : String)
    (htag : f.tag = some tg) (hex : f.exported = true)
    (hp : kind D f.typ ≠ Kind.Ptr) (hs : kind D f.typ ≠ Kind.Struct) :
    decodeField self setF zero D env true f v =
      if env (ToUpper tg) = "" then some (v, Outcome.nil)
      else setF f.typ v (env (ToUpper tg)) := by
  unfold decodeField
  simp [htag, hex, hp, hs]

/-- An annotated field that is neither a pointer nor a structure and whose
variable is absent or empty is left as it is. -/
theorem decodeField_leaf_empty [CaseTables] (self : GoType → Value → Option (Value × Outcome))
    (setF : GoType → Value → String → Option (Value × Outcome))
    (zero : GoType → Option Value) (D : Decls) (env : Env) (a : Bool)
    (f : StructField GoType) (v : Value) (tg : String)
    (htag : f.tag = some tg)
    (hp : kind D f.typ ≠ Kind.Ptr) (hs : kind D f.typ ≠ Kind.Struct)
    (he : env (ToUpper tg) = "") :
    decodeField self setF zero D env a f v = some (v, Outcome.nil) := by
  unfold decodeField
  by_cases hx : (a && f.exported) = false
  · simp [htag, hx]
  · simp [htag, hx, hp, hs, he]

/-- On a scalar kind the coercer returns nil. -/
theorem setFieldBody_scalar (self : GoType → Value → String → Option (Value × Outcome))
    (zero : GoType → Option Value) (D : Decls) (t : GoType) (v : Value) (s : String)
    (h : scalarKind (kind D t) = true) :
    ∃ v1, setFieldBody self zero D t v s = some (v1, Outcome.nil) := by
  unfold setFieldBody
  cases hk : kind D t <;> simp [hk, scalarKind] at h ⊢

theorem setField_scalar (n : Nat) (D : Decls) (t : GoType) (v : Value) (s : String)
    (h : scalarKind (kind D t) = true) :
    ∃ v1, setField n D t v s = some (v1, Outcome.nil) := by
  obtain ⟨self, hself⟩ := setField_eq_body n D
  rw [hself]
  exact setFieldBody_scalar self _ D t v s h

/-- The iteration of a benign field ends with nil. -/
theorem decodeField_benign [CaseTables] (self : GoType → Value → Option (Value × Outcome))
    (zero : GoType → Option Value) (n : Nat) (D : Decls) (env : Env)
    (g : StructField GoType) (w : Value) (h : Benign D g) :
    ∃ w1, decodeField self (setField n D) zero D env true g w = some (w1, Outcome.nil) := by
  rcases h with h | h | h
  · exact ⟨w, decodeField_skip _ _ _ _ _ _ _ _ (Or.inl h)⟩
  · exact ⟨w, decodeField_skip _ _ _ _ _ _ _ _ (Or.inr h)⟩
  · cases htag : g.tag with
    | none => exact ⟨w, decodeField_skip _ _ _ _ _ _ _ _ (Or.inl htag)⟩
    | some tg =>
      cases hex : g.exported with
      | false => exact ⟨w, decodeField_skip _ _ _ _ _ _ _ _ (Or.inr hex)⟩
      | true =>
        have hp : kind D g.typ ≠ Kind.Ptr := by
          intro hk; rw [hk] at h; simp [scalarKind] at h
        have hs : kind D g.typ ≠ Kind.Struct := by
          intro hk; rw [hk] at h; simp [scalarKind] at h
        rw [decodeField_leaf _ _ _ _ _ _ _ tg htag hex hp hs]
        by_cases he : env (ToUpper tg) = ""
        · exact ⟨w, by simp [he]⟩
        · simp only [he, if_false]
          exact setField_scalar n D g.typ w _ h

/-- A field that is `Untouched` keeps its value in its iteration. -/
theorem decodeField_untouched [CaseTables] (self : GoType → Value → Option (Value × Outcome))
    (setF : GoType → Value → String → Option (Value × Outcome))
    (zero : GoType → Option Value) (D : Decls) (env : Env) (a : Bool)
    (g : StructField GoType) (w : Value) (h : Untouched D env g) :
    decodeField self setF zero D env a g w = some (w, Outcome.nil) := by
  rcases h with h | h | ⟨tg, h1, h2, h3, h4⟩
  · exact decodeField_skip _ _ _ _ _ _ _ _ (Or.inl h)
  · exact decodeField_skip _ _ _ _ _ _ _ _ (Or.inr h)
  · exact decodeField_leaf_empty _ _ _ _ _ _ _ _ tg h1 h3 h4 h2

/-- Decoding a pointer to a structure, in terms of the field loop. -/
theorem Decode_ptr_struct [CaseTables] (n : Nat) (D : Decls) (env : Env) (t et : GoType)
    (fs : List (StructField GoType)) (vs : List Value)
    (ht : resolve D t = .ptr et) (he : resolve D et = .struct fs) :
    ∃ self, Decode n D env t (.ptr (some (.struct vs))) =
      match decodeFields (decodeField self (setField n D) (Zero n D) D env true) fs vs with
      | none => none
      | some (vs1, o) => some (.ptr (some (.struct vs1)), o) := by
  obtain ⟨self, hself⟩ := Decode_eq_body n D env
  exact ⟨self, by rw [hself, DecodeBody_ptr_struct _ _ _ _ _ _ _ _ _ ht he]⟩

theorem setField_string (n : Nat) (D : Decls) (t : GoType) (v : Value) (s : String)
    (h : kind D t = Kind.String) :
    setField n D t v s = some (.string s, Outcome.nil) := by
  obtain ⟨self, hself⟩ := setField_eq_body n D
  rw [hself]
  simp [setFieldBody, h]

theorem setField_map_unconvertible (n : Nat) (D : Decls) (t : GoType) (v : Value)
    (s : String) (h : kind D t = Kind.Map) (hc : ConvertibleToAllowed D t = false) :
    setField n D t v s = some (v, Outcome.error (.mapNotConvertible t)) := by
  obtain ⟨self, hself⟩ := setField_eq_body n D
  rw [hself]
  simp [setFieldBody, h, hc]

/-! ## Splitting and joining -/

theorem splitChars_ne_nil (sep : Char) (cs : List Char) : splitChars sep cs ≠ [] := by
  cases cs with
  | nil => simp [splitChars]
  | cons c cs =>
    rw [splitChars]
    split_ifs
    · simp
    · cases splitChars sep cs <;> simp

theorem splitChars_free (sep : Char) (a : List Char) (h : sep ∉ a) :
    splitChars sep a = [a] := by
  induction a with
  | nil => simp [splitChars]
  | cons c cs ih =>
    simp only [List.mem_cons, not_or] at h
    rw [splitChars, if_neg (fun e => h.1 e.symm), ih h.2]

theorem splitChars_append_sep (sep : Char) (a rest : List Char) (h : sep ∉ a) :
    splitChars sep (a ++ sep :: rest) = a :: splitChars sep rest := by
  induction a with
  | nil => simp [splitChars]
  | cons c cs ih =>
    simp only [List.mem_cons, not_or] at h
    rw [List.cons_append, splitChars, if_neg (fun e => h.1 e.symm), ih h.2]

theorem splitChars_joinChars (sep : Char) :
    ∀ ps : List (List Char), ps ≠ [] → (∀ p ∈ ps, sep ∉ p) →
      splitChars sep (joinChars sep ps) = ps := by
  intro ps
  induction ps with
  | nil => intro h; exact absurd rfl h
  | cons a rest ih =>
    intro _ hfree
    cases rest with
    | nil => exact splitChars_free sep a (hfree a (by simp))
    | cons b rest =>
      rw [joinChars, splitChars_append_sep sep a _ (hfree a (by simp)),
        ih (by simp) (fun p hp => hfree p (by simp [hp]))]

theorem joinChars_splitChars (sep : Char) (cs : List Char) :
    joinChars sep (splitChars sep cs) = cs := by
  induction cs with
  | nil => simp [splitChars, joinChars]
  | cons c cs ih =>
    rw [splitChars]
    split_ifs with h
    · cases hs : splitChars sep cs with
      | nil => exact absurd hs (splitChars_ne_nil sep cs)
      | cons p ps =>
        rw [hs] at ih
        simp [joinChars, ih, h]
    · cases hs : splitChars sep cs with
      | nil => exact absurd hs (splitChars_ne_nil sep cs)
      | cons p ps =>
        rw [hs] at ih
        cases ps with
        | nil => simpa [joinChars] using ih
        | cons q qs =>
          simp only [joinChars] at ih ⊢
          simp [ih]

theorem splitChars_pieces_free (sep : Char) (cs : List Char) :
    ∀ p ∈ splitChars sep cs, sep ∉ p := by
  induction cs with
  | nil => simp [splitChars]
  | cons c cs ih =>
    rw [splitChars]
    split_ifs with h
    · intro p hp
      simp only [List.mem_cons] at hp
      rcases hp with hp | hp
      · simp [hp]
      · exact ih p hp
    · cases hs : splitChars sep cs with
      | nil => exact absurd hs (splitChars_ne_nil sep cs)
      | cons q qs =>
        rw [hs] at ih
        intro p hp
        simp only [List.mem_cons] at hp
        rcases hp with hp | hp
        · subst hp
          simp only [List.mem_cons, not_or]
          exact ⟨fun e => h e.symm, ih q (by simp)⟩
        · exact ih p (by simp [hp])

/-- A text splits into exactly two pieces when it has exactly one
separator. -/
theorem splitChars_eq_pair (sep : Char) (cs a b : List Char) :
    splitChars sep cs = [a, b] ↔ cs = a ++ sep :: b ∧ sep ∉ a ∧ sep ∉ b := by
  constructor
  · intro h
    have hj := joinChars_splitChars sep cs
    have hf := splitChars_pieces_free sep cs
    rw [h] at hj hf
    exact ⟨by simpa [joinChars] using hj.symm, hf a (by simp), hf b (by simp)⟩
  · rintro ⟨h1, h2, h3⟩
    rw [h1, splitChars_append_sep sep a b h2, splitChars_free sep b h3]

theorem Join_data (sep : Char) :
    ∀ xs : List String, (Join xs sep).data = joinChars sep (xs.map String.data) := by
  intro xs
  induction xs with
  | nil => rfl
  | cons a rest ih =>
    cases rest with
    | nil => rfl
    | cons b rest =>
      rw [Join]
      simp only [String.data_append, List.map_cons, joinChars] at ih ⊢
      rw [ih]
      simp

/-- Splitting undoes joining, for a non-empty list of texts free of the
separator. -/
theorem Split_Join (sep : Char) (xs : List String) (hne : xs ≠ [])
    (hfree : ∀ x ∈ xs, Free sep x) : Split (Join xs sep) sep = xs := by
  unfold Split
  rw [Join_data, splitChars_joinChars sep _ (by simpa using hne)]
  · rw [List.map_map]
    conv_rhs => rw [← List.map_id xs]
    apply List.map_congr_left
    intro x _
    rfl
  · intro p hp
    simp only [List.mem_map] at hp
    obtain ⟨x, hx, rfl⟩ := hp
    exact hfree x hx

theorem Split_eq_pair (piece k v : String) :
    Split piece '=' = [k, v] ↔ IsPair piece k v := by
  have hd : piece = k ++ "=" ++ v ↔ piece.data = k.data ++ '=' :: v.data := by
    constructor
    · intro h
      rw [h]
      simp [String.data_append]
    · intro h
      apply String.ext
      rw [h]
      simp [String.data_append]
  have hm : Split piece '=' = [k, v] ↔ splitChars '=' piece.data = [k.data, v.data] := by
    unfold Split
    constructor
    · intro h
      cases hs : splitChars '=' piece.data with
      | nil => simp [hs] at h
      | cons a rest =>
        cases rest with
        | nil => simp [hs] at h
        | cons b rest =>
          cases rest with
          | nil =>
            simp only [hs, List.map_cons, List.map_nil, List.cons.injEq, and_true] at h
            rw [← h.1, ← h.2]
          | cons c rest => simp [hs] at h
    · intro h
      rw [h]
      rfl
  unfold IsPair Free
  rw [hm, splitChars_eq_pair, hd]

/-! ## One field in focus -/

/-- If the iteration of field `i` ends with nil and the value `v1`, and the
other fields are skipped or scalar, `Decode` returns nil and field `i` holds
`v1`. -/
theorem Decode_focus [CaseTables] (n : Nat) (D : Decls) (env : Env) (t et : GoType)
    (fs : List (StructField GoType)) (vs : List Value) (i : Nat)
    (f : StructField GoType) (v1 : Value)
    (ht : resolve D t = .ptr et) (he : resolve D et = .struct fs)
    (hlen : vs.length = fs.length) (hf : fs[i]? = some f)
    (hstep : ∀ self v, decodeField self (setField n D) (Zero n D) D env true f v =
      some (v1, Outcome.nil))
    (hothers : ∀ (j : Nat) (g : StructField GoType), j ≠ i → fs[j]? = some g → Benign D g) :
    ∃ vs1, Decode n D env t (.ptr (some (.struct vs))) =
        some (.ptr (some (.struct vs1)), Outcome.nil) ∧ vs1[i]? = some v1 := by
  obtain ⟨self, hself⟩ := Decode_ptr_struct n D env t et fs vs ht he
  obtain ⟨vs1, hvs1⟩ := decodeFields_all_nil
    (decodeField self (setField n D) (Zero n D) D env true) fs vs (by
      intro j g w hg _
      by_cases hj : j = i
      · subst hj
        rw [hf] at hg
        cases hg
        exact ⟨_, hstep self w⟩
      · exact decodeField_benign _ _ n D env g w (hothers j g hj hg))
  refine ⟨vs1, by rw [hself, hvs1], ?_⟩
  have hi : i < vs.length := by
    rw [hlen]
    exact (List.getElem?_eq_some.mp hf).1
  obtain ⟨w, hw, hs1⟩ := decodeFields_nil_get _ fs vs vs1 i f (vs[i]) hvs1 hf
    (List.getElem?_eq_getElem hi)
  rw [hstep] at hs1
  cases hs1
  exact hw

/-! ## Lists of texts -/

theorem resolve_of_kind_string (D : Decls) (t : GoType) (h : kind D t = Kind.String) :
    resolve D t = .basic Kind.String := by
  unfold kind at h
  cases hr : resolve D t <;> simp [hr] at h
  rw [h]

theorem Zero_of_kind_string (n : Nat) (D : Decls) (t : GoType) (h : kind D t = Kind.String) :
    Zero (n + 1) D t = some (.string "") := by
  have hr := resolve_of_kind_string D t h
  have hb : ∀ m, Zero m D (.basic Kind.String) = some (.string "") := by
    intro m
    cases m <;> rfl
  cases t with
  | named name =>
    simp only [resolve] at hr
    show Zero n D (D name) = _
    rw [hr]
    exact hb n
  | basic k =>
    simp only [resolve] at hr
    rw [hr]
    exact hb (n + 1)
  | slice e => simp [resolve] at hr
  | map k e => simp [resolve] at hr
  | ptr e => simp [resolve] at hr
  | struct fs => simp [resolve] at hr

theorem setElems_text (n : Nat) (D : Decls) (et : GoType) (z : Value)
    (h : kind D et = Kind.String) :
    ∀ pieces : List String,
      setElems (setField n D) et z pieces = some (pieces.map Value.string, Outcome.nil) := by
  intro pieces
  induction pieces with
  | nil => rfl
  | cons p rest ih =>
    rw [setElems, setField_string n D et z p h]
    simp [ih]

/-- On a list of texts the coercer stores the pieces between the commas. -/
theorem setField_slice_text (n : Nat) (D : Decls) (t : GoType) (v : Value) (s : String)
    (hk : kind D t = Kind.Slice) (hek : kind D (elemType D t) = Kind.String) :
    setField (n + 1) D t v s =
      some (.slice (some ((Split s ',').map Value.string)), Outcome.nil) := by
  show setFieldBody (setField n D) (Zero (n + 1) D) D t v s = _
  unfold setFieldBody
  simp [hk, Zero_of_kind_string n D _ hek, setElems_text n D _ _ hek]

/-! ## Maps -/

theorem MapIndex_SetMapIndex (k v : String) :
    ∀ (m : List (Value × Value)) (k1 : String),
      MapIndex (SetMapIndex m k v) k1 =
        if k1 = k then some (.string v) else MapIndex m k1 := by
  intro m
  induction m with
  | nil =>
    intro k1
    simp only [SetMapIndex, MapIndex]
    by_cases h : k1 = k
    · simp [h]
    · have h1 : ¬ k = k1 := fun e => h e.symm
      simp [h, h1]
  | cons e rest ih =>
    intro k1
    obtain ⟨a, b⟩ := e
    cases a with
    | string k0 =>
      simp only [SetMapIndex]
      by_cases h0 : k0 = k
      · subst h0
        simp only [if_true, MapIndex]
        by_cases h : k1 = k0
        · simp [h]
        · have h1 : ¬ k0 = k1 := fun e => h e.symm
          simp [h, h1]
      · simp only [h0, if_false, MapIndex, ih]
        by_cases h : k0 = k1
        · subst h
          simp [h0]
        · simp [h]
    | bool _ => simp [SetMapIndex, MapIndex, ih]
    | int _ => simp [SetMapIndex, MapIndex, ih]
    | uint _ => simp [SetMapIndex, MapIndex, ih]
    | slice _ => simp [SetMapIndex, MapIndex, ih]
    | map _ => simp [SetMapIndex, MapIndex, ih]
    | ptr _ => simp [SetMapIndex, MapIndex, ih]
    | struct _ => simp [SetMapIndex, MapIndex, ih]
    | other _ => simp [SetMapIndex, MapIndex, ih]

theorem TextMap_SetMapIndex (k v : String) :
    ∀ m : List (Value × Value), TextMap m → TextMap (SetMapIndex m k v) := by
  intro m
  induction m with
  | nil => intro _; simp [SetMapIndex, TextMap, MapIndex]
  | cons e rest ih =>
    intro h
    obtain ⟨a, b⟩ := e
    cases a with
    | string k0 =>
      cases b with
      | string v0 =>
        simp only [TextMap] at h
        simp only [SetMapIndex]
        by_cases h0 : k0 = k
        · subst h0
          simpa [TextMap] using h
        · simp only [h0, if_false, TextMap, MapIndex_SetMapIndex, h0, if_false]
          exact ⟨h.1, ih h.2⟩
      | bool _ => simp [TextMap] at h
      | int _ => simp [TextMap] at h
      | uint _ => simp [TextMap] at h
      | slice _ => simp [TextMap] at h
      | map _ => simp [TextMap] at h
      | ptr _ => simp [TextMap] at h
      | struct _ => simp [TextMap] at h
      | other _ => simp [TextMap] at h
    | bool _ => simp [TextMap] at h
    | int _ => simp [TextMap] at h
    | uint _ => simp [TextMap] at h
    | slice _ => simp [TextMap] at h
    | map _ => simp [TextMap] at h
    | ptr _ => simp [TextMap] at h
    | struct _ => simp [TextMap] at h
    | other _ => simp [TextMap] at h

theorem fillMap_cons (p : String) (rest : List String) (m : List (Value × Value)) :
    fillMap (p :: rest) m = fillMap rest m ∨
      ∃ k v, Split p '=' = [k, v] ∧ fillMap (p :: rest) m = fillMap rest (SetMapIndex m k v) := by
  rw [fillMap]
  split
  · next k v h => exact Or.inr ⟨k, v, h, rfl⟩
  · exact Or.inl rfl

theorem TextMap_fillMap :
    ∀ (pieces : List String) (m : List (Value × Value)), TextMap m →
      TextMap (fillMap pieces m) := by
  intro pieces
  induction pieces with
  | nil => intro m h; simpa [fillMap] using h
  | cons p rest ih =>
    intro m h
    rcases fillMap_cons p rest m with h1 | ⟨k, v, _, h1⟩
    · rw [h1]; exact ih m h
    · rw [h1]; exact ih _ (TextMap_SetMapIndex k v m h)

/-- What the map holds for a key after the loop of the coercer: the value of
the last piece for that key, or what it held before. -/
theorem MapIndex_fillMap (k : String) :
    ∀ (pieces : List String) (m : List (Value × Value)),
      MapIndex (fillMap pieces m) k =
        match lastValue pieces k with
        | some v => some (.string v)
        | none => MapIndex m k := by
  intro pieces
  induction pieces with
  | nil => intro m; simp [fillMap, lastValue]
  | cons p rest ih =>
    intro m
    rw [fillMap, lastValue]
    split
    · next k1 v1 h =>
      rw [ih, MapIndex_SetMapIndex]
      cases lastValue rest k with
      | some v => rfl
      | none =>
        simp only
        by_cases hk : k1 = k
        · simp [hk]
        · have hk1 : ¬ k = k1 := fun e => hk e.symm
          simp [hk, hk1]
    · next h =>
      rw [ih]
      cases lastValue rest k with
      | some v => rfl
      | none => rfl

theorem lastValue_none_iff (k : String) :
    ∀ pieces : List String,
      lastValue pieces k = none ↔ ∀ q ∈ pieces, ∀ v1, ¬ IsPair q k v1 := by
  intro pieces
  induction pieces with
  | nil => simp [lastValue]
  | cons p rest ih =>
    rw [lastValue]
    cases hl : lastValue rest k with
    | some v =>
      simp only [false_iff, reduceCtorEq]
      intro hall
      have := ih.mpr (fun q hq v1 => hall q (by simp [hq]) v1)
      rw [hl] at this
      cases this
    | none =>
      simp only
      have hrest := ih.mp hl
      constructor
      · intro h q hq v1 hp
        simp only [List.mem_cons] at hq
        rcases hq with hq | hq
        · subst hq
          rw [(Split_eq_pair q k v1).mpr hp] at h
          simp at h
        · exact hrest q hq v1 hp
      · intro hall
        split
        · next k1 v1 h1 =>
          by_cases hk : k1 = k
          · subst hk
            exact absurd ((Split_eq_pair p k1 v1).mp h1) (hall p (by simp) v1)
          · simp [hk]
        · rfl

theorem LastPair_cons (p : String) (rest : List String) (k v : String) :
    LastPair (p :: rest) k v ↔
      LastPair rest k v ∨ (IsPair p k v ∧ ∀ q ∈ rest, ∀ v1, ¬ IsPair q k v1) := by
  constructor
  · rintro ⟨pre, x, post, heq, hx, hpost⟩
    cases pre with
    | nil =>
      simp only [List.nil_append, List.cons.injEq] at heq
      obtain ⟨h1, h2⟩ := heq
      subst h1; subst h2
      exact Or.inr ⟨hx, hpost⟩
    | cons a pre =>
      simp only [List.cons_append, List.cons.injEq] at heq
      exact Or.inl ⟨pre, x, post, heq.2, hx, hpost⟩
  · rintro (⟨pre, x, post, heq, hx, hpost⟩ | ⟨hp, hrest⟩)
    · exact ⟨p :: pre, x, post, by simp [heq], hx, hpost⟩
    · exact ⟨[], p, rest, rfl, hp, hrest⟩

theorem IsPair_unique (p k v k1 v1 : String) (h : IsPair p k v) (h1 : IsPair p k1 v1) :
    k = k1 ∧ v = v1 := by
  have a := (Split_eq_pair p k v).mpr h
  have b := (Split_eq_pair p k1 v1).mpr h1
  rw [a] at b
  simp only [List.cons.injEq, and_true] at b
  exact b

theorem lastValue_iff (k v : String) :
    ∀ pieces : List String, lastValue pieces k = some v ↔ LastPair pieces k v := by
  intro pieces
  induction pieces with
  | nil =>
    simp only [lastValue, reduceCtorEq, false_iff]
    rintro ⟨pre, x, post, heq, _⟩
    simp at heq
  | cons p rest ih =>
    rw [LastPair_cons, ← ih, ← lastValue_none_iff, lastValue]
    cases hl : lastValue rest k with
    | some v0 =>
      simp
    | none =>
      simp only [reduceCtorEq, false_or, and_true]
      constructor
      · intro h
        split at h
        · next k1 v1 h1 =>
          by_cases hk : k1 = k
          · subst hk
            simp only [if_true, Option.some.injEq] at h
            subst h
            exact (Split_eq_pair p k1 v1).mp h1
          · simp [hk] at h
        · cases h
      · intro h
        rw [(Split_eq_pair p k v).mpr h]
        simp

theorem IsPair_render (a b k v : String) (ha : Free '=' a) (hb : Free '=' b) :
    IsPair (a ++ "=" ++ b) k v ↔ a = k ∧ b = v := by
  constructor
  · intro h
    exact IsPair_unique (a ++ "=" ++ b) a b k v ⟨rfl, ha, hb⟩ h
  · rintro ⟨rfl, rfl⟩
    exact ⟨rfl, ha, hb⟩

theorem not_IsPair_empty (k v : String) : ¬ IsPair "" k v := by
  rintro ⟨h, _, _⟩
  have := congrArg String.data h
  simp [String.data_append] at this

theorem LastOf_cons (q : String × String) (rest : List (String × String)) (k v : String) :
    LastOf (q :: rest) k v ↔ LastOf rest k v ∨ (q = (k, v) ∧ ∀ r ∈ rest, r.1 ≠ k) := by
  constructor
  · rintro ⟨pre, post, heq, hpost⟩
    cases pre with
    | nil =>
      simp only [List.nil_append, List.cons.injEq] at heq
      obtain ⟨h1, h2⟩ := heq
      subst h2
      exact Or.inr ⟨h1, hpost⟩
    | cons a pre =>
      simp only [List.cons_append, List.cons.injEq] at heq
      exact Or.inl ⟨pre, post, heq.2, hpost⟩
  · rintro (⟨pre, post, heq, hpost⟩ | ⟨hq, hrest⟩)
    · exact ⟨q :: pre, post, by simp [heq], hpost⟩
    · exact ⟨[], rest, by simp [hq], hrest⟩

/-- Among rendered pairs, the last piece for a key is the last pair with
that key. -/
theorem LastPair_render (k v : String) :
    ∀ ps : List (String × String), (∀ p ∈ ps, Free '=' p.1 ∧ Free '=' p.2) →
      (LastPair (ps.map (fun p => p.1 ++ "=" ++ p.2)) k v ↔ LastOf ps k v) := by
  intro ps
  induction ps with
  | nil =>
    intro _
    constructor
    · rintro ⟨pre, x, post, heq, _⟩
      simp at heq
    · rintro ⟨pre, post, heq, _⟩
      simp at heq
  | cons q rest ih =>
    intro hfree
    have hq := hfree q (by simp)
    rw [List.map_cons, LastPair_cons, LastOf_cons, ih (fun p hp => hfree p (by simp [hp])),
      IsPair_render q.1 q.2 k v hq.1 hq.2]
    have hrest : (∀ x ∈ rest.map (fun p => p.1 ++ "=" ++ p.2), ∀ v1, ¬ IsPair x k v1) ↔
        ∀ r ∈ rest, r.1 ≠ k := by
      constructor
      · intro h r hr hk
        have hr2 := hfree r (by simp [hr])
        exact h (r.1 ++ "=" ++ r.2) (List.mem_map.mpr ⟨r, hr, rfl⟩) r.2
          ((IsPair_render r.1 r.2 k r.2 hr2.1 hr2.2).mpr ⟨hk, rfl⟩)
      · intro h x hx v1 hp
        obtain ⟨r, hr, rfl⟩ := List.mem_map.mp hx
        have hr2 := hfree r (by simp [hr])
        exact h r hr ((IsPair_render r.1 r.2 k v1 hr2.1 hr2.2).mp hp).1
    rw [hrest]
    have hqe : (q.1 = k ∧ q.2 = v) ↔ q = (k, v) := by
      obtain ⟨a, b⟩ := q
      simp
    rw [hqe]

theorem Free_render (a b : String) (ha : Free ',' a) (hb : Free ',' b) :
    Free ',' (a ++ "=" ++ b) := by
  unfold Free at *
  simp only [String.data_append, List.mem_append, not_or]
  exact ⟨⟨ha, by decide⟩, hb⟩

theorem kind_of_convertible (D : Decls) (t : GoType) (h : ConvertibleToAllowed D t = true) :
    kind D t = Kind.Map := by
  unfold ConvertibleToAllowed at h
  split at h
  · next heq => simp [kind, heq]
  · cases h

theorem setField_map (n : Nat) (D : Decls) (t : GoType) (v : Value) (s : String)
    (hc : ConvertibleToAllowed D t = true) :
    setField n D t v s = some (.map (some (fillMap (Split s ',') [])), Outcome.nil) := by
  obtain ⟨self, hself⟩ := setField_eq_body n D
  rw [hself]
  simp [setFieldBody, kind_of_convertible D t hc, hc]

/-! ## Booleans -/

/-! ## Failed integer parses -/

/-- When the digit loop fails, it reports a malformed text with value zero or
an overflow with the largest value of the width. -/
theorem parseUintLoop_fail (b : Nat) (b0 : Bool) (cutoff maxVal : Nat) :
    ∀ (cs : List Char) (n : Nat) (us : Bool) (v : Nat) (e : NumError),
      parseUintLoop b b0 cutoff maxVal cs n us = .fail v e →
      (e = .ErrSyn ∧ v = 0) ∨ (e = .ErrRange ∧ v = maxVal) := by
  intro cs
  induction cs with
  | nil => intro n us v e h; simp [parseUintLoop] at h
  | cons c cs ih =>
    intro n us v e h
    rw [parseUintLoop] at h
    by_cases h1 : c = '_' ∧ b0 = true
    · rw [if_pos h1] at h
      exact ih _ _ _ _ h
    · rw [if_neg h1] at h
      cases hd : digitVal c with
      | none =>
        simp only [hd, LoopResult.fail.injEq] at h
        exact Or.inl ⟨h.2.symm, h.1.symm⟩
      | some d =>
        simp only [hd] at h
        by_cases h2 : d ≥ b
        · rw [if_pos h2] at h
          simp only [LoopResult.fail.injEq] at h
          exact Or.inl ⟨h.2.symm, h.1.symm⟩
        · rw [if_neg h2] at h
          by_cases h3 : n ≥ cutoff
          · rw [if_pos h3] at h
            simp only [LoopResult.fail.injEq] at h
            exact Or.inr ⟨h.2.symm, h.1.symm⟩
          · rw [if_neg h3] at h
            by_cases h4 : (n * b % 2 ^ 64 + d) % 2 ^ 64 < n * b % 2 ^ 64 ∨
                (n * b % 2 ^ 64 + d) % 2 ^ 64 > maxVal
            · rw [if_pos h4] at h
              simp only [LoopResult.fail.injEq] at h
              exact Or.inr ⟨h.2.symm, h.1.symm⟩
            · rw [if_neg h4] at h
              exact ih _ _ _ _ h

/-- The function `ParseUint` with base 0 and a width from 1 to 64, on a
non-empty text. -/
theorem parseUintChars_zero (cs : List Char) (bits : Nat) (hc : cs ≠ []) (h0 : bits ≠ 0)
    (h64 : bits ≤ 64) :
    parseUintChars cs 0 bits =
      match parseUintLoop (detectBase cs).1 true (maxUint64 / (detectBase cs).1 + 1)
          ((2 ^ bits - 1) % 2 ^ 64) (detectBase cs).2 0 false with
      | .fail v e => (v, some e)
      | .done n us =>
        if us = true ∧ underscoreOK cs = false then (0, some .ErrSyn) else (n, none) := by
  unfold parseUintChars
  rw [if_neg hc]
  simp only [show ¬ (2 ≤ 0 ∧ 0 ≤ 36) by omega, if_false, if_true,
    show ¬ bits > 64 by omega, h0, decide_True]

/-- The failures of `ParseUint` with base 0 and a width from 1 to 64: a
malformed text gives zero, an overflow gives the largest value of the width,
and there is no other failure. -/
theorem parseUintChars_fail (cs : List Char) (bits : Nat) (h0 : bits ≠ 0) (h64 : bits ≤ 64) :
    (parseUintChars cs 0 bits).2 = none ∨
    ((parseUintChars cs 0 bits).2 = some .ErrSyn ∧ (parseUintChars cs 0 bits).1 = 0) ∨
    ((parseUintChars cs 0 bits).2 = some .ErrRange ∧
      (parseUintChars cs 0 bits).1 = (2 ^ bits - 1) % 2 ^ 64) := by
  by_cases hc : cs = []
  · subst hc
    exact Or.inr (Or.inl ⟨rfl, rfl⟩)
  · rw [parseUintChars_zero cs bits hc h0 h64]
    cases hl : parseUintLoop (detectBase cs).1 true (maxUint64 / (detectBase cs).1 + 1)
        ((2 ^ bits - 1) % 2 ^ 64) (detectBase cs).2 0 false with
    | done n us =>
      by_cases hu : us = true ∧ underscoreOK cs = false
      · simp only [if_pos hu]
        exact Or.inr (Or.inl ⟨trivial, trivial⟩)
      · simp only [if_neg hu]
        exact Or.inl trivial
    | fail v e =>
      rcases parseUintLoop_fail _ _ _ _ _ _ _ _ _ hl with ⟨h1, h2⟩ | ⟨h1, h2⟩
      · exact Or.inr (Or.inl ⟨by rw [h1], h2⟩)
      · exact Or.inr (Or.inr ⟨by rw [h1], h2⟩)

theorem wrapSigned_id (bits : Nat) (x : Int) (h0 : bits ≠ 0)
    (hlo : -(2 ^ (bits - 1) : Int) ≤ x) (hhi : x < 2 ^ (bits - 1)) :
    wrapSigned bits x = x := by
  unfold wrapSigned
  have hp : (2 : Int) ^ bits = 2 * 2 ^ (bits - 1) := by
    obtain ⟨k, rfl⟩ := Nat.exists_eq_succ_of_ne_zero h0
    simp [pow_succ, mul_comm]
  rw [hp, Int.emod_eq_of_lt (by omega) (by omega)]
  omega

theorem pow_pred_mod (bits : Nat) (h64 : bits ≤ 64) :
    (2 ^ (bits - 1)) % 2 ^ 64 = 2 ^ (bits - 1) := by
  apply Nat.mod_eq_of_lt
  exact Nat.pow_lt_pow_right (by norm_num) (by omega)

/-- The failures of `ParseInt` with base 0 and a width from 1 to 64: a
malformed text gives zero, an overflow gives the bound of the width on the
side of the sign, and there is no other failure. -/
theorem ParseInt_fail (text : String) (bits : Nat) (h0 : bits ≠ 0) (h64 : bits ≤ 64) :
    ((ParseInt text 0 bits).2 = none ∨ (ParseInt text 0 bits).2 = some .ErrSyn ∨
      (ParseInt text 0 bits).2 = some .ErrRange) ∧
    ((ParseInt text 0 bits).2 = some .ErrSyn → (ParseInt text 0 bits).1 = 0) ∧
    ((ParseInt text 0 bits).2 = some .ErrRange →
      (Negative text → (ParseInt text 0 bits).1 = -(2 ^ (bits - 1) : Int)) ∧
      (¬ Negative text → (ParseInt text 0 bits).1 = 2 ^ (bits - 1) - 1)) := by
  unfold ParseInt Negative
  cases hd : text.data with
  | nil => simp
  | cons c rest =>
    simp only [List.head?_cons, Option.some.injEq, h0, if_false, pow_pred_mod bits h64]
    generalize hbody : (if c = '+' ∨ c = '-' then rest else c :: rest) = body
    rcases hp : parseUintChars body 0 bits with ⟨un, err⟩
    have hf := parseUintChars_fail body bits h0 h64
    rw [hp] at hf
    simp only at hf ⊢
    by_cases h1 : err.isSome = true ∧ err ≠ some NumError.ErrRange
    · rw [if_pos h1]
      rcases hf with hf | ⟨hf, _⟩ | ⟨hf, _⟩
      · rw [hf] at h1; simp at h1
      · subst hf; simp
      · exact absurd hf h1.2
    · rw [if_neg h1]
      by_cases hneg : c = '-'
      · subst hneg
        simp only [decide_True, Bool.true_eq_false, false_and, if_false, true_and]
        by_cases h2 : un > 2 ^ (bits - 1)
        · rw [if_pos h2]
          simp
        · rw [if_neg h2]
          simp
      · simp only [hneg, decide_False, true_and, Bool.false_eq_true, false_and, if_false]
        by_cases h2 : un ≥ 2 ^ (bits - 1)
        · rw [if_pos h2]
          simp
        · rw [if_neg h2]
          simp

/-! ## Numerals -/

/-- The loop of `ParseUint` reads a digit character as the digit it
denotes. -/
theorem digitVal_of_digitOfChar (c : Char) (d : Nat) (h : digitOfChar c = some d) :
    digitVal c = some d := by
  unfold digitOfChar at h
  unfold digitVal lower
  generalize c.toNat = k at h ⊢
  by_cases h1 : 48 ≤ k ∧ k ≤ 57
  · rw [if_pos h1] at h
    rw [if_pos h1]
    exact h
  · rw [if_neg h1] at h
    rw [if_neg h1]
    by_cases h2 : 97 ≤ k ∧ k ≤ 122
    · rw [if_pos h2] at h
      obtain ⟨h2a, h2b⟩ := h2
      rw [← h]
      interval_cases k <;> decide
    · rw [if_neg h2] at h
      by_cases h3 : 65 ≤ k ∧ k ≤ 90
      · rw [if_pos h3] at h
        obtain ⟨h3a, h3b⟩ := h3
        rw [← h]
        interval_cases k <;> decide
      · rw [if_neg h3] at h
        cases h

theorem digitOfChar_toNat (c : Char) (d : Nat) (h : digitOfChar c = some d) :
    (48 ≤ c.toNat ∧ c.toNat ≤ 57 ∧ d = c.toNat - 48) ∨
      ((65 ≤ c.toNat ∧ c.toNat ≤ 90 ∨ 97 ≤ c.toNat ∧ c.toNat ≤ 122) ∧ 10 ≤ d) := by
  unfold digitOfChar at h
  by_cases h1 : 48 ≤ c.toNat ∧ c.toNat ≤ 57
  · rw [if_pos h1] at h
    simp only [Option.some.injEq] at h
    exact Or.inl ⟨h1.1, h1.2, h.symm⟩
  · rw [if_neg h1] at h
    by_cases h2 : 97 ≤ c.toNat ∧ c.toNat ≤ 122
    · rw [if_pos h2] at h
      simp only [Option.some.injEq] at h
      exact Or.inr ⟨Or.inr h2, by omega⟩
    · rw [if_neg h2] at h
      by_cases h3 : 65 ≤ c.toNat ∧ c.toNat ≤ 90
      · rw [if_pos h3] at h
        simp only [Option.some.injEq] at h
        exact Or.inr ⟨Or.inl h3, by omega⟩
      · rw [if_neg h3] at h
        cases h

theorem digit_char_ne (c : Char) (d : Nat) (h : digitOfChar c = some d) :
    c ≠ '_' ∧ c ≠ '+' ∧ c ≠ '-' := by
  have ht := digitOfChar_toNat c d h
  have e1 : ('_' : Char).toNat = 95 := rfl
  have e2 : ('+' : Char).toNat = 43 := rfl
  have e3 : ('-' : Char).toNat = 45 := rfl
  refine ⟨?_, ?_, ?_⟩
  · intro hc
    subst hc
    rw [e1] at ht
    omega
  · intro hc
    subst hc
    rw [e2] at ht
    omega
  · intro hc
    subst hc
    rw [e3] at ht
    omega

theorem foldl_digits_ge (b : Nat) (hb : 1 ≤ b) :
    ∀ (ds : List Nat) (n : Nat), n ≤ ds.foldl (fun acc d => acc * b + d) n := by
  intro ds
  induction ds with
  | nil => intro n; exact Nat.le_refl n
  | cons d ds ih =>
    intro n
    simp only [List.foldl_cons]
    calc n ≤ n * b := Nat.le_mul_of_pos_right n hb
      _ ≤ n * b + d := Nat.le_add_right _ _
      _ ≤ _ := ih _

/-- On the digit characters of a number that fits the width, the loop of
`ParseUint` ends with that number. -/
theorem parseUintLoop_digits (b : Nat) (b0 : Bool) (maxVal : Nat) (hb : 1 ≤ b)
    (hmax : maxVal ≤ maxUint64) :
    ∀ (ds : List Nat) (body : List Char) (n : Nat) (us : Bool),
      body.map digitOfChar = ds.map some → (∀ d ∈ ds, d < b) →
      ds.foldl (fun acc d => acc * b + d) n ≤ maxVal →
      parseUintLoop b b0 (maxUint64 / b + 1) maxVal body n us =
        .done (ds.foldl (fun acc d => acc * b + d) n) us := by
  intro ds
  induction ds with
  | nil =>
    intro body n us hmap _ _
    simp only [List.map_nil, List.map_eq_nil_iff] at hmap
    subst hmap
    rfl
  | cons d ds ih =>
    intro body n us hmap hlt hle
    cases body with
    | nil => simp at hmap
    | cons c cs =>
      simp only [List.map_cons, List.cons.injEq] at hmap
      obtain ⟨hc, hcs⟩ := hmap
      simp only [List.foldl_cons] at hle ⊢
      have hge := foldl_digits_ge b hb ds (n * b + d)
      have hfit : n * b + d ≤ maxUint64 := by omega
      have hm : maxUint64 = 18446744073709551615 := by norm_num [maxUint64]
      rw [parseUintLoop, if_neg (fun h => (digit_char_ne c d hc).1 h.1),
        digitVal_of_digitOfChar c d hc]
      simp only
      have hdb : ¬ d ≥ b := by
        have := hlt d (by simp)
        omega
      have hcut : ¬ n ≥ maxUint64 / b + 1 := by
        have : n ≤ maxUint64 / b := (Nat.le_div_iff_mul_le hb).mpr (by omega)
        omega
      have e1 : n * b % 2 ^ 64 = n * b := Nat.mod_eq_of_lt (by omega)
      have e2 : (n * b + d) % 2 ^ 64 = n * b + d := Nat.mod_eq_of_lt (by omega)
      rw [if_neg hdb, if_neg hcut, e1, e2, if_neg (by omega)]
      exact ih cs (n * b + d) us hcs (fun x hx => hlt x (by simp [hx])) hle

theorem detectBase_decimal (c : Char) (cs : List Char) (h : c ≠ '0') :
    detectBase (c :: cs) = (10, c :: cs) := by
  simp [detectBase, h]

theorem detectBase_hex (x : Char) (body : List Char) (hx : lower x = 120)
    (hbody : body ≠ []) : detectBase ('0' :: x :: body) = (16, body) := by
  have hlen : ('0' :: x :: body).length ≥ 3 := by
    cases body with
    | nil => exact absurd rfl hbody
    | cons b bs => simp
  simp only [detectBase, if_true, hx, hlen, true_and]
  simp

theorem detectBase_octal (c : Char) (rest : List Char)
    (h1 : lower c ≠ 98) (h2 : lower c ≠ 111) (h3 : lower c ≠ 120) :
    detectBase ('0' :: c :: rest) = (8, c :: rest) := by
  simp [detectBase, h1, h2, h3]

theorem char_eq_zero (c : Char) (h : digitOfChar c = some 0) : c = '0' := by
  have ht := digitOfChar_toNat c 0 h
  have h48 : c.toNat = 48 := by omega
  have := Char.ofNat_toNat c
  rw [h48] at this
  exact this.symm

theorem lower_octal_digit (c : Char) (d : Nat) (h : digitOfChar c = some d) (hd : d < 8) :
    lower c ≠ 98 ∧ lower c ≠ 111 ∧ lower c ≠ 120 := by
  have ht := digitOfChar_toNat c d h
  unfold lower
  generalize c.toNat = k at ht
  have h1 : 48 ≤ k := by omega
  have h2 : k ≤ 55 := by omega
  interval_cases k <;> decide

/-- On a numeral whose value fits the width, `ParseUint` with base 0 returns
the value and no error. -/
theorem parseUintChars_numeral (cs : List Char) (r : Radix) (ds : List Nat) (bits : Nat)
    (h0 : bits ≠ 0) (h64 : bits ≤ 64) (hnum : IsNumeral cs r ds)
    (hfit : digitsValue r.base ds < 2 ^ bits) :
    parseUintChars cs 0 bits = (digitsValue r.base ds, none) := by
  obtain ⟨body, hmap, hlt, hne, hshape⟩ := hnum
  have hpow : 2 ^ bits ≤ 2 ^ 64 := Nat.pow_le_pow_right (by norm_num) h64
  have hmod : (2 ^ bits - 1) % 2 ^ 64 = 2 ^ bits - 1 := Nat.mod_eq_of_lt (by omega)
  have hmax : (2 ^ bits - 1) % 2 ^ 64 ≤ maxUint64 := by
    rw [hmod]
    unfold maxUint64
    omega
  have hbody : body ≠ [] := by
    intro h
    rw [h] at hmap
    simp only [List.map_nil] at hmap
    exact hne (List.map_eq_nil_iff.mp hmap.symm)
  have hloop : ∀ b, 1 ≤ b → b = r.base →
      parseUintLoop b true (maxUint64 / b + 1) ((2 ^ bits - 1) % 2 ^ 64) body 0 false =
        .done (digitsValue r.base ds) false := by
    intro b hb1 hb
    subst hb
    exact parseUintLoop_digits r.base true _ hb1 hmax ds body 0 false hmap hlt (by
      rw [hmod]
      unfold digitsValue at hfit
      omega)
  cases r with
  | decimal =>
    simp only at hshape
    obtain ⟨hcs, hlead⟩ := hshape
    subst hcs
    cases ds with
    | nil => exact absurd rfl hne
    | cons d ds =>
      cases cs with
      | nil => exact absurd rfl hbody
      | cons c cs =>
        simp only [List.map_cons, List.cons.injEq] at hmap
        by_cases hd : d = 0
        · subst hd
          have hds := hlead rfl
          simp only [List.cons.injEq, true_and] at hds
          subst hds
          have hc := char_eq_zero c hmap.1
          subst hc
          have hcs : cs = [] := by simpa using hmap.2
          subst hcs
          rw [parseUintChars_zero _ bits (by simp) h0 h64]
          rfl
        · have hc : c ≠ '0' := by
            intro h
            subst h
            have : digitOfChar '0' = some 0 := rfl
            rw [this] at hmap
            simp only [Option.some.injEq] at hmap
            exact hd hmap.1.symm
          rw [parseUintChars_zero _ bits (by simp) h0 h64, detectBase_decimal c cs hc]
          simp only
          rw [hloop 10 (by norm_num) rfl]
          simp
  | hex =>
    simp only at hshape
    rcases hshape with hcs | hcs
    · subst hcs
      rw [parseUintChars_zero _ bits (by simp) h0 h64,
        detectBase_hex 'x' body (by decide) hbody]
      simp only
      rw [hloop 16 (by norm_num) rfl]
      simp
    · subst hcs
      rw [parseUintChars_zero _ bits (by simp) h0 h64,
        detectBase_hex 'X' body (by decide) hbody]
      simp only
      rw [hloop 16 (by norm_num) rfl]
      simp
  | octal =>
    simp only at hshape
    subst hshape
    cases ds with
    | nil => exact absurd rfl hne
    | cons d ds =>
      cases body with
      | nil => exact absurd rfl hbody
      | cons c rest =>
        have hmap2 := hmap
        simp only [List.map_cons, List.cons.injEq] at hmap2
        obtain ⟨l1, l2, l3⟩ := lower_octal_digit c d hmap2.1 (hlt d (by simp))
        rw [parseUintChars_zero _ bits (by simp) h0 h64, detectBase_octal c rest l1 l2 l3]
        simp only
        rw [hloop 8 (by norm_num) rfl]
        simp

theorem numeral_head (body : List Char) (r : Radix) (ds : List Nat)
    (h : IsNumeral body r ds) : ∃ c rest, body = c :: rest ∧ c ≠ '+' ∧ c ≠ '-' := by
  obtain ⟨b, hmap, _, hne, hshape⟩ := h
  cases r with
  | decimal =>
    simp only at hshape
    obtain ⟨hcs, _⟩ := hshape
    subst hcs
    cases ds with
    | nil => exact absurd rfl hne
    | cons d ds =>
      cases body with
      | nil => simp at hmap
      | cons c rest =>
        simp only [List.map_cons, List.cons.injEq] at hmap
        have := digit_char_ne c d hmap.1
        exact ⟨c, rest, rfl, this.2.1, this.2.2⟩
  | hex =>
    simp only at hshape
    rcases hshape with hcs | hcs <;> exact ⟨'0', _, hcs, by decide, by decide⟩
  | octal =>
    simp only at hshape
    exact ⟨'0', _, hshape, by decide, by decide⟩

theorem wrapSigned_neg (V : Nat) (h : V ≤ 2 ^ 63) :
    wrapSigned 64 (-(wrapSigned 64 (V : Int))) = -(V : Int) := by
  unfold wrapSigned
  norm_num at h ⊢
  omega

/-- On a signed numeral whose value fits the width, `ParseInt` with base 0
returns the value and no error. -/
theorem ParseInt_numeral (text : String) (sg : Sign) (r : Radix) (ds : List Nat) (bits : Nat)
    (h0 : bits ≠ 0) (h64 : bits ≤ 64) (hnum : IsSignedNumeral text.data sg r ds)
    (hlo : -(2 ^ (bits - 1) : Int) ≤ sg.apply (digitsValue r.base ds))
    (hhi : sg.apply (digitsValue r.base ds) < 2 ^ (bits - 1)) :
    ParseInt text 0 bits = (sg.apply (digitsValue r.base ds), none) := by
  obtain ⟨body, htext, hbody⟩ := hnum
  obtain ⟨c, rest, hc, hplus, hminus⟩ := numeral_head body r ds hbody
  have hp63 : (2 : Int) ^ (bits - 1) ≤ 2 ^ 63 :=
    pow_le_pow_right₀ (by norm_num) (by omega)
  have hcut := pow_pred_mod bits h64
  generalize hV : digitsValue r.base ds = V at hlo hhi ⊢
  have hVle : (V : Int) ≤ 2 ^ (bits - 1) := by
    cases sg <;> simp only [Sign.apply] at hlo hhi <;> omega
  have hV64 : V < 2 ^ 64 := by
    have : (V : Int) < 2 ^ 64 := by
      have : (2 : Int) ^ 63 < 2 ^ 64 := by norm_num
      omega
    exact_mod_cast this
  have hVbits : V < 2 ^ bits := by
    have hpow : (2 : Int) ^ bits = 2 * 2 ^ (bits - 1) := by
      obtain ⟨k, rfl⟩ := Nat.exists_eq_succ_of_ne_zero h0
      simp [pow_succ, mul_comm]
    have hpos : (0 : Int) < 2 ^ (bits - 1) := by positivity
    have : (V : Int) < 2 ^ bits := by omega
    exact_mod_cast this
  have hparse : parseUintChars body 0 bits = (V, none) := by
    rw [← hV]
    exact parseUintChars_numeral body r ds bits h0 h64 hbody (by rw [hV]; exact hVbits)
  have hcast : ((2 ^ (bits - 1) : Nat) : Int) = 2 ^ (bits - 1) := by push_cast; rfl
  unfold ParseInt
  rw [htext]
  cases sg with
  | absent =>
    simp only [Sign.apply] at hlo hhi ⊢
    rw [hc] at hparse ⊢
    simp only [Sign.chars, List.nil_append, hplus, hminus, or_self, if_false, hparse,
      Option.isSome_none, Bool.false_eq_true, false_and, h0, hcut, decide_False, true_and]
    have h1 : ¬ V ≥ 2 ^ (bits - 1) := by
      intro h
      have : ((2 ^ (bits - 1) : Nat) : Int) ≤ V := by exact_mod_cast h
      omega
    rw [wrapSigned_id 64 V (by norm_num) (by norm_num; omega) (by norm_num at hp63 ⊢; omega)]
    simp [h1]
  | plus =>
    simp only [Sign.apply] at hlo hhi ⊢
    simp only [Sign.chars, List.cons_append, List.nil_append, true_or, if_true, hparse,
      Option.isSome_none, Bool.false_eq_true, false_and, if_false, h0, hcut,
      show ¬ ('+' = '-') by decide, decide_False, true_and]
    have h1 : ¬ V ≥ 2 ^ (bits - 1) := by
      intro h
      have : ((2 ^ (bits - 1) : Nat) : Int) ≤ V := by exact_mod_cast h
      omega
    rw [wrapSigned_id 64 V (by norm_num) (by norm_num; omega) (by norm_num at hp63 ⊢; omega)]
    simp [h1]
  | minus =>
    simp only [Sign.apply] at hlo hhi ⊢
    simp only [Sign.chars, List.cons_append, List.nil_append, or_true, if_true, hparse,
      Option.isSome_none, Bool.false_eq_true, false_and, if_false, h0, hcut,
      decide_True, true_and]
    have h1 : ¬ V > 2 ^ (bits - 1) := by
      intro h
      have : ((2 ^ (bits - 1) : Nat) : Int) < V := by exact_mod_cast h
      omega
    rw [wrapSigned_neg V (by
      have : (V : Int) ≤ 2 ^ 63 := by omega
      exact_mod_cast this)]
    simp [h1]

theorem bits_signed (k : Kind) (h : signedKind k = true) : Bits k ≠ 0 ∧ Bits k ≤ 64 := by
  cases k <;> simp [signedKind] at h <;> simp [Bits, IntSize]

theorem bits_unsigned (k : Kind) (h : unsignedKind k = true) : Bits k ≠ 0 ∧ Bits k ≤ 64 := by
  cases k <;> simp [unsignedKind] at h <;> simp [Bits, IntSize]

/-- On a signed integer field of a kind the coercer names, a signed numeral
within the range of the field is stored as its value. -/
theorem setField_signed_numeral (n : Nat) (D : Decls) (t : GoType) (prior : Value)
    (text : String) (sg : Sign) (r : Radix) (ds : List Nat)
    (hk : signedKind (kind D t) = true) (hnum : IsSignedNumeral text.data sg r ds)
    (hlo : -(2 ^ (Bits (kind D t) - 1) : Int) ≤ sg.apply (digitsValue r.base ds))
    (hhi : sg.apply (digitsValue r.base ds) < 2 ^ (Bits (kind D t) - 1)) :
    setField n D t prior text =
      some (.int (sg.apply (digitsValue r.base ds)), Outcome.nil) := by
  obtain ⟨h0, h64⟩ := bits_signed _ hk
  have hp := ParseInt_numeral text sg r ds _ h0 h64 hnum hlo hhi
  have hw := wrapSigned_id _ _ h0 hlo hhi
  obtain ⟨self, hself⟩ := setField_eq_body n D
  rw [hself]
  unfold setFieldBody
  cases hkd : kind D t <;> simp only [hkd, signedKind, Bool.false_eq_true] at hk <;>
    simp only [hkd] at hp hw <;> simp only [SetInt, hp, hw]

/-- On an unsigned integer field of a kind the coercer names, a numeral
within the range of the field is stored as its value. -/
theorem setField_unsigned_numeral (n : Nat) (D : Decls) (t : GoType) (prior : Value)
    (text : String) (r : Radix) (ds : List Nat)
    (hk : unsignedKind (kind D t) = true) (hnum : IsNumeral text.data r ds)
    (hhi : digitsValue r.base ds < 2 ^ Bits (kind D t)) :
    setField n D t prior text = some (.uint (digitsValue r.base ds), Outcome.nil) := by
  obtain ⟨h0, h64⟩ := bits_unsigned _ hk
  have hp : ParseUint text 0 (Bits (kind D t)) = (digitsValue r.base ds, none) :=
    parseUintChars_numeral text.data r ds _ h0 h64 hnum hhi
  have hw := Nat.mod_eq_of_lt hhi
  obtain ⟨self, hself⟩ := setField_eq_body n D
  rw [hself]
  unfold setFieldBody
  cases hkd : kind D t <;> simp only [hkd, unsignedKind, Bool.false_eq_true] at hk <;>
    simp only [hkd] at hp hw <;> simp only [SetUint, hp, hw]

/-! ## Decimal texts -/

theorem digitOfChar_digitChar (d : Nat) (h : d < 10) : digitOfChar (digitChar d) = some d := by
  interval_cases d <;> rfl

theorem digitsValue_reverse (b : Nat) :
    ∀ L : List Nat, digitsValue b L.reverse = Nat.ofDigits b L := by
  intro L
  induction L with
  | nil => rfl
  | cons a L ih =>
    unfold digitsValue at ih ⊢
    rw [List.reverse_cons, List.foldl_append, Nat.ofDigits_cons, ← ih]
    simp only [List.foldl_cons, List.foldl_nil]
    ring

/-- The decimal text of a natural number is a decimal numeral that denotes
it. -/
theorem FormatUint_numeral (n : Nat) :
    ∃ ds, IsNumeral (FormatUint n).data .decimal ds ∧ digitsValue 10 ds = n := by
  by_cases hn : n = 0
  · subst hn
    refine ⟨[0], ⟨['0'], rfl, ?_, by decide, rfl, fun _ => rfl⟩, rfl⟩
    intro d hd
    simp only [List.mem_singleton] at hd
    subst hd
    decide
  · have hne : Nat.digits 10 n ≠ [] := Nat.digits_ne_nil_iff_ne_zero.mpr hn
    have hlt : ∀ d ∈ (Nat.digits 10 n).reverse, d < 10 := by
      intro d hd
      exact Nat.digits_lt_base (by norm_num) (List.mem_reverse.mp hd)
    refine ⟨(Nat.digits 10 n).reverse, ⟨(Nat.digits 10 n).reverse.map digitChar, ?_, hlt, ?_,
      ?_, ?_⟩, ?_⟩
    · rw [List.map_map]
      apply List.map_congr_left
      intro d hd
      exact digitOfChar_digitChar d (hlt d hd)
    · simpa using hne
    · unfold FormatUint
      rw [if_neg hn]
    · intro h0
      rw [List.head?_reverse, List.getLast?_eq_getLast _ hne] at h0
      simp only [Option.some.injEq] at h0
      exact absurd h0 (Nat.getLast_digit_ne_zero 10 hn)
    · rw [digitsValue_reverse, Nat.ofDigits_digits]

/-- The decimal text of an integer is a signed decimal numeral that denotes
it. -/
theorem FormatInt_numeral (m : Int) :
    ∃ sg ds, IsSignedNumeral (FormatInt m).data sg .decimal ds ∧
      sg.apply (digitsValue 10 ds) = m := by
  obtain ⟨ds, hnum, hval⟩ := FormatUint_numeral m.natAbs
  by_cases hm : m < 0
  · refine ⟨.minus, ds, ⟨(FormatUint m.natAbs).data, ?_, hnum⟩, ?_⟩
    · unfold FormatInt
      rw [if_pos hm]
      rfl
    · simp only [Sign.apply, hval]
      omega
  · refine ⟨.absent, ds, ⟨(FormatUint m.natAbs).data, ?_, hnum⟩, ?_⟩
    · unfold FormatInt
      rw [if_neg hm]
      rfl
    · simp only [Sign.apply, hval]
      omega

theorem FormatUint_ne_empty (n : Nat) : FormatUint n ≠ "" := by
  obtain ⟨ds, ⟨body, hmap, _, hne, hcs, _⟩, _⟩ := FormatUint_numeral n
  intro h
  rw [h] at hcs
  have hb : body = [] := hcs.symm
  rw [hb] at hmap
  simp only [List.map_nil] at hmap
  exact hne (List.map_eq_nil_iff.mp hmap.symm)

theorem FormatInt_ne_empty (m : Int) : FormatInt m ≠ "" := by
  unfold FormatInt
  by_cases hm : m < 0
  · rw [if_pos hm]
    intro h
    have := congrArg String.data h
    simp at this
  · rw [if_neg hm]
    exact FormatUint_ne_empty _

theorem integersType_benign (i j : Nat) (g : StructField GoType) (_ : j ≠ i)
    (hg : [exportedField "Int" (.basic Kind.Int) (some "V_INT"),
      exportedField "Int32" (.basic Kind.Int32) (some "V_INT32"),
      exportedField "Int64" (.basic Kind.Int64) (some "V_INT64"),
      exportedField "Uint" (.basic Kind.Uint) (some "V_UINT"),
      exportedField "Uint32" (.basic Kind.Uint32) (some "V_UINT32"),
      exportedField "Uint64" (.basic Kind.Uint64) (some "V_UINT64")][j]? = some g) :
    Benign noDecls g := by
  have hmem := List.mem_iff_getElem?.mpr ⟨j, hg⟩
  simp only [List.mem_cons, List.mem_singleton, List.not_mem_nil, or_false] at hmem
  rcases hmem with h | h | h | h | h | h <;> subst h <;> exact Or.inr (Or.inr rfl)

/-! ## A larger recursion budget gives the same result -/

theorem allSome_mono (s1 s2 : GoType → Option Value)
    (h : ∀ t r, s1 t = some r → s2 t = some r) :
    ∀ (fs : List (StructField GoType)) (vs : List Value),
      allSome (fs.map (fun f => s1 f.typ)) = some vs →
      allSome (fs.map (fun f => s2 f.typ)) = some vs := by
  intro fs
  induction fs with
  | nil => intro vs hv; exact hv
  | cons f fs ih =>
    intro vs hv
    simp only [List.map_cons] at hv ⊢
    cases h1 : s1 f.typ with
    | none => simp [h1, allSome] at hv
    | some a =>
      rw [h1] at hv
      rw [h f.typ a h1]
      simp only [allSome] at hv ⊢
      cases h2 : allSome (fs.map (fun f => s1 f.typ)) with
      | none => simp [h2] at hv
      | some as =>
        rw [h2] at hv
        rw [ih as h2]
        exact hv

theorem ZeroBody_mono (s1 s2 : GoType → Option Value) (D : Decls)
    (h : ∀ t r, s1 t = some r → s2 t = some r) (t : GoType) (r : Value)
    (hr : ZeroBody s1 D t = some r) : ZeroBody s2 D t = some r := by
  cases t with
  | basic k => exact hr
  | slice e => exact hr
  | map k e => exact hr
  | ptr e => exact hr
  | named name => exact h _ _ hr
  | struct fs =>
    simp only [ZeroBody] at hr ⊢
    cases h1 : allSome (fs.map (fun f => s1 f.typ)) with
    | none => simp [h1] at hr
    | some vs =>
      rw [h1] at hr
      rw [allSome_mono s1 s2 h fs vs h1]
      exact hr

theorem Zero_succ (D : Decls) :
    ∀ (n : Nat) (t : GoType) (r : Value), Zero n D t = some r → Zero (n + 1) D t = some r := by
  intro n
  induction n with
  | zero =>
    intro t r hr
    exact ZeroBody_mono _ _ D (fun _ _ h => by cases h) t r hr
  | succ k ih =>
    intro t r hr
    exact ZeroBody_mono _ _ D ih t r hr

theorem setElems_mono (s1 s2 : GoType → Value → String → Option (Value × Outcome))
    (h : ∀ t v x r, s1 t v x = some r → s2 t v x = some r) (et : GoType) (z : Value) :
    ∀ (ps : List String) (r : List Value × Outcome),
      setElems s1 et z ps = some r → setElems s2 et z ps = some r := by
  intro ps
  induction ps with
  | nil => intro r hr; exact hr
  | cons p rest ih =>
    intro r hr
    rw [setElems] at hr ⊢
    cases h1 : s1 et z p with
    | none => simp [h1] at hr
    | some a =>
      rw [h1] at hr
      rw [h et z p a h1]
      obtain ⟨e, o⟩ := a
      cases o with
      | nil =>
        simp only at hr ⊢
        cases h2 : setElems s1 et z rest with
        | none => simp [h2] at hr
        | some b =>
          rw [h2] at hr
          rw [ih b h2]
          exact hr
      | error x => exact hr
      | halt x => exact hr

theorem setFieldBody_mono (s1 s2 : GoType → Value → String → Option (Value × Outcome))
    (z1 z2 : GoType → Option Value) (D : Decls)
    (hs : ∀ t v x r, s1 t v x = some r → s2 t v x = some r)
    (hz : ∀ t r, z1 t = some r → z2 t = some r)
    (t : GoType) (v : Value) (x : String) (r : Value × Outcome)
    (hr : setFieldBody s1 z1 D t v x = some r) : setFieldBody s2 z2 D t v x = some r := by
  unfold setFieldBody at hr ⊢
  cases hk : kind D t <;> simp only [hk] at hr ⊢ <;> try exact hr
  cases h1 : z1 (elemType D t) with
  | none => simp [h1] at hr
  | some z =>
    rw [h1] at hr
    rw [hz _ z h1]
    simp only at hr ⊢
    cases h2 : setElems s1 (elemType D t) z (Split x ',') with
    | none => simp [h2] at hr
    | some b =>
      rw [h2] at hr
      rw [setElems_mono s1 s2 hs _ z _ b h2]
      exact hr

theorem setField_succ (D : Decls) :
    ∀ (n : Nat) (t : GoType) (v : Value) (x : String) (r : Value × Outcome),
      setField n D t v x = some r → setField (n + 1) D t v x = some r := by
  intro n
  induction n with
  | zero =>
    intro t v x r hr
    exact setFieldBody_mono _ _ _ _ D (fun _ _ _ _ h => by cases h) (Zero_succ D 0) t v x r hr
  | succ k ih =>
    intro t v x r hr
    exact setFieldBody_mono _ _ _ _ D ih (Zero_succ D (k + 1)) t v x r hr

theorem allocIfNil_mono (z1 z2 : GoType → Option Value)
    (hz : ∀ t r, z1 t = some r → z2 t = some r) (et : GoType) (w w1 : Value)
    (h : allocIfNil z1 et w = some w1) : allocIfNil z2 et w = some w1 := by
  unfold allocIfNil at h ⊢
  split at h
  · cases h2 : z1 et with
    | none => simp [h2] at h
    | some z =>
      rw [h2] at h
      simp only [hz _ z h2]
      exact h
  · exact h

theorem decodeNested_mono (s1 s2 : GoType → Value → Option (Value × Outcome))
    (hs : ∀ t v r, s1 t v = some r → s2 t v = some r) (t : GoType) (w : Value)
    (r : Value × Outcome) (h : decodeNested s1 t w = some r) :
    decodeNested s2 t w = some r := by
  unfold decodeNested at h ⊢
  cases h1 : s1 (.ptr t) (.ptr (some w)) with
  | none => simp [h1] at h
  | some b =>
    rw [h1] at h
    rw [hs _ _ b h1]
    exact h

theorem decodeField_mono [CaseTables] (s1 s2 : GoType → Value → Option (Value × Outcome))
    (f1 f2 : GoType → Value → String → Option (Value × Outcome))
    (z1 z2 : GoType → Option Value) (D : Decls) (env : Env) (a : Bool)
    (hs : ∀ t v r, s1 t v = some r → s2 t v = some r)
    (hf : ∀ t v x r, f1 t v x = some r → f2 t v x = some r)
    (hz : ∀ t r, z1 t = some r → z2 t = some r)
    (g : StructField GoType) (w : Value) (r : Value × Outcome)
    (hr : decodeField s1 f1 z1 D env a g w = some r) :
    decodeField s2 f2 z2 D env a g w = some r := by
  unfold decodeField at hr ⊢
  cases htag : g.tag with
  | none => simpa [htag] using hr
  | some tg =>
    simp only [htag] at hr ⊢
    by_cases hx : (a && g.exported) = false
    · rw [if_pos hx] at hr ⊢
      exact hr
    · rw [if_neg hx] at hr ⊢
      by_cases hp : kind D g.typ = Kind.Ptr
      · rw [if_pos hp] at hr ⊢
        cases h1 : allocIfNil z1 (elemType D g.typ) w with
        | none => simp [h1] at hr
        | some w1 =>
          rw [h1] at hr
          rw [allocIfNil_mono z1 z2 hz _ w w1 h1]
          exact hs _ _ _ hr
      · rw [if_neg hp] at hr ⊢
        by_cases hst : kind D g.typ = Kind.Struct
        · simp only [if_pos hst] at hr ⊢
          cases h1 : decodeNested s1 g.typ w with
          | none => simp [h1] at hr
          | some c =>
            rw [h1] at hr
            rw [decodeNested_mono s1 s2 hs _ w c h1]
            obtain ⟨fv, o⟩ := c
            cases o with
            | nil =>
              simp only at hr ⊢
              by_cases he : env (ToUpper tg) = ""
              · rw [if_pos he] at hr ⊢
                exact hr
              · rw [if_neg he] at hr ⊢
                exact hf _ _ _ _ hr
            | error e => exact hr
            | halt p => exact hr
        · simp only [if_neg hst] at hr ⊢
          by_cases he : env (ToUpper tg) = ""
          · rw [if_pos he] at hr ⊢
            exact hr
          · rw [if_neg he] at hr ⊢
            exact hf _ _ _ _ hr

theorem decodeFields_mono (p1 p2 : StructField GoType → Value → Option (Value × Outcome))
    (h : ∀ g w r, p1 g w = some r → p2 g w = some r) :
    ∀ (fs : List (StructField GoType)) (vs : List Value) (r : List Value × Outcome),
      decodeFields p1 fs vs = some r → decodeFields p2 fs vs = some r := by
  intro fs
  induction fs with
  | nil => intro vs r hr; simpa [decodeFields] using hr
  | cons f fs ih =>
    intro vs r hr
    cases vs with
    | nil => simpa [decodeFields] using hr
    | cons v vs =>
      rw [decodeFields] at hr ⊢
      cases h1 : p1 f v with
      | none => simp [h1] at hr
      | some a =>
        rw [h1] at hr
        rw [h f v a h1]
        obtain ⟨v1, o⟩ := a
        cases o with
        | nil =>
          simp only at hr ⊢
          cases h2 : decodeFields p1 fs vs with
          | none => simp [h2] at hr
          | some b =>
            rw [h2] at hr
            rw [ih vs b h2]
            exact hr
        | error e => exact hr
        | halt p => exact hr

theorem DecodeBody_mono [CaseTables] (s1 s2 : GoType → Value → Option (Value × Outcome))
    (f1 f2 : GoType → Value → String → Option (Value × Outcome))
    (z1 z2 : GoType → Option Value) (D : Decls) (env : Env)
    (hs : ∀ t v r, s1 t v = some r → s2 t v = some r)
    (hf : ∀ t v x r, f1 t v x = some r → f2 t v x = some r)
    (hz : ∀ t r, z1 t = some r → z2 t = some r)
    (t : GoType) (v : Value) (r : Value × Outcome)
    (hr : DecodeBody s1 f1 z1 D env t v = some r) :
    DecodeBody s2 f2 z2 D env t v = some r := by
  have hstep : ∀ a fs vs (q : List Value × Outcome),
      decodeFields (decodeField s1 f1 z1 D env a) fs vs = some q →
      decodeFields (decodeField s2 f2 z2 D env a) fs vs = some q := by
    intro a fs vs q hq
    exact decodeFields_mono _ _ (decodeField_mono s1 s2 f1 f2 z1 z2 D env a hs hf hz) fs vs q hq
  unfold DecodeBody at hr ⊢
  cases hrt : resolve D t <;> simp only [hrt] at hr ⊢ <;> try exact hr
  next et =>
    cases v <;> try exact hr
    next pointee =>
    cases pointee with
    | none => exact hr
    | some pv =>
      simp only at hr ⊢
      cases hre : resolve D et <;> simp only [hre] at hr ⊢ <;> try exact hr
      next fs =>
      cases pv <;> try exact hr
      next vs =>
      simp only at hr ⊢
      cases h1 : decodeFields (decodeField s1 f1 z1 D env true) fs vs with
      | none => simp [h1] at hr
      | some q =>
        rw [h1] at hr
        rw [hstep true fs vs q h1]
        exact hr

/-- A result of `Decode` does not change when the recursion budget grows. -/
theorem Decode_succ [CaseTables] (D : Decls) (env : Env) :
    ∀ (n : Nat) (t : GoType) (v : Value) (r : Value × Outcome),
      Decode n D env t v = some r → Decode (n + 1) D env t v = some r := by
  intro n
  induction n with
  | zero =>
    intro t v r hr
    exact DecodeBody_mono _ _ _ _ _ _ D env (fun _ _ _ h => by cases h) (setField_succ D 0)
      (Zero_succ D 0) t v r hr
  | succ k ih =>
    intro t v r hr
    exact DecodeBody_mono _ _ _ _ _ _ D env ih (setField_succ D (k + 1))
      (Zero_succ D (k + 1)) t v r hr

/-- A result of `Decode` is the result for every larger recursion budget. -/
theorem Decode_mono [CaseTables] (D : Decls) (env : Env) (n m : Nat) (h : n ≤ m) (t : GoType) (v : Value)
    (r : Value × Outcome) (hr : Decode n D env t v = some r) :
    Decode m D env t v = some r := by
  induction m with
  | zero =>
    have : n = 0 := by omega
    subst this
    exact hr
  | succ k ih =>
    by_cases hk : n = k + 1
    · subst hk
      exact hr
    · exact Decode_succ D env k t v r (ih (by omega))

/-- A result of `setField` is the result for every larger recursion
budget. -/
theorem setField_mono (D : Decls) (n m : Nat) (h : n ≤ m) (t : GoType) (v : Value)
    (x : String) (r : Value × Outcome) (hr : setField n D t v x = some r) :
    setField m D t v x = some r := by
  induction m with
  | zero =>
    have : n = 0 := by omega
    subst this
    exact hr
  | succ k ih =>
    by_cases hk : n = k + 1
    · subst hk
      exact hr
    · exact setField_succ D k t v x r (ih (by omega))

/-! ## `Decode` in terms of its loop -/

theorem Decode_eq_DecodeBody [CaseTables] (n : Nat) (D : Decls) (env : Env) :
    Decode n D env = DecodeBody (innerDecode n D env) (setField n D) (Zero n D) D env := by
  cases n with
  | zero => rfl
  | succ k => rfl

/-- Decoding a pointer to a structure runs the field loop on its fields. -/
theorem Decode_eq_loop [CaseTables] (n : Nat) (D : Decls) (env : Env) (t et : GoType)
    (fs : List (StructField GoType)) (vs : List Value)
    (ht : resolve D t = .ptr et) (he : resolve D et = .struct fs) :
    Decode n D env t (.ptr (some (.struct vs))) =
      match decodeFields (fieldStep n D env) fs vs with
      | none => none
      | some (vs1, o) => some (.ptr (some (.struct vs1)), o) := by
  rw [Decode_eq_DecodeBody, DecodeBody_ptr_struct _ _ _ _ _ _ _ _ _ ht he]
  rfl

/-- The state of the fields when the loop ends at the first iteration that
does not end with nil: the fields before it hold what their iterations
produced, the field itself what its iteration left, the fields after it what
they held. -/
theorem decodeFields_failure_at
    (step : StructField GoType → Value → Option (Value × Outcome)) :
    ∀ (fs : List (StructField GoType)) (vs : List Value) (i : Nat)
      (f : StructField GoType) (v v1 : Value) (o : Outcome),
      fs[i]? = some f → vs[i]? = some v → step f v = some (v1, o) → o ≠ Outcome.nil →
      (∀ (j : Nat) (g : StructField GoType) (w : Value), j < i → fs[j]? = some g →
        vs[j]? = some w → ∃ w1, step g w = some (w1, Outcome.nil)) →
      ∃ vs1, decodeFields step fs vs = some (vs1, o) ∧ vs1.length = vs.length ∧
        vs1[i]? = some v1 ∧ (∀ j, i < j → vs1[j]? = vs[j]?) ∧
        (∀ (j : Nat) (g : StructField GoType) (w : Value), j < i → fs[j]? = some g →
          vs[j]? = some w → ∃ w1, vs1[j]? = some w1 ∧ step g w = some (w1, Outcome.nil)) := by
  intro fs
  induction fs with
  | nil => intro vs i f v v1 o hf; simp at hf
  | cons f0 fs ih =>
    intro vs i f v v1 o hf hv hs ho hb
    cases vs with
    | nil => simp at hv
    | cons v0 vs =>
      cases i with
      | zero =>
        simp at hf hv
        subst hf; subst hv
        refine ⟨v1 :: vs, ?_, by simp, by simp, ?_, ?_⟩
        · rw [decodeFields]
          cases o with
          | nil => exact absurd rfl ho
          | error e => simp [hs]
          | halt p => simp [hs]
        · intro j hj
          cases j with
          | zero => omega
          | succ k => simp
        · intro j g w hj
          omega
      | succ k =>
        simp at hf hv
        obtain ⟨w1, hw1⟩ := hb 0 f0 v0 (by omega) (by simp) (by simp)
        obtain ⟨vs1, h1, h2, h3, h4, h5⟩ := ih vs k f v v1 o hf hv hs ho
          (fun j g w hj hg hw => hb (j + 1) g w (by omega) (by simpa using hg)
            (by simpa using hw))
        refine ⟨w1 :: vs1, ?_, by simp [h2], by simpa using h3, ?_, ?_⟩
        · rw [decodeFields]
          simp [hw1, h1]
        · intro j hj
          cases j with
          | zero => omega
          | succ m => simpa using h4 m (by omega)
        · intro j g w hj hg hw
          cases j with
          | zero =>
            simp at hg hw
            subst hg; subst hw
            exact ⟨w1, by simp, hw1⟩
          | succ m =>
            simp at hg hw
            obtain ⟨w2, hw2, hw3⟩ := h5 m g w (by omega) hg hw
            exact ⟨w2, by simpa using hw2, hw3⟩

/-! ## Pointer and structure fields -/

/-- The iteration of an annotated, writable pointer field: allocation if nil,
then the recursive call; nothing else. -/
theorem fieldStep_ptr [CaseTables] (n : Nat) (D : Decls) (env : Env) (f : StructField GoType) (tg : String)
    (v : Value) (htag : f.tag = some tg) (hex : f.exported = true)
    (hk : kind D f.typ = Kind.Ptr) :
    fieldStep (n + 1) D env f v =
      match allocIfNil (Zero (n + 1) D) (elemType D f.typ) v with
      | none => none
      | some v1 => Decode n D env f.typ v1 := by
  unfold fieldStep decodeField
  simp only [htag, hex, Bool.true_and, hk, if_true]
  rfl

/-- The iteration of an annotated, writable structure field: the recursive
call, then the lookup of the field's own variable and, for a non-empty text,
the coercer. -/
theorem fieldStep_struct [CaseTables] (n : Nat) (D : Decls) (env : Env) (f : StructField GoType)
    (tg : String) (v : Value) (htag : f.tag = some tg) (hex : f.exported = true)
    (hk : kind D f.typ = Kind.Struct) :
    fieldStep (n + 1) D env f v =
      match decodeNested (Decode n D env) f.typ v with
      | none => none
      | some (v1, Outcome.nil) =>
        if env (ToUpper tg) = "" then some (v1, Outcome.nil)
        else setField (n + 1) D f.typ v1 (env (ToUpper tg))
      | some (v1, o) => some (v1, o) := by
  unfold fieldStep decodeField
  simp only [htag, hex, Bool.true_and, hk, if_true]
  rfl

/-- On a kind outside its switch the coercer halts and writes nothing. -/
theorem setField_unsupported (n : Nat) (D : Decls) (t : GoType) (v : Value) (s : String)
    (h : supportedKind (kind D t) = false) :
    setField n D t v s = some (v, Outcome.halt (.unsupportedType (kind D t))) := by
  obtain ⟨self, hself⟩ := setField_eq_body n D
  rw [hself]
  unfold setFieldBody
  cases hk : kind D t <;> simp only [hk, supportedKind, Bool.true_eq_false] at h <;> rfl

/-- `Decode` of a non-nil pointer leaves a non-nil pointer. -/
theorem DecodeBody_nonnil [CaseTables] (self : GoType → Value → Option (Value × Outcome))
    (setF : GoType → Value → String → Option (Value × Outcome))
    (zero : GoType → Option Value) (D : Decls) (env : Env) (t : GoType) (p r : Value)
    (o : Outcome) (h : DecodeBody self setF zero D env t (.ptr (some p)) = some (r, o)) :
    ∃ p1, r = .ptr (some p1) := by
  unfold DecodeBody at h
  cases hrt : resolve D t <;> simp only [hrt] at h
  case ptr et =>
    cases hre : resolve D et <;> simp only [hre] at h
    case struct fs =>
      cases p <;> simp only at h
      case struct vs =>
        cases hl : decodeFields (decodeField self setF zero D env true) fs vs with
        | none => simp [hl] at h
        | some q =>
          simp only [hl, Option.some.injEq, Prod.mk.injEq] at h
          exact ⟨_, h.1.symm⟩
      all_goals (simp only [Option.some.injEq, Prod.mk.injEq] at h; exact ⟨_, h.1.symm⟩)
    all_goals (simp only [Option.some.injEq, Prod.mk.injEq] at h; exact ⟨_, h.1.symm⟩)
  all_goals (simp only [Option.some.injEq, Prod.mk.injEq] at h; exact ⟨_, h.1.symm⟩)

theorem Decode_nonnil [CaseTables] (n : Nat) (D : Decls) (env : Env) (t : GoType) (p r : Value)
    (o : Outcome) (h : Decode n D env t (.ptr (some p)) = some (r, o)) :
    ∃ p1, r = .ptr (some p1) := by
  rw [Decode_eq_DecodeBody] at h
  exact DecodeBody_nonnil _ _ _ D env t p r o h

/-! ## Lists -/

theorem splitChars_length (sep : Char) (cs : List Char) :
    (splitChars sep cs).length = cs.count sep + 1 := by
  induction cs with
  | nil => simp [splitChars]
  | cons c cs ih =>
    rw [splitChars]
    by_cases h : c = sep
    · subst h
      simp [ih]
    · rw [if_neg h]
      have hc : List.count sep (c :: cs) = List.count sep cs := by
        rw [List.count_cons]
        simp [h]
      rw [hc, ← ih]
      cases hs : splitChars sep cs with
      | nil => exact absurd hs (splitChars_ne_nil sep cs)
      | cons p ps => simp

theorem Split_length (text : String) (sep : Char) :
    (Split text sep).length = text.data.count sep + 1 := by
  unfold Split
  rw [List.length_map, splitChars_length]

/-- When every piece is coerced with outcome nil, the element loop ends with
nil and the list of the coerced pieces, in order. -/
theorem setElems_all_nil (self : GoType → Value → String → Option (Value × Outcome))
    (et : GoType) (z : Value) :
    ∀ pieces : List String,
      (∀ p ∈ pieces, ∃ e, self et z p = some (e, Outcome.nil)) →
      ∃ elems, setElems self et z pieces = some (elems, Outcome.nil) ∧
        elems.length = pieces.length ∧
        ∀ (i : Nat) (p : String), pieces[i]? = some p →
          ∃ e, elems[i]? = some e ∧ self et z p = some (e, Outcome.nil) := by
  intro pieces
  induction pieces with
  | nil =>
    intro _
    exact ⟨[], rfl, rfl, by intro i p hp; simp at hp⟩
  | cons q rest ih =>
    intro h
    obtain ⟨e, he⟩ := h q (by simp)
    obtain ⟨es, h1, h2, h3⟩ := ih (fun p hp => h p (by simp [hp]))
    refine ⟨e :: es, ?_, by simp [h2], ?_⟩
    · rw [setElems, he]
      simp [h1]
    · intro i p hp
      cases i with
      | zero =>
        simp at hp
        subst hp
        exact ⟨e, by simp, he⟩
      | succ k =>
        simp at hp
        obtain ⟨e1, h4, h5⟩ := h3 k p hp
        exact ⟨e1, by simpa using h4, h5⟩

/-- The element loop ends with the outcome of the first piece whose coercion
does not end with nil. -/
theorem setElems_first_failure (self : GoType → Value → String → Option (Value × Outcome))
    (et : GoType) (z : Value) :
    ∀ (pieces : List String) (i : Nat) (p : String) (e : Value) (o : Outcome),
      pieces[i]? = some p → self et z p = some (e, o) → o ≠ Outcome.nil →
      (∀ (j : Nat) (q : String), j < i → pieces[j]? = some q →
        ∃ e1, self et z q = some (e1, Outcome.nil)) →
      ∃ es, setElems self et z pieces = some (es, o) := by
  intro pieces
  induction pieces with
  | nil => intro i p e o hp; simp at hp
  | cons q rest ih =>
    intro i p e o hp hs ho hb
    cases i with
    | zero =>
      simp at hp
      subst hp
      rw [setElems, hs]
      cases o with
      | nil => exact absurd rfl ho
      | error x => exact ⟨_, rfl⟩
      | halt x => exact ⟨_, rfl⟩
    | succ k =>
      simp at hp
      obtain ⟨e1, he1⟩ := hb 0 q (by omega) (by simp)
      obtain ⟨es, hes⟩ := ih k p e o hp hs ho
        (fun j r hj hr => hb (j + 1) r (by omega) (by simpa using hr))
      exact ⟨e1 :: es, by rw [setElems, he1]; simp [hes]⟩

/-- The element loop ends with an outcome other than nil only if the
coercion of some piece ends with that outcome. -/
theorem setElems_failure_source (self : GoType → Value → String → Option (Value × Outcome))
    (et : GoType) (z : Value) :
    ∀ (pieces : List String) (es : List Value) (o : Outcome),
      setElems self et z pieces = some (es, o) → o ≠ Outcome.nil →
      ∃ (i : Nat) (p : String) (e : Value), pieces[i]? = some p ∧ self et z p = some (e, o) := by
  intro pieces
  induction pieces with
  | nil =>
    intro es o h ho
    simp only [setElems, Option.some.injEq, Prod.mk.injEq] at h
    exact absurd h.2.symm ho
  | cons q rest ih =>
    intro es o h ho
    rw [setElems] at h
    cases hs : self et z q with
    | none => simp [hs] at h
    | some r =>
      obtain ⟨e, o1⟩ := r
      cases o1 with
      | nil =>
        simp only [hs] at h
        cases hr : setElems self et z rest with
        | none => simp [hr] at h
        | some r2 =>
          obtain ⟨es2, o2⟩ := r2
          simp only [hr, Option.some.injEq, Prod.mk.injEq] at h
          obtain ⟨i, p, e1, h1, h2⟩ := ih es2 o2 hr (by rw [h.2]; exact ho)
          exact ⟨i + 1, p, e1, by simpa using h1, by rw [h2, h.2]⟩
      | error x =>
        simp only [hs, Option.some.injEq, Prod.mk.injEq] at h
        exact ⟨0, q, e, by simp, by rw [hs, h.2]⟩
      | halt x =>
        simp only [hs, Option.some.injEq, Prod.mk.injEq] at h
        exact ⟨0, q, e, by simp, by rw [hs, h.2]⟩

/-- The coercer on a list field, in terms of the element loop. -/
theorem setField_slice (n : Nat) (D : Decls) (t : GoType) (prior : Value) (text : String)
    (z : Value) (hk : kind D t = Kind.Slice) (hz : Zero (n + 1) D (elemType D t) = some z) :
    setField (n + 1) D t prior text =
      match setElems (setField n D) (elemType D t) z (Split text ',') with
      | none => none
      | some (elems, Outcome.nil) => some (.slice (some elems), Outcome.nil)
      | some (_, o) => some (prior, o) := by
  show setFieldBody (setField n D) (Zero (n + 1) D) D t prior text = _
  unfold setFieldBody
  simp only [hk, hz]

/-- The value the coercer stores in a signed integer field. -/
theorem setField_signed (n : Nat) (D : Decls) (t : GoType) (v : Value) (s : String)
    (hk : signedKind (kind D t) = true) :
    setField n D t v s =
      some (.int (wrapSigned (Bits (kind D t)) (ParseInt s 0 (Bits (kind D t))).1),
        Outcome.nil) := by
  obtain ⟨self, hself⟩ := setField_eq_body n D
  rw [hself]
  unfold setFieldBody
  cases hkd : kind D t <;> simp only [hkd, signedKind, Bool.false_eq_true] at hk <;> rfl

/-- The value the coercer stores in an unsigned integer field. -/
theorem setField_unsigned (n : Nat) (D : Decls) (t : GoType) (v : Value) (s : String)
    (hk : unsignedKind (kind D t) = true) :
    setField n D t v s =
      some (.uint ((ParseUint s 0 (Bits (kind D t))).1 % 2 ^ Bits (kind D t)), Outcome.nil) := by
  obtain ⟨self, hself⟩ := setField_eq_body n D
  rw [hself]
  unfold setFieldBody
  cases hkd : kind D t <;> simp only [hkd, unsignedKind, Bool.false_eq_true] at hk <;> rfl

/-- A malformed text sets a signed integer field to zero. -/
theorem setField_signed_malformed (n : Nat) (D : Decls) (t : GoType) (v : Value) (s : String)
    (hk : signedKind (kind D t) = true)
    (he : (ParseInt s 0 (Bits (kind D t))).2 = some .ErrSyn) :
    setField n D t v s = some (.int 0, Outcome.nil) := by
  obtain ⟨h0, h64⟩ := bits_signed _ hk
  have hpos : (0 : Int) < 2 ^ (Bits (kind D t) - 1) := by positivity
  rw [setField_signed n D t v s hk, (ParseInt_fail s _ h0 h64).2.1 he,
    wrapSigned_id _ 0 h0 (by omega) (by omega)]

/-- A malformed text sets an unsigned integer field to zero. -/
theorem setField_unsigned_malformed (n : Nat) (D : Decls) (t : GoType) (v : Value)
    (s : String) (hk : unsignedKind (kind D t) = true)
    (he : (ParseUint s 0 (Bits (kind D t))).2 = some .ErrSyn) :
    setField n D t v s = some (.uint 0, Outcome.nil) := by
  obtain ⟨h0, h64⟩ := bits_unsigned _ hk
  rw [setField_unsigned n D t v s hk]
  have hf := parseUintChars_fail s.data (Bits (kind D t)) h0 h64
  unfold ParseUint at he ⊢
  rcases hf with hf | ⟨_, hv⟩ | ⟨hf, _⟩
  · rw [hf] at he; cases he
  · rw [hv]; simp
  · rw [hf] at he; cases he

/-- An overflowing text sets a signed integer field to the bound of its
width on the side of the sign. -/
theorem setField_signed_overflow (n : Nat) (D : Decls) (t : GoType) (v : Value) (s : String)
    (hk : signedKind (kind D t) = true)
    (he : (ParseInt s 0 (Bits (kind D t))).2 = some .ErrRange) :
    (Negative s →
      setField n D t v s = some (.int (-(2 ^ (Bits (kind D t) - 1) : Int)), Outcome.nil)) ∧
    (¬ Negative s →
      setField n D t v s = some (.int (2 ^ (Bits (kind D t) - 1) - 1), Outcome.nil)) := by
  obtain ⟨h0, h64⟩ := bits_signed _ hk
  have hpos : (0 : Int) < 2 ^ (Bits (kind D t) - 1) := by positivity
  have hf := (ParseInt_fail s _ h0 h64).2.2 he
  constructor
  · intro hn
    rw [setField_signed n D t v s hk, hf.1 hn, wrapSigned_id _ _ h0 (by omega) (by omega)]
  · intro hn
    rw [setField_signed n D t v s hk, hf.2 hn, wrapSigned_id _ _ h0 (by omega) (by omega)]

/-- An overflowing text sets an unsigned integer field to the largest value
of its width. -/
theorem setField_unsigned_overflow (n : Nat) (D : Decls) (t : GoType) (v : Value)
    (s : String) (hk : unsignedKind (kind D t) = true)
    (he : (ParseUint s 0 (Bits (kind D t))).2 = some .ErrRange) :
    setField n D t v s = some (.uint (2 ^ Bits (kind D t) - 1), Outcome.nil) := by
  obtain ⟨h0, h64⟩ := bits_unsigned _ hk
  rw [setField_unsigned n D t v s hk]
  have hf := parseUintChars_fail s.data (Bits (kind D t)) h0 h64
  have hlt : 2 ^ Bits (kind D t) - 1 < 2 ^ 64 := by
    have : 2 ^ Bits (kind D t) ≤ 2 ^ 64 := Nat.pow_le_pow_right (by norm_num) h64
    have : 0 < 2 ^ Bits (kind D t) := by positivity
    omega
  have hpos : 0 < 2 ^ Bits (kind D t) := by positivity
  unfold ParseUint at he ⊢
  rcases hf with hf | ⟨hf, _⟩ | ⟨_, hv⟩
  · rw [hf] at he; cases he
  · rw [hf] at he; cases he
  · rw [hv, Nat.mod_eq_of_lt hlt, Nat.mod_eq_of_lt (by omega)]

/-! ## Decoding twice -/

/-- When the coercer returns nil, what it stores does not depend on what the
field held, and the field's kind is one the coercer names. -/
theorem setFieldBody_nil_prior (self : GoType → Value → String → Option (Value × Outcome))
    (zero : GoType → Option Value) (D : Decls) (t : GoType) (v v2 r : Value) (s : String)
    (h : setFieldBody self zero D t v s = some (r, Outcome.nil)) :
    setFieldBody self zero D t v2 s = some (r, Outcome.nil) ∧
      supportedKind (kind D t) = true := by
  unfold setFieldBody at h ⊢
  cases hk : kind D t <;> simp only [hk] at h ⊢ <;>
    first
    | exact ⟨h, rfl⟩
    | (simp only [Option.some.injEq, Prod.mk.injEq, reduceCtorEq, and_false] at h)
    | skip
  · -- map
    by_cases hc : ConvertibleToAllowed D t = false
    · simp [hc] at h
    · simp only [hc, if_false] at h ⊢
      exact ⟨h, rfl⟩
  · -- slice
    cases hz : zero (elemType D t) with
    | none => simp [hz] at h
    | some z =>
      simp only [hz] at h ⊢
      cases hl : setElems self (elemType D t) z (Split s ',') with
      | none => simp [hl] at h
      | some res =>
        obtain ⟨es, o⟩ := res
        cases o with
        | nil =>
          simp only [hl] at h ⊢
          exact ⟨h, rfl⟩
        | error x => simp [hl] at h
        | halt x => simp [hl] at h

theorem setField_nil_prior (n : Nat) (D : Decls) (t : GoType) (v v2 r : Value) (s : String)
    (h : setField n D t v s = some (r, Outcome.nil)) :
    setField n D t v2 s = some (r, Outcome.nil) ∧ supportedKind (kind D t) = true := by
  obtain ⟨self, hself⟩ := setField_eq_body n D
  rw [hself] at h ⊢
  exact setFieldBody_nil_prior self _ D t v v2 r s h

/-- An iteration that ended with nil ends with nil and changes nothing when
it is run again on its own result, provided the recursive call has that
property and returns non-nil pointers for pointer types. -/
theorem decodeField_twice [CaseTables] (self : GoType → Value → Option (Value × Outcome))
    (zero : GoType → Option Value) (n : Nat) (D : Decls) (env : Env) (a : Bool)
    (hI : ∀ t v r, self t v = some (r, Outcome.nil) → self t r = some (r, Outcome.nil))
    (hS : ∀ t v r, kind D t = Kind.Ptr → self t v = some (r, Outcome.nil) →
      ∃ p, r = .ptr (some p))
    (f : StructField GoType) (v r : Value)
    (h : decodeField self (setField n D) zero D env a f v = some (r, Outcome.nil)) :
    decodeField self (setField n D) zero D env a f r = some (r, Outcome.nil) := by
  unfold decodeField at h ⊢
  cases htag : f.tag with
  | none => simp [htag]
  | some tg =>
    simp only [htag] at h ⊢
    by_cases hx : (a && f.exported) = false
    · rw [if_pos hx]
    · rw [if_neg hx] at h ⊢
      by_cases hp : kind D f.typ = Kind.Ptr
      · rw [if_pos hp] at h ⊢
        cases h1 : allocIfNil zero (elemType D f.typ) v with
        | none => simp [h1] at h
        | some v1 =>
          simp only [h1] at h
          obtain ⟨p, hp1⟩ := hS f.typ v1 r hp h
          subst hp1
          simp only [allocIfNil]
          exact hI _ _ _ h
      · rw [if_neg hp] at h ⊢
        by_cases hst : kind D f.typ = Kind.Struct
        · simp only [if_pos hst] at h ⊢
          cases h1 : decodeNested self f.typ v with
          | none => simp [h1] at h
          | some c =>
            obtain ⟨v1, o⟩ := c
            cases o with
            | nil =>
              simp only [h1] at h
              by_cases he : env (ToUpper tg) = ""
              · rw [if_pos he] at h
                simp only [Option.some.injEq, Prod.mk.injEq, and_true] at h
                subst h
                -- the recursive call returned a non-nil pointer to `v1`
                unfold decodeNested at h1
                cases h2 : self (.ptr f.typ) (.ptr (some v)) with
                | none => simp [h2] at h1
                | some b =>
                  obtain ⟨x, o2⟩ := b
                  have ho2 : o2 = Outcome.nil := by
                    rw [h2] at h1
                    cases x <;> try (simp only [Option.some.injEq, Prod.mk.injEq] at h1; exact h1.2)
                    next pointee =>
                      cases pointee <;>
                        (simp only [Option.some.injEq, Prod.mk.injEq] at h1; exact h1.2)
                  subst ho2
                  obtain ⟨p, hxp⟩ := hS (.ptr f.typ) _ x rfl h2
                  subst hxp
                  rw [h2] at h1
                  simp only [Option.some.injEq, Prod.mk.injEq, and_true] at h1
                  subst h1
                  have h3 := hI _ _ _ h2
                  simp only [decodeNested, h3, he, if_true]
              · rw [if_neg he] at h
                have := (setField_nil_prior n D f.typ v1 v1 r _ h).2
                rw [hst] at this
                cases this
            | error e => simp [h1] at h
            | halt p => simp [h1] at h
        · simp only [if_neg hst] at h ⊢
          by_cases he : env (ToUpper tg) = ""
          · rw [if_pos he]
          · rw [if_neg he] at h ⊢
            exact (setField_nil_prior n D f.typ v r r _ h).1

/-- A loop that ended with nil ends with nil and changes nothing when it is
run again on its own result. -/
theorem decodeFields_twice (step : StructField GoType → Value → Option (Value × Outcome))
    (hstep : ∀ f v r, step f v = some (r, Outcome.nil) → step f r = some (r, Outcome.nil)) :
    ∀ (fs : List (StructField GoType)) (vs vs1 : List Value),
      decodeFields step fs vs = some (vs1, Outcome.nil) →
      decodeFields step fs vs1 = some (vs1, Outcome.nil) := by
  intro fs
  induction fs with
  | nil =>
    intro vs vs1 h
    simp [decodeFields]
  | cons f fs ih =>
    intro vs vs1 h
    cases vs with
    | nil =>
      simp only [decodeFields, Option.some.injEq, Prod.mk.injEq, and_true] at h
      subst h
      simp [decodeFields]
    | cons v vs =>
      rw [decodeFields] at h
      cases hs : step f v with
      | none => simp [hs] at h
      | some c =>
        obtain ⟨v1, o⟩ := c
        cases o with
        | nil =>
          simp only [hs] at h
          cases hr : decodeFields step fs vs with
          | none => simp [hr] at h
          | some c2 =>
            obtain ⟨vs2, o2⟩ := c2
            simp only [hr, Option.some.injEq, Prod.mk.injEq] at h
            obtain ⟨h1, h2⟩ := h
            subst h1; subst h2
            rw [decodeFields, hstep f v v1 hs]
            simp only [ih vs vs2 hr]
        | error e => simp [hs] at h
        | halt p => simp [hs] at h

/-- The body of `Decode`, when it returned nil, returns nil and the same
value on its own result; for a pointer type that value is a non-nil
pointer. -/
theorem DecodeBody_twice [CaseTables] (self : GoType → Value → Option (Value × Outcome))
    (zero : GoType → Option Value) (n : Nat) (D : Decls) (env : Env)
    (hI : ∀ t v r, self t v = some (r, Outcome.nil) → self t r = some (r, Outcome.nil))
    (hS : ∀ t v r, kind D t = Kind.Ptr → self t v = some (r, Outcome.nil) →
      ∃ p, r = .ptr (some p))
    (t : GoType) (v r : Value)
    (h : DecodeBody self (setField n D) zero D env t v = some (r, Outcome.nil)) :
    DecodeBody self (setField n D) zero D env t r = some (r, Outcome.nil) ∧
      (kind D t = Kind.Ptr → ∃ p, r = .ptr (some p)) := by
  have hloop : ∀ a fs vs vs1,
      decodeFields (decodeField self (setField n D) zero D env a) fs vs =
        some (vs1, Outcome.nil) →
      decodeFields (decodeField self (setField n D) zero D env a) fs vs1 =
        some (vs1, Outcome.nil) := by
    intro a fs vs vs1 hl
    exact decodeFields_twice _ (fun f v r hs => decodeField_twice self zero n D env a hI hS f v r hs)
      fs vs vs1 hl
  unfold DecodeBody at h ⊢
  cases hrt : resolve D t <;> simp only [hrt] at h ⊢ <;>
    try (simp only [Option.some.injEq, Prod.mk.injEq, reduceCtorEq, and_false] at h)
  case ptr et =>
    cases v <;> try (simp only [Option.some.injEq, Prod.mk.injEq, reduceCtorEq, and_false] at h)
    next pointee =>
    cases pointee with
    | none => simp only [Option.some.injEq, Prod.mk.injEq, reduceCtorEq, and_false] at h
    | some pv =>
      simp only at h
      cases hre : resolve D et <;> simp only [hre] at h <;>
        try (simp only [Option.some.injEq, Prod.mk.injEq, reduceCtorEq, and_false] at h)
      next fs =>
      cases pv <;> try (simp only [Option.some.injEq, Prod.mk.injEq, reduceCtorEq, and_false] at h)
      next vs =>
      cases hl : decodeFields (decodeField self (setField n D) zero D env true) fs vs with
      | none => simp [hl] at h
      | some q =>
        obtain ⟨vs1, o⟩ := q
        simp only [hl, Option.some.injEq, Prod.mk.injEq] at h
        obtain ⟨h1, h2⟩ := h
        subst h1; subst h2
        simp only [hre, hloop true fs vs vs1 hl]
        exact ⟨trivial, fun _ => ⟨_, rfl⟩⟩
  case struct fs =>
    cases v <;> try (simp only [Option.some.injEq, Prod.mk.injEq, reduceCtorEq, and_false] at h)
    next vs =>
    cases hl : decodeFields (decodeField self (setField n D) zero D env false) fs vs with
    | none => simp [hl] at h
    | some q =>
      obtain ⟨vs1, o⟩ := q
      simp only [hl, Option.some.injEq, Prod.mk.injEq] at h
      obtain ⟨h1, h2⟩ := h
      subst h1; subst h2
      simp only [hloop false fs vs vs1 hl]
      refine ⟨trivial, ?_⟩
      intro hk
      simp [kind, hrt] at hk

/-- A `Decode` that returned nil returns nil and the same value when it is
run again on its result. -/
theorem Decode_twice [CaseTables] (D : Decls) (env : Env) :
    ∀ (n : Nat) (t : GoType) (v r : Value), Decode n D env t v = some (r, Outcome.nil) →
      Decode n D env t r = some (r, Outcome.nil) ∧
        (kind D t = Kind.Ptr → ∃ p, r = .ptr (some p)) := by
  intro n
  induction n with
  | zero =>
    intro t v r h
    exact DecodeBody_twice (fun _ _ => none) _ 0 D env (fun _ _ _ h => by cases h)
      (fun _ _ _ _ h => by cases h) t v r h
  | succ k ih =>
    intro t v r h
    exact DecodeBody_twice (Decode k D env) _ (k + 1) D env
      (fun t v r h => (ih t v r h).1) (fun t v r hk h => (ih t v r h).2 hk) t v r h

/-! ## Termination on types where the recursion ends -/

theorem Zero_mono (D : Decls) (n m : Nat) (h : n ≤ m) (t : GoType) (z : Value)
    (hz : Zero n D t = some z) : Zero m D t = some z := by
  induction m with
  | zero =>
    have : n = 0 := by omega
    subst this
    exact hz
  | succ k ih =>
    by_cases hk : n = k + 1
    · subst hk
      exact hz
    · exact Zero_succ D k t z (ih (by omega))

theorem allSome_of_all (s : GoType → Option Value) :
    ∀ fs : List (StructField GoType), (∀ f ∈ fs, ∃ z, s f.typ = some z) →
      ∃ zs, allSome (fs.map (fun f => s f.typ)) = some zs := by
  intro fs
  induction fs with
  | nil => intro _; exact ⟨[], rfl⟩
  | cons f fs ih =>
    intro h
    obtain ⟨z, hz⟩ := h f (by simp)
    obtain ⟨zs, hzs⟩ := ih (fun g hg => h g (by simp [hg]))
    exact ⟨z :: zs, by simp only [List.map_cons, hz, allSome, hzs]⟩

theorem ZeroBody_of_zeroDepth (b : GoType → Bool) (s : GoType → Option Value) (D : Decls)
    (h : ∀ t, b t = true → ∃ z, s t = some z) (t : GoType)
    (ht : zeroDepthBody b D t = true) : ∃ z, ZeroBody s D t = some z := by
  cases t with
  | basic k => exact ⟨_, rfl⟩
  | slice e => exact ⟨_, rfl⟩
  | map k e => exact ⟨_, rfl⟩
  | ptr e => exact ⟨_, rfl⟩
  | named name => exact h _ ht
  | struct fs =>
    simp only [zeroDepthBody, List.all_eq_true] at ht
    obtain ⟨zs, hzs⟩ := allSome_of_all s fs (fun f hf => h _ (ht f hf))
    exact ⟨.struct zs, by simp only [ZeroBody, hzs]⟩

/-- A type of zero depth at most `n` has a zero value within budget `n`. -/
theorem Zero_of_zeroDepth (D : Decls) :
    ∀ (n : Nat) (t : GoType), zeroDepth n D t = true → ∃ z, Zero n D t = some z := by
  intro n
  induction n with
  | zero =>
    intro t ht
    exact ZeroBody_of_zeroDepth _ _ D (fun _ h => by cases h) t ht
  | succ k ih =>
    intro t ht
    exact ZeroBody_of_zeroDepth _ _ D ih t ht

theorem setElems_total (self : GoType → Value → String → Option (Value × Outcome))
    (et : GoType) (z : Value) (h : ∀ v s, ∃ r, self et v s = some r) :
    ∀ pieces : List String, ∃ r, setElems self et z pieces = some r := by
  intro pieces
  induction pieces with
  | nil => exact ⟨_, rfl⟩
  | cons p rest ih =>
    obtain ⟨⟨e, o⟩, hr⟩ := h z p
    obtain ⟨⟨es, o2⟩, hrest⟩ := ih
    cases o with
    | nil => exact ⟨(e :: es, o2), by simp only [setElems, hr, hrest]⟩
    | error e2 =>
      exact ⟨(e :: rest.map (fun _ => z), .error e2), by simp only [setElems, hr]⟩
    | halt p2 =>
      exact ⟨(e :: rest.map (fun _ => z), .halt p2), by simp only [setElems, hr]⟩

theorem setFieldBody_total (self : GoType → Value → String → Option (Value × Outcome))
    (zero : GoType → Option Value) (D : Decls) (t : GoType)
    (hz : kind D t = Kind.Slice → ∃ z, zero (elemType D t) = some z)
    (hs : kind D t = Kind.Slice → ∀ v s, ∃ r, self (elemType D t) v s = some r)
    (v : Value) (s : String) : ∃ r, setFieldBody self zero D t v s = some r := by
  unfold setFieldBody
  cases hk : kind D t
  case Slice =>
    obtain ⟨z, hz1⟩ := hz hk
    obtain ⟨⟨es, o⟩, he⟩ := setElems_total self (elemType D t) z (hs hk) (Split s ',')
    simp only [hz1, he]
    cases o with
    | nil => exact ⟨_, rfl⟩
    | error e2 => exact ⟨_, rfl⟩
    | halt p2 => exact ⟨_, rfl⟩
  case Map =>
    simp only
    split
    · exact ⟨_, rfl⟩
    · exact ⟨_, rfl⟩
  all_goals exact ⟨_, rfl⟩

/-- The coercer returns on every type of coerce depth at most `n` with budget
`n`. -/
theorem setField_of_coerceDepth (D : Decls) :
    ∀ (n : Nat) (t : GoType), coerceDepth n D t = true →
      ∀ v s, ∃ r, setField n D t v s = some r := by
  intro n
  induction n with
  | zero =>
    intro t ht v s
    refine setFieldBody_total _ _ D t ?_ ?_ v s
    · intro hk
      simp [coerceDepth, coerceDepthBody, hk] at ht
    · intro hk
      simp [coerceDepth, coerceDepthBody, hk] at ht
  | succ k ih =>
    intro t ht v s
    refine setFieldBody_total (setField k D) (Zero (k + 1) D) D t ?_ ?_ v s
    · intro hk
      simp only [coerceDepth, coerceDepthBody, hk, if_true, Bool.and_eq_true] at ht
      exact Zero_of_zeroDepth D (k + 1) _ ht.1
    · intro hk w x
      simp only [coerceDepth, coerceDepthBody, hk, if_true, Bool.and_eq_true] at ht
      exact ih _ ht.2 w x

theorem allocIfNil_total (zero : GoType → Option Value) (et : GoType) (v : Value)
    (h : ∃ z, zero et = some z) : ∃ w, allocIfNil zero et v = some w := by
  obtain ⟨z, hz⟩ := h
  unfold allocIfNil
  split
  · exact ⟨.ptr (some z), by simp only [hz]⟩
  · exact ⟨_, rfl⟩

theorem decodeNested_total (self : GoType → Value → Option (Value × Outcome)) (t : GoType)
    (v : Value) (h : ∀ w, ∃ r, self (.ptr t) w = some r) :
    ∃ r, decodeNested self t v = some r := by
  obtain ⟨⟨w, o⟩, hr⟩ := h (.ptr (some v))
  unfold decodeNested
  rw [hr]
  split
  · rename_i heq; cases heq
  · exact ⟨_, rfl⟩
  · exact ⟨_, rfl⟩

theorem decodeField_by_value [CaseTables] (self : GoType → Value → Option (Value × Outcome))
    (setF : GoType → Value → String → Option (Value × Outcome))
    (zero : GoType → Option Value) (D : Decls) (env : Env)
    (f : StructField GoType) (v : Value) :
    decodeField self setF zero D env false f v = some (v, Outcome.nil) := by
  unfold decodeField
  cases f.tag with
  | none => rfl
  | some tag => simp

/-- The iteration for a field of a structure not reached through a pointer
is one iteration, and counts as one field. -/
theorem field_by_value (selfCount : GoType → Value → Option Nat) (selfN : GoType → Nat)
    (zero : GoType → Option Value) (D : Decls) (f : StructField GoType) (v : Value) :
    iterationsField selfCount zero D false f v = some 1 ∧
      fieldCountField selfN D false f = 1 := by
  unfold iterationsField fieldCountField
  cases f.tag with
  | none => exact ⟨rfl, rfl⟩
  | some tag => simp

/-- The iteration for a field of a structure reached through a pointer ends
when the field passes `walkField`, and its iterations are within the field's
share of the field count. -/
theorem field_total [CaseTables] (selfOk zeroOk coerceOk : GoType → Bool)
    (self : GoType → Value → Option (Value × Outcome))
    (selfCount : GoType → Value → Option Nat) (selfN : GoType → Nat)
    (setF : GoType → Value → String → Option (Value × Outcome))
    (zero : GoType → Option Value) (D : Decls) (env : Env)
    (hself : ∀ t, selfOk t = true → ∀ v, ∃ r k, self t v = some r ∧ selfCount t v = some k ∧
      k ≤ selfN t)
    (hzero : ∀ t, zeroOk t = true → ∃ z, zero t = some z)
    (hset : ∀ t, coerceOk t = true → ∀ v s, ∃ r, setF t v s = some r)
    (hsetS : ∀ t, kind D t = Kind.Struct → ∀ v s, ∃ r, setF t v s = some r)
    (f : StructField GoType) (hf : walkField selfOk zeroOk coerceOk D f = true) (v : Value) :
    ∃ r k, decodeField self setF zero D env true f v = some r ∧
      iterationsField selfCount zero D true f v = some k ∧
      k ≤ fieldCountField selfN D true f := by
  unfold decodeField iterationsField fieldCountField
  unfold walkField followed at hf
  cases htag : f.tag with
  | none => exact ⟨_, 1, rfl, rfl, by simp⟩
  | some tag =>
    simp only [htag, Option.isSome_some, Bool.true_and] at hf ⊢
    by_cases hex : f.exported = false
    · simp only [hex]
      exact ⟨_, 1, rfl, rfl, by simp⟩
    · have hex1 : f.exported = true := by simpa using hex
      simp only [hex1, Bool.not_true, Bool.false_or] at hf
      simp only [hex1, Bool.true_eq_false, if_false]
      by_cases hptr : kind D f.typ = Kind.Ptr
      · simp only [hptr, if_true, Bool.and_eq_true] at hf ⊢
        obtain ⟨w, hw⟩ := allocIfNil_total zero (elemType D f.typ) v (hzero _ hf.1)
        obtain ⟨r, k, h1, h2, h3⟩ := hself _ hf.2 w
        simp only [hw, h1, h2]
        exact ⟨r, k + 1, rfl, rfl, by omega⟩
      · simp only [hptr, if_false] at hf ⊢
        by_cases hstruct : kind D f.typ = Kind.Struct
        · simp only [hstruct, if_true] at hf ⊢
          obtain ⟨⟨w0, o0⟩, k, h1, h2, h3⟩ := hself _ hf (.ptr (some v))
          have hn : ∃ w, decodeNested self f.typ v = some (w, o0) := by
            unfold decodeNested
            rw [h1]
            split
            · rename_i heq
              cases heq
            · rename_i fv o heq
              simp only [Option.some.injEq, Prod.mk.injEq] at heq
              exact ⟨fv, by rw [heq.2]⟩
            · rename_i x o hne heq
              simp only [Option.some.injEq, Prod.mk.injEq] at heq
              exact ⟨v, by rw [heq.2]⟩
          obtain ⟨w, hw⟩ := hn
          simp only [hw, h2]
          cases o0 with
          | nil =>
            simp only
            by_cases hempty : env (ToUpper tag) = ""
            · simp only [hempty, if_true]
              exact ⟨_, k + 1, rfl, rfl, by omega⟩
            · simp only [hempty, if_false]
              obtain ⟨r, hr⟩ := hsetS _ hstruct w (env (ToUpper tag))
              exact ⟨r, k + 1, hr, rfl, by omega⟩
          | error e => exact ⟨_, k + 1, rfl, rfl, by omega⟩
          | halt p => exact ⟨_, k + 1, rfl, rfl, by omega⟩
        · simp only [hstruct, if_false] at hf ⊢
          by_cases hempty : env (ToUpper tag) = ""
          · simp only [hempty, if_true]
            exact ⟨_, 1, rfl, rfl, by omega⟩
          · simp only [hempty, if_false]
            obtain ⟨r, hr⟩ := hset _ hf v (env (ToUpper tag))
            exact ⟨r, 1, hr, rfl, by omega⟩

/-- The field loop ends when each of its iterations does, and runs at most
as many iterations as the fields count for. -/
theorem fields_total (step : StructField GoType → Value → Option (Value × Outcome))
    (count : StructField GoType → Value → Option Nat) (c : StructField GoType → Nat) :
    ∀ (fs : List (StructField GoType)),
      (∀ f ∈ fs, ∀ v, ∃ r k, step f v = some r ∧ count f v = some k ∧ k ≤ c f) →
      ∀ vs, ∃ r k, decodeFields step fs vs = some r ∧
        iterationsFields step count fs vs = some k ∧ k ≤ (fs.map c).sum := by
  intro fs
  induction fs with
  | nil => intro _ vs; exact ⟨_, 0, rfl, rfl, by simp⟩
  | cons f fs ih =>
    intro h vs
    cases vs with
    | nil => exact ⟨_, 0, rfl, rfl, by simp⟩
    | cons v vs =>
      obtain ⟨⟨v1, o⟩, k, hv, hk, hle⟩ := h f (by simp) v
      obtain ⟨⟨vs1, o1⟩, l, hrest, hl, hle2⟩ := ih (fun g hg => h g (by simp [hg])) vs
      cases o with
      | nil =>
        exact ⟨(v1 :: vs1, o1), k + l, by simp only [decodeFields, hv, hrest],
          by simp only [iterationsFields, hk, hv, hl],
          by simp only [List.map_cons, List.sum_cons]; omega⟩
      | error e =>
        exact ⟨(v1 :: vs, .error e), k, by simp only [decodeFields, hv],
          by simp only [iterationsFields, hk, hv],
          by simp only [List.map_cons, List.sum_cons]; omega⟩
      | halt p =>
        exact ⟨(v1 :: vs, .halt p), k, by simp only [decodeFields, hv],
          by simp only [iterationsFields, hk, hv],
          by simp only [List.map_cons, List.sum_cons]; omega⟩

/-- One call of `Decode` ends when its type passes one level of `walkDepth`,
and the iterations it runs are within one level of the field count. -/
theorem DecodeBody_total [CaseTables] (selfOk zeroOk coerceOk : GoType → Bool)
    (self : GoType → Value → Option (Value × Outcome))
    (selfCount : GoType → Value → Option Nat) (selfN : GoType → Nat)
    (setF : GoType → Value → String → Option (Value × Outcome))
    (zero : GoType → Option Value) (D : Decls) (env : Env)
    (hself : ∀ t, selfOk t = true → ∀ v, ∃ r k, self t v = some r ∧ selfCount t v = some k ∧
      k ≤ selfN t)
    (hzero : ∀ t, zeroOk t = true → ∃ z, zero t = some z)
    (hset : ∀ t, coerceOk t = true → ∀ v s, ∃ r, setF t v s = some r)
    (hsetS : ∀ t, kind D t = Kind.Struct → ∀ v s, ∃ r, setF t v s = some r)
    (t : GoType) (ht : walkDepthBody selfOk zeroOk coerceOk D t = true) (v : Value) :
    ∃ r k, DecodeBody self setF zero D env t v = some r ∧
      IterationsBody selfCount self setF zero D env t v = some k ∧
      k ≤ fieldCountBody selfN D t := by
  unfold DecodeBody IterationsBody fieldCountBody
  unfold walkDepthBody at ht
  cases hr : resolve D t with
  | basic k => exact ⟨_, 0, rfl, rfl, Nat.le_refl 0⟩
  | slice e => exact ⟨_, 0, rfl, rfl, Nat.le_refl 0⟩
  | map k e => exact ⟨_, 0, rfl, rfl, Nat.le_refl 0⟩
  | named m => exact ⟨_, 0, rfl, rfl, Nat.le_refl 0⟩
  | struct fs =>
    simp only
    cases v with
    | struct vs =>
      simp only
      obtain ⟨⟨vs1, o⟩, k, h1, h2, h3⟩ := fields_total
        (decodeField self setF zero D env false) (iterationsField selfCount zero D false)
        (fieldCountField selfN D false) fs
        (fun f _ w => ⟨_, 1, decodeField_by_value _ _ _ D env f w,
          (field_by_value selfCount selfN zero D f w).1,
          by rw [(field_by_value selfCount selfN zero D f w).2]⟩) vs
      rw [h1, h2]
      exact ⟨_, k, rfl, rfl, h3⟩
    | bool b => exact ⟨_, 0, rfl, rfl, Nat.zero_le _⟩
    | int i => exact ⟨_, 0, rfl, rfl, Nat.zero_le _⟩
    | uint u => exact ⟨_, 0, rfl, rfl, Nat.zero_le _⟩
    | string s => exact ⟨_, 0, rfl, rfl, Nat.zero_le _⟩
    | slice es => exact ⟨_, 0, rfl, rfl, Nat.zero_le _⟩
    | map es => exact ⟨_, 0, rfl, rfl, Nat.zero_le _⟩
    | ptr p => exact ⟨_, 0, rfl, rfl, Nat.zero_le _⟩
    | other k => exact ⟨_, 0, rfl, rfl, Nat.zero_le _⟩
  | ptr et =>
    rw [hr] at ht
    simp only at ht ⊢
    cases v with
    | bool b => exact ⟨_, 0, rfl, rfl, Nat.zero_le _⟩
    | int i => exact ⟨_, 0, rfl, rfl, Nat.zero_le _⟩
    | uint u => exact ⟨_, 0, rfl, rfl, Nat.zero_le _⟩
    | string s => exact ⟨_, 0, rfl, rfl, Nat.zero_le _⟩
    | slice es => exact ⟨_, 0, rfl, rfl, Nat.zero_le _⟩
    | map es => exact ⟨_, 0, rfl, rfl, Nat.zero_le _⟩
    | struct vs => exact ⟨_, 0, rfl, rfl, Nat.zero_le _⟩
    | other k => exact ⟨_, 0, rfl, rfl, Nat.zero_le _⟩
    | ptr p =>
      cases p with
      | none => exact ⟨_, 0, rfl, rfl, Nat.zero_le _⟩
      | some pv =>
        simp only
        cases hre : resolve D et with
        | basic k => exact ⟨_, 0, rfl, rfl, Nat.le_refl 0⟩
        | slice e => exact ⟨_, 0, rfl, rfl, Nat.le_refl 0⟩
        | map k e => exact ⟨_, 0, rfl, rfl, Nat.le_refl 0⟩
        | named m => exact ⟨_, 0, rfl, rfl, Nat.le_refl 0⟩
        | ptr e => exact ⟨_, 0, rfl, rfl, Nat.le_refl 0⟩
        | struct fs =>
          rw [hre] at ht
          simp only [List.all_eq_true] at ht ⊢
          cases pv with
          | bool b => exact ⟨_, 0, rfl, rfl, Nat.zero_le _⟩
          | int i => exact ⟨_, 0, rfl, rfl, Nat.zero_le _⟩
          | uint u => exact ⟨_, 0, rfl, rfl, Nat.zero_le _⟩
          | string s => exact ⟨_, 0, rfl, rfl, Nat.zero_le _⟩
          | slice es => exact ⟨_, 0, rfl, rfl, Nat.zero_le _⟩
          | map es => exact ⟨_, 0, rfl, rfl, Nat.zero_le _⟩
          | ptr p => exact ⟨_, 0, rfl, rfl, Nat.zero_le _⟩
          | other k => exact ⟨_, 0, rfl, rfl, Nat.zero_le _⟩
          | struct vs =>
            simp only
            obtain ⟨⟨vs1, o⟩, k, h1, h2, h3⟩ := fields_total
              (decodeField self setF zero D env true) (iterationsField selfCount zero D true)
              (fieldCountField selfN D true) fs
              (fun f hf w => field_total selfOk zeroOk coerceOk self selfCount selfN setF zero
                D env hself hzero hset hsetS f (ht f hf) w) vs
            rw [h1, h2]
            exact ⟨_, k, rfl, rfl, h3⟩

theorem setField_struct_total (n : Nat) (D : Decls) (t : GoType) (hk : kind D t = Kind.Struct)
    (v : Value) (s : String) : ∃ r, setField n D t v s = some r :=
  ⟨_, setField_unsupported n D t v s (by rw [hk]; rfl)⟩

/-- On a type of walk depth at most `n`, `Decode` returns with budget `n`,
and the iterations of the field loop it runs, nested calls included, are at
most the static field count of the type. -/
theorem Decode_of_walkDepth [CaseTables] (D : Decls) (env : Env) :
    ∀ (n : Nat) (t : GoType), walkDepth n D t = true →
      ∀ v, ∃ r k, Decode n D env t v = some r ∧ Iterations n D env t v = some k ∧
        k ≤ fieldCount n D t := by
  intro n
  induction n with
  | zero =>
    intro t ht v
    exact DecodeBody_total (fun _ => false) (zeroDepth 0 D) (coerceDepth 0 D)
      (fun _ _ => none) (fun _ _ => none) (fun _ => 0) (setField 0 D) (Zero 0 D) D env
      (fun _ h => by cases h) (Zero_of_zeroDepth D 0) (setField_of_coerceDepth D 0)
      (fun t hk => setField_struct_total 0 D t hk) t ht v
  | succ k ih =>
    intro t ht v
    exact DecodeBody_total (walkDepth k D) (zeroDepth (k + 1) D) (coerceDepth (k + 1) D)
      (Decode k D env) (Iterations k D env) (fieldCount k D) (setField (k + 1) D)
      (Zero (k + 1) D) D env ih (Zero_of_zeroDepth D (k + 1))
      (setField_of_coerceDepth D (k + 1))
      (fun t hk => setField_struct_total (k + 1) D t hk) t ht v

/-- The result of `Decode` does not depend on the budget. -/
theorem Decode_budget_independent [CaseTables] (D : Decls) (env : Env) (n m : Nat) (t : GoType) (v : Value)
    (r1 r2 : Value × Outcome) (h1 : Decode n D env t v = some r1)
    (h2 : Decode m D env t v = some r2) : r1 = r2 := by
  have a := Decode_mono D env n (max n m) (Nat.le_max_left n m) t v r1 h1
  have b := Decode_mono D env m (max n m) (Nat.le_max_right n m) t v r2 h2
  rw [a] at b
  exact Option.some.inj b

theorem Zero_node (k : Nat) :
    Zero k nodeDecls (.named "Node") = none ∨
      Zero k nodeDecls (.named "Node") = some (.struct [.ptr none]) := by
  cases k with
  | zero => exact Or.inl rfl
  | succ k =>
    cases k with
    | zero => exact Or.inl rfl
    | succ j =>
      right
      cases j <;> rfl

/-- Decoding a list node whose `Next` is nil never returns: each call
allocates the next node and decodes it. -/
theorem node_never_returns [CaseTables] :
    ∀ n : Nat, Decode n nodeDecls emptyEnv (.ptr (.named "Node"))
      (.ptr (some (.struct [.ptr none]))) = none := by
  intro n
  induction n with
  | zero => rfl
  | succ k ih =>
    have hfield : fieldStep (k + 1) nodeDecls emptyEnv
        (exportedField "Next" (.ptr (.named "Node")) (some "NEXT")) (.ptr none) = none := by
      rw [fieldStep_ptr k nodeDecls emptyEnv
        (exportedField "Next" (.ptr (.named "Node")) (some "NEXT")) "NEXT" (.ptr none)
        rfl rfl rfl]
      have he : elemType nodeDecls
          (exportedField "Next" (.ptr (.named "Node")) (some "NEXT")).typ = .named "Node" := rfl
      rw [he]
      rcases Zero_node (k + 1) with hz | hz
      · simp only [allocIfNil, hz]
      · simp only [allocIfNil, hz]
        exact ih
    rw [Decode_eq_loop (k + 1) nodeDecls emptyEnv (.ptr (.named "Node")) (.named "Node")
      [exportedField "Next" (.ptr (.named "Node")) (some "NEXT")] [.ptr none] rfl rfl]
    simp only [decodeFields, hfield]

/-! ## Types that differ only in annotations -/

theorem AlikeStep_mono [CaseTables] (env1 env2 : Env) (R S : GoType → GoType → Prop) (D1 D2 : Decls)
    (hRS : ∀ a b, R a b → S a b) (t1 t2 : GoType)
    (h : AlikeStep env1 env2 R D1 D2 t1 t2) : AlikeStep env1 env2 S D1 D2 t1 t2 := by
  cases t1 <;> cases t2 <;> simp only [AlikeStep] at h ⊢
  case basic.basic => exact h
  case slice.slice => exact hRS _ _ h
  case map.map => exact h
  case ptr.ptr => exact hRS _ _ h
  case struct.struct =>
    exact List.Forall₂.imp (fun f g hfg => ⟨hfg.1, hfg.2.1, hfg.2.2.1, hRS _ _ hfg.2.2.2⟩) h
  case named.named => exact ⟨h.1, hRS _ _ h.2⟩

theorem Alike_orInvalid [CaseTables] (env1 env2 : Env) (R : GoType → GoType → Prop) (D1 D2 : Decls)
    (hA : Alike env1 env2 R D1 D2) : Alike env1 env2 (orInvalid R) D1 D2 := by
  intro t1 t2 h
  rcases h with h | ⟨rfl, rfl⟩
  · exact AlikeStep_mono env1 env2 R _ D1 D2 (fun a b hab => Or.inl hab) t1 t2 (hA t1 t2 h)
  · simp only [AlikeStep]

theorem Alike_resolve [CaseTables] (env1 env2 : Env) (R : GoType → GoType → Prop) (D1 D2 : Decls)
    (hA : Alike env1 env2 R D1 D2) (t1 t2 : GoType) (h : R t1 t2) :
    R (resolve D1 t1) (resolve D2 t2) := by
  have hs := hA t1 t2 h
  cases t1 <;> cases t2 <;> simp only [AlikeStep] at hs
  case named.named n m =>
    obtain ⟨rfl, h2⟩ := hs
    exact h2
  all_goals exact h

theorem Alike_kind [CaseTables] (env1 env2 : Env) (R : GoType → GoType → Prop) (D1 D2 : Decls)
    (hA : Alike env1 env2 R D1 D2) (t1 t2 : GoType) (h : R t1 t2) :
    kind D1 t1 = kind D2 t2 := by
  have hs := hA _ _ (Alike_resolve env1 env2 R D1 D2 hA t1 t2 h)
  unfold kind
  generalize resolve D1 t1 = u1 at hs ⊢
  generalize resolve D2 t2 = u2 at hs ⊢
  cases u1 <;> cases u2 <;> simp only [AlikeStep] at hs
  case basic.basic => exact hs
  all_goals rfl

theorem Alike_elem [CaseTables] (env1 env2 : Env) (R : GoType → GoType → Prop) (D1 D2 : Decls)
    (hA : Alike env1 env2 R D1 D2) (hI : R (.basic Kind.Invalid) (.basic Kind.Invalid))
    (t1 t2 : GoType) (h : R t1 t2) (hk : kind D1 t1 ≠ Kind.Map) :
    R (elemType D1 t1) (elemType D2 t2) := by
  have hs := hA _ _ (Alike_resolve env1 env2 R D1 D2 hA t1 t2 h)
  unfold kind at hk
  unfold elemType
  generalize resolve D1 t1 = u1 at hs hk ⊢
  generalize resolve D2 t2 = u2 at hs ⊢
  cases u1 <;> cases u2 <;> simp only [AlikeStep] at hs
  case slice.slice => exact hs
  case ptr.ptr => exact hs
  case map.map => exact absurd rfl hk
  all_goals exact hI

theorem Alike_convertible [CaseTables] (env1 env2 : Env) (R : GoType → GoType → Prop) (D1 D2 : Decls)
    (hA : Alike env1 env2 R D1 D2) (t1 t2 : GoType) (h : R t1 t2) :
    ConvertibleToAllowed D1 t1 = ConvertibleToAllowed D2 t2 := by
  have hs := hA _ _ (Alike_resolve env1 env2 R D1 D2 hA t1 t2 h)
  unfold ConvertibleToAllowed
  generalize resolve D1 t1 = u1 at hs ⊢
  generalize resolve D2 t2 = u2 at hs ⊢
  cases u1 <;> cases u2 <;> simp only [AlikeStep] at hs
  case map.map =>
    obtain ⟨rfl, rfl⟩ := hs
    rfl
  all_goals rfl

/-- Related types of kind Map are the same type. -/
theorem Alike_map_eq [CaseTables] (env1 env2 : Env) (R : GoType → GoType → Prop) (D1 D2 : Decls)
    (hA : Alike env1 env2 R D1 D2) (t1 t2 : GoType) (h : R t1 t2)
    (hk : kind D1 t1 = Kind.Map) : t1 = t2 := by
  have hs := hA t1 t2 h
  cases t1 <;> cases t2 <;> simp only [AlikeStep] at hs
  case basic.basic => rw [hs]
  case slice.slice => simp [kind, resolve] at hk
  case map.map => obtain ⟨rfl, rfl⟩ := hs; rfl
  case ptr.ptr => simp [kind, resolve] at hk
  case struct.struct => simp [kind, resolve] at hk
  case named.named => rw [hs.1]

theorem Alike_field_types [CaseTables] (env1 env2 : Env) (R : GoType → GoType → Prop)
    (s1 s2 : GoType → Option Value) (hs : ∀ a b, R a b → s1 a = s2 b)
    (fs gs : List (StructField GoType)) (h : List.Forall₂ (FieldsAlike env1 env2 R) fs gs) :
    fs.map (fun f => s1 f.typ) = gs.map (fun g => s2 g.typ) := by
  induction h with
  | nil => rfl
  | cons hfg _ ih =>
    simp only [List.map_cons, ih, hs _ _ hfg.2.2.2]

theorem ZeroBody_alike [CaseTables] (env1 env2 : Env) (R : GoType → GoType → Prop) (D1 D2 : Decls)
    (hA : Alike env1 env2 R D1 D2) (s1 s2 : GoType → Option Value)
    (hs : ∀ a b, R a b → s1 a = s2 b) (t1 t2 : GoType) (h : R t1 t2) :
    ZeroBody s1 D1 t1 = ZeroBody s2 D2 t2 := by
  have hst := hA t1 t2 h
  cases t1 <;> cases t2 <;> simp only [AlikeStep] at hst
  case basic.basic => rw [hst]; rfl
  case slice.slice => rfl
  case map.map => rfl
  case ptr.ptr => rfl
  case struct.struct fs gs =>
    simp only [ZeroBody, Alike_field_types env1 env2 R s1 s2 hs fs gs hst]
  case named.named n m =>
    obtain ⟨rfl, h2⟩ := hst
    exact hs _ _ h2

theorem Zero_alike [CaseTables] (env1 env2 : Env) (R : GoType → GoType → Prop) (D1 D2 : Decls)
    (hA : Alike env1 env2 R D1 D2) :
    ∀ (n : Nat) (t1 t2 : GoType), R t1 t2 → Zero n D1 t1 = Zero n D2 t2 := by
  intro n
  induction n with
  | zero =>
    intro t1 t2 h
    exact ZeroBody_alike env1 env2 R D1 D2 hA _ _ (fun _ _ _ => rfl) t1 t2 h
  | succ k ih =>
    intro t1 t2 h
    exact ZeroBody_alike env1 env2 R D1 D2 hA _ _ ih t1 t2 h

theorem setElems_alike (self1 self2 : GoType → Value → String → Option (Value × Outcome))
    (e1 e2 : GoType) (z : Value) (h : ∀ v s, self1 e1 v s = self2 e2 v s) :
    ∀ ps : List String, setElems self1 e1 z ps = setElems self2 e2 z ps := by
  intro ps
  induction ps with
  | nil => rfl
  | cons p rest ih => simp only [setElems, h, ih]

theorem setFieldBody_alike [CaseTables] (env1 env2 : Env) (R : GoType → GoType → Prop) (D1 D2 : Decls)
    (hA : Alike env1 env2 R D1 D2) (hI : R (.basic Kind.Invalid) (.basic Kind.Invalid))
    (self1 self2 : GoType → Value → String → Option (Value × Outcome))
    (zero1 zero2 : GoType → Option Value)
    (hs : ∀ a b v s, R a b → self1 a v s = self2 b v s)
    (hz : ∀ a b, R a b → zero1 a = zero2 b)
    (t1 t2 : GoType) (h : R t1 t2) (v : Value) (s : String) :
    setFieldBody self1 zero1 D1 t1 v s = setFieldBody self2 zero2 D2 t2 v s := by
  have hk := Alike_kind env1 env2 R D1 D2 hA t1 t2 h
  unfold setFieldBody
  rw [hk]
  cases hk2 : kind D2 t2
  case Slice =>
    have he := Alike_elem env1 env2 R D1 D2 hA hI t1 t2 h (by rw [hk, hk2]; decide)
    simp only [hz _ _ he,
      setElems_alike self1 self2 _ _ _ (fun w x => hs _ _ w x he)]
  case Map =>
    have ht := Alike_map_eq env1 env2 R D1 D2 hA t1 t2 h (by rw [hk, hk2])
    have hc := Alike_convertible env1 env2 R D1 D2 hA t1 t2 h
    subst ht
    simp only [hc]
  all_goals rfl

theorem setField_alike [CaseTables] (env1 env2 : Env) (R : GoType → GoType → Prop) (D1 D2 : Decls)
    (hA : Alike env1 env2 R D1 D2) (hI : R (.basic Kind.Invalid) (.basic Kind.Invalid)) :
    ∀ (n : Nat) (t1 t2 : GoType) (v : Value) (s : String), R t1 t2 →
      setField n D1 t1 v s = setField n D2 t2 v s := by
  intro n
  induction n with
  | zero =>
    intro t1 t2 v s h
    exact setFieldBody_alike env1 env2 R D1 D2 hA hI _ _ _ _ (fun _ _ _ _ _ => rfl)
      (Zero_alike env1 env2 R D1 D2 hA 0) t1 t2 h v s
  | succ k ih =>
    intro t1 t2 v s h
    exact setFieldBody_alike env1 env2 R D1 D2 hA hI _ _ _ _
      (fun a b w x hab => ih a b w x hab)
      (Zero_alike env1 env2 R D1 D2 hA (k + 1)) t1 t2 h v s

theorem allocIfNil_alike (zero1 zero2 : GoType → Option Value) (e1 e2 : GoType) (v : Value)
    (h : zero1 e1 = zero2 e2) : allocIfNil zero1 e1 v = allocIfNil zero2 e2 v := by
  unfold allocIfNil
  rw [h]

theorem decodeNested_alike (self1 self2 : GoType → Value → Option (Value × Outcome))
    (t1 t2 : GoType) (v : Value) (h : ∀ w, self1 (.ptr t1) w = self2 (.ptr t2) w) :
    decodeNested self1 t1 v = decodeNested self2 t2 v := by
  unfold decodeNested
  rw [h]

/-- One iteration of the field loop gives the same result on corresponding
fields. -/
theorem decodeField_alike [CaseTables] (env1 env2 : Env) (R : GoType → GoType → Prop) (D1 D2 : Decls)
    (hA : Alike env1 env2 R D1 D2) (hI : R (.basic Kind.Invalid) (.basic Kind.Invalid))
    (self1 self2 : GoType → Value → Option (Value × Outcome))
    (setF1 setF2 : GoType → Value → String → Option (Value × Outcome))
    (zero1 zero2 : GoType → Option Value)
    (hself : ∀ a b w, R a b → self1 a w = self2 b w)
    (hselfp : ∀ a b w, R a b → self1 (.ptr a) w = self2 (.ptr b) w)
    (hset : ∀ a b w s, R a b → setF1 a w s = setF2 b w s)
    (hz : ∀ a b, R a b → zero1 a = zero2 b)
    (addr : Bool) (f g : StructField GoType) (hfg : FieldsAlike env1 env2 R f g) (v : Value) :
    decodeField self1 setF1 zero1 D1 env1 addr f v =
      decodeField self2 setF2 zero2 D2 env2 addr g v := by
  obtain ⟨_, hex, htag, hty⟩ := hfg
  have hk := Alike_kind env1 env2 R D1 D2 hA _ _ hty
  unfold decodeField
  cases hf : f.tag with
  | none =>
    cases hg : g.tag with
    | none => rfl
    | some b => rw [hf, hg] at htag; exact absurd htag (by simp [TagsAlike])
  | some a =>
    cases hg : g.tag with
    | none => rw [hf, hg] at htag; exact absurd htag (by simp [TagsAlike])
    | some b =>
      rw [hf, hg] at htag
      obtain ⟨hup, henv⟩ : SameUpper env1 env2 a b := htag
      have hvar : env1 (ToUpper a) = env2 (ToUpper b) := by rw [henv, hup]
      simp only [hex, hk, hvar]
      by_cases hskip : (addr && g.exported) = false
      · rw [if_pos hskip, if_pos hskip]
      · rw [if_neg hskip, if_neg hskip]
        by_cases hptr : kind D2 g.typ = Kind.Ptr
        · rw [if_pos hptr, if_pos hptr]
          have he := Alike_elem env1 env2 R D1 D2 hA hI _ _ hty (by rw [hk, hptr]; decide)
          rw [allocIfNil_alike zero1 zero2 _ _ v (hz _ _ he)]
          cases allocIfNil zero2 (elemType D2 g.typ) v with
          | none => rfl
          | some w => exact hself _ _ w hty
        · rw [if_neg hptr, if_neg hptr]
          rw [decodeNested_alike self1 self2 f.typ g.typ v (fun w => hselfp _ _ w hty)]
          have hsetF : ∀ w s, setF1 f.typ w s = setF2 g.typ w s :=
            fun w s => hset _ _ w s hty
          simp only [hsetF]

theorem decodeFields_alike (step1 step2 : StructField GoType → Value → Option (Value × Outcome))
    (fs gs : List (StructField GoType))
    (h : List.Forall₂ (fun f g => ∀ v, step1 f v = step2 g v) fs gs) :
    ∀ vs, decodeFields step1 fs vs = decodeFields step2 gs vs := by
  induction h with
  | nil => intro vs; rfl
  | cons hfg _ ih =>
    intro vs
    cases vs with
    | nil => rfl
    | cons v vs => simp only [decodeFields, hfg, ih]

/-- The field loop on a structure reached through a pointer gives the same
result on related pointee types. -/
theorem DecodeBody_ptr_alike [CaseTables] (env1 env2 : Env) (R : GoType → GoType → Prop) (D1 D2 : Decls)
    (hA : Alike env1 env2 R D1 D2) (hI : R (.basic Kind.Invalid) (.basic Kind.Invalid))
    (self1 self2 : GoType → Value → Option (Value × Outcome))
    (setF1 setF2 : GoType → Value → String → Option (Value × Outcome))
    (zero1 zero2 : GoType → Option Value)
    (hself : ∀ a b w, R a b → self1 a w = self2 b w)
    (hselfp : ∀ a b w, R a b → self1 (.ptr a) w = self2 (.ptr b) w)
    (hset : ∀ a b w s, R a b → setF1 a w s = setF2 b w s)
    (hz : ∀ a b, R a b → zero1 a = zero2 b)
    (t1 t2 et1 et2 : GoType) (h1 : resolve D1 t1 = .ptr et1) (h2 : resolve D2 t2 = .ptr et2)
    (hR : R et1 et2) (v : Value) :
    DecodeBody self1 setF1 zero1 D1 env1 t1 v = DecodeBody self2 setF2 zero2 D2 env2 t2 v := by
  have hk := Alike_kind env1 env2 R D1 D2 hA et1 et2 hR
  have hs := hA _ _ (Alike_resolve env1 env2 R D1 D2 hA et1 et2 hR)
  unfold DecodeBody
  rw [h1, h2]
  simp only [hk]
  cases v with
  | ptr p =>
    cases p with
    | none => rfl
    | some pv =>
      simp only
      generalize resolve D1 et1 = u1 at hs ⊢
      generalize resolve D2 et2 = u2 at hs ⊢
      cases u1 <;> cases u2 <;> simp only [AlikeStep] at hs
      case struct.struct fs gs =>
        cases pv with
        | struct vs =>
          simp only
          rw [decodeFields_alike _ _ fs gs
            (List.Forall₂.imp (fun f g hfg w =>
              decodeField_alike env1 env2 R D1 D2 hA hI self1 self2 setF1 setF2 zero1 zero2
                hself hselfp hset hz true f g hfg w) hs) vs]
        | bool b => rfl
        | int i => rfl
        | uint u => rfl
        | string s => rfl
        | slice es => rfl
        | map es => rfl
        | ptr p => rfl
        | other k => rfl
      all_goals rfl
  | bool b => rfl
  | int i => rfl
  | uint u => rfl
  | string s => rfl
  | slice es => rfl
  | map es => rfl
  | struct vs => rfl
  | other k => rfl

theorem DecodeBody_alike [CaseTables] (env1 env2 : Env) (R : GoType → GoType → Prop) (D1 D2 : Decls)
    (hA : Alike env1 env2 R D1 D2) (hI : R (.basic Kind.Invalid) (.basic Kind.Invalid))
    (self1 self2 : GoType → Value → Option (Value × Outcome))
    (setF1 setF2 : GoType → Value → String → Option (Value × Outcome))
    (zero1 zero2 : GoType → Option Value)
    (hself : ∀ a b w, R a b → self1 a w = self2 b w)
    (hselfp : ∀ a b w, R a b → self1 (.ptr a) w = self2 (.ptr b) w)
    (hset : ∀ a b w s, R a b → setF1 a w s = setF2 b w s)
    (hz : ∀ a b, R a b → zero1 a = zero2 b)
    (t1 t2 : GoType) (hR : R t1 t2) (v : Value) :
    DecodeBody self1 setF1 zero1 D1 env1 t1 v = DecodeBody self2 setF2 zero2 D2 env2 t2 v := by
  have hk := Alike_kind env1 env2 R D1 D2 hA t1 t2 hR
  have hs := hA _ _ (Alike_resolve env1 env2 R D1 D2 hA t1 t2 hR)
  cases hu1 : resolve D1 t1 with
  | ptr e1 =>
    cases hu2 : resolve D2 t2 with
    | ptr e2 =>
      rw [hu1, hu2] at hs
      exact DecodeBody_ptr_alike env1 env2 R D1 D2 hA hI self1 self2 setF1 setF2 zero1 zero2
        hself hselfp hset hz t1 t2 e1 e2 hu1 hu2 hs v
    | basic k => rw [hu1, hu2] at hs; exact absurd hs (by simp [AlikeStep])
    | slice e => rw [hu1, hu2] at hs; exact absurd hs (by simp [AlikeStep])
    | map k e => rw [hu1, hu2] at hs; exact absurd hs (by simp [AlikeStep])
    | struct gs => rw [hu1, hu2] at hs; exact absurd hs (by simp [AlikeStep])
    | named m => rw [hu1, hu2] at hs; exact absurd hs (by simp [AlikeStep])
  | struct fs =>
    cases hu2 : resolve D2 t2 with
    | struct gs =>
      rw [hu1, hu2] at hs
      unfold DecodeBody
      rw [hu1, hu2]
      simp only
      cases v with
      | struct vs =>
        simp only
        rw [decodeFields_alike _ _ fs gs
          (List.Forall₂.imp (fun f g hfg w =>
            decodeField_alike env1 env2 R D1 D2 hA hI self1 self2 setF1 setF2 zero1 zero2
              hself hselfp hset hz false f g hfg w) hs) vs]
      | bool b => rfl
      | int i => rfl
      | uint u => rfl
      | string s => rfl
      | slice es => rfl
      | map es => rfl
      | ptr p => rfl
      | other k => rfl
    | basic k => rw [hu1, hu2] at hs; exact absurd hs (by simp [AlikeStep])
    | slice e => rw [hu1, hu2] at hs; exact absurd hs (by simp [AlikeStep])
    | map k e => rw [hu1, hu2] at hs; exact absurd hs (by simp [AlikeStep])
    | ptr e => rw [hu1, hu2] at hs; exact absurd hs (by simp [AlikeStep])
    | named m => rw [hu1, hu2] at hs; exact absurd hs (by simp [AlikeStep])
  | basic k1 =>
    rw [hu1] at hs
    unfold DecodeBody
    rw [hu1, hk]
    cases hu2 : resolve D2 t2 <;> rw [hu2] at hs <;> simp only [AlikeStep] at hs
  | slice e1 =>
    rw [hu1] at hs
    unfold DecodeBody
    rw [hu1, hk]
    cases hu2 : resolve D2 t2 <;> rw [hu2] at hs <;> simp only [AlikeStep] at hs
  | map k1 e1 =>
    rw [hu1] at hs
    unfold DecodeBody
    rw [hu1, hk]
    cases hu2 : resolve D2 t2 <;> rw [hu2] at hs <;> simp only [AlikeStep] at hs
  | named n1 =>
    rw [hu1] at hs
    unfold DecodeBody
    rw [hu1, hk]
    cases hu2 : resolve D2 t2 <;> rw [hu2] at hs <;> simp only [AlikeStep] at hs

/-- The walker gives the same result on related types, and on pointers to
related types. -/
theorem Decode_alike [CaseTables] (env1 env2 : Env) (R : GoType → GoType → Prop) (D1 D2 : Decls)
    (hA : Alike env1 env2 R D1 D2) (hI : R (.basic Kind.Invalid) (.basic Kind.Invalid)) :
    ∀ (n : Nat),
      (∀ t1 t2 v, R t1 t2 → Decode n D1 env1 t1 v = Decode n D2 env2 t2 v) ∧
      (∀ t1 t2 v, R t1 t2 →
        Decode n D1 env1 (.ptr t1) v = Decode n D2 env2 (.ptr t2) v) := by
  intro n
  induction n with
  | zero =>
    constructor
    · intro t1 t2 v hR
      exact DecodeBody_alike env1 env2 R D1 D2 hA hI _ _ _ _ _ _ (fun _ _ _ _ => rfl)
        (fun _ _ _ _ => rfl) (fun a b w s hab => setField_alike env1 env2 R D1 D2 hA hI 0 a b w s hab)
        (Zero_alike env1 env2 R D1 D2 hA 0) t1 t2 hR v
    · intro t1 t2 v hR
      exact DecodeBody_ptr_alike env1 env2 R D1 D2 hA hI _ _ _ _ _ _ (fun _ _ _ _ => rfl)
        (fun _ _ _ _ => rfl) (fun a b w s hab => setField_alike env1 env2 R D1 D2 hA hI 0 a b w s hab)
        (Zero_alike env1 env2 R D1 D2 hA 0) (.ptr t1) (.ptr t2) t1 t2 rfl rfl hR v
  | succ k ih =>
    constructor
    · intro t1 t2 v hR
      exact DecodeBody_alike env1 env2 R D1 D2 hA hI _ _ _ _ _ _
        (fun a b w hab => ih.1 a b w hab) (fun a b w hab => ih.2 a b w hab)
        (fun a b w s hab => setField_alike env1 env2 R D1 D2 hA hI (k + 1) a b w s hab)
        (Zero_alike env1 env2 R D1 D2 hA (k + 1)) t1 t2 hR v
    · intro t1 t2 v hR
      exact DecodeBody_ptr_alike env1 env2 R D1 D2 hA hI _ _ _ _ _ _
        (fun a b w hab => ih.1 a b w hab) (fun a b w hab => ih.2 a b w hab)
        (fun a b w s hab => setField_alike env1 env2 R D1 D2 hA hI (k + 1) a b w s hab)
        (Zero_alike env1 env2 R D1 D2 hA (k + 1)) (.ptr t1) (.ptr t2) t1 t2 rfl rfl hR v

/-! ## Claims -/

/-- C1 (TestEmbedded): on the structure of the test, whose nested structure
`Embedded` and pointer `Ptr` carry no annotation, `Decode` returns nil and
sets `Val`, but it does not visit the two un-annotated fields: `EmbeddedVal`
keeps the empty text and `Ptr` stays nil, although the variables of their
inner fields hold text. -/
theorem C1_TestEmbedded_untagged_fields_skipped [CaseTables] (n : Nat) :
    Decode n embeddedDecls embeddedEnv (.ptr embeddedType) (.ptr (some embeddedZero)) =
      some (.ptr (some (.struct [.string "test!!", .struct [.string ""], .ptr none])),
        Outcome.nil) := by
  cases n <;> rfl

/-- C2, as the code has it: in a structure with an annotated, writable text
field whose upper-cased variable holds a non-empty text `s`, `Decode` returns
nil when every other field is skipped or scalar; and whenever `Decode` returns
nil the field holds exactly `s` and every other field that is skipped, or that
is neither a pointer nor a structure and has an absent or empty variable, is
unchanged. -/
theorem C2_text_field_set_verbatim [CaseTables] (n : Nat) (D : Decls) (env : Env) (t et : GoType)
    (fs : List (StructField GoType)) (vs : List Value) (i : Nat)
    (f : StructField GoType) (tg s : String)
    (ht : resolve D t = .ptr et) (he : resolve D et = .struct fs)
    (hlen : vs.length = fs.length) (hf : fs[i]? = some f)
    (hk : kind D f.typ = Kind.String) (htag : f.tag = some tg) (hex : f.exported = true)
    (hs : env (ToUpper tg) = s) (hne : s ≠ "") :
    ((∀ (j : Nat) (g : StructField GoType), j ≠ i → fs[j]? = some g → Benign D g) →
      ∃ vs1, Decode n D env t (.ptr (some (.struct vs))) =
        some (.ptr (some (.struct vs1)), Outcome.nil)) ∧
    (∀ r, Decode n D env t (.ptr (some (.struct vs))) = some (r, Outcome.nil) →
      ∃ vs1, r = .ptr (some (.struct vs1)) ∧ vs1[i]? = some (.string s) ∧
        ∀ (j : Nat) (g : StructField GoType), j ≠ i → fs[j]? = some g →
          Untouched D env g → vs1[j]? = vs[j]?) := by
  obtain ⟨self, hself⟩ := Decode_ptr_struct n D env t et fs vs ht he
  have hp : kind D f.typ ≠ Kind.Ptr := by rw [hk]; decide
  have hst : kind D f.typ ≠ Kind.Struct := by rw [hk]; decide
  have hstep : ∀ v, decodeField self (setField n D) (Zero n D) D env true f v =
      some (.string s, Outcome.nil) := by
    intro v
    rw [decodeField_leaf _ _ _ _ _ _ _ tg htag hex hp hst, hs]
    simp [hne, setField_string n D f.typ v s hk]
  constructor
  · intro hothers
    obtain ⟨vs1, hvs1⟩ := decodeFields_all_nil
      (decodeField self (setField n D) (Zero n D) D env true) fs vs (by
        intro j g w hg _
        by_cases hj : j = i
        · subst hj
          rw [hf] at hg
          cases hg
          exact ⟨_, hstep w⟩
        · exact decodeField_benign _ _ n D env g w (hothers j g hj hg))
    exact ⟨vs1, by rw [hself, hvs1]⟩
  · intro r hdec
    rw [hself] at hdec
    cases hl : decodeFields (decodeField self (setField n D) (Zero n D) D env true) fs vs with
    | none => simp [hl] at hdec
    | some res =>
      obtain ⟨vs1, o1⟩ := res
      simp only [hl, Option.some.injEq, Prod.mk.injEq] at hdec
      obtain ⟨hr, ho⟩ := hdec
      subst ho
      refine ⟨vs1, hr.symm, ?_, ?_⟩
      · have hi : i < vs.length := by
          rw [hlen]
          exact (List.getElem?_eq_some.mp hf).1
        obtain ⟨v1, hv1, hs1⟩ := decodeFields_nil_get _ fs vs vs1 i f (vs[i]) hl hf
          (List.getElem?_eq_getElem hi)
        rw [hstep] at hs1
        cases hs1
        exact hv1
      · intro j g _ hg hu
        apply decodeFields_frame _ fs vs vs1 _ j hl
        intro g2 w r2 hg2 _ hstep2
        rw [hg] at hg2
        cases hg2
        rw [decodeField_untouched _ _ _ _ _ _ _ _ hu] at hstep2
        cases hstep2
        rfl

/-- C2 at the structure and environment of `TestString`. -/
theorem C2_text_field_witness :
    (∃ vs1, Decode 0 noDecls stringEnv (.ptr stringType) (.ptr (some (.struct [.string ""]))) =
      some (.ptr (some (.struct vs1)), Outcome.nil)) ∧
    (∃ vs1, Value.ptr (some (.struct [.string "test!!"])) = .ptr (some (.struct vs1)) ∧
      vs1[0]? = some (.string "test!!")) := by
  have h := C2_text_field_set_verbatim 0 noDecls stringEnv (.ptr stringType) stringType
    [exportedField "Val" (.basic Kind.String) (some "STRUCT_TEST")] [.string ""] 0
    (exportedField "Val" (.basic Kind.String) (some "STRUCT_TEST")) "STRUCT_TEST" "test!!"
    rfl rfl rfl rfl rfl rfl rfl rfl (by decide)
  refine ⟨h.1 ?_, ?_⟩
  · intro j g hj hg
    cases j with
    | zero => exact absurd rfl hj
    | succ k => simp at hg
  · obtain ⟨vs1, h1, h2, _⟩ := h.2 (.ptr (some (.struct [.string "test!!"]))) rfl
    exact ⟨vs1, h1, h2⟩

/-- C2 fails as stated: in `mixedType` the text field's variable NAME holds
"x", yet `Decode` returns an error (from the map field), and the pointer
field, whose own variable INNER is absent, is changed from nil to a fresh
structure. -/
theorem C2_counterexample :
    mixedEnv (ToUpper "NAME") = "x" ∧ mixedEnv (ToUpper "INNER") = "" ∧
    Decode 2 mixedDecls mixedEnv (.ptr mixedType)
        (.ptr (some (.struct [.string "", .ptr none, .map none]))) =
      some (.ptr (some (.struct [.string "x", .ptr (some (.struct [.string ""])), .map none])),
        Outcome.error (.mapNotConvertible (.map (.basic Kind.String) (.basic Kind.Int)))) := by
  refine ⟨by decide, by decide, rfl⟩

/-- C3: in a structure with an annotated, writable field of kind int, int32,
int64, uint, uint32 or uint64 whose variable holds the decimal text of an
integer `m` representable in that kind (the other fields being skipped or
scalar), `Decode` returns nil and the field holds `m`. -/
theorem C3_decimal_integer [CaseTables] (n : Nat) (D : Decls) (env : Env) (t et : GoType)
    (fs : List (StructField GoType)) (vs : List Value) (i : Nat)
    (f : StructField GoType) (tg : String) (m : Int)
    (ht : resolve D t = .ptr et) (he : resolve D et = .struct fs)
    (hlen : vs.length = fs.length) (hf : fs[i]? = some f)
    (htag : f.tag = some tg) (hex : f.exported = true)
    (henv : env (ToUpper tg) = FormatInt m)
    (hothers : ∀ (j : Nat) (g : StructField GoType), j ≠ i → fs[j]? = some g → Benign D g) :
    (signedKind (kind D f.typ) = true →
      -(2 ^ (Bits (kind D f.typ) - 1) : Int) ≤ m → m < 2 ^ (Bits (kind D f.typ) - 1) →
      ∃ vs1, Decode n D env t (.ptr (some (.struct vs))) =
          some (.ptr (some (.struct vs1)), Outcome.nil) ∧ vs1[i]? = some (.int m)) ∧
    (unsignedKind (kind D f.typ) = true →
      0 ≤ m → m < 2 ^ Bits (kind D f.typ) →
      ∃ vs1, Decode n D env t (.ptr (some (.struct vs))) =
          some (.ptr (some (.struct vs1)), Outcome.nil) ∧
        vs1[i]? = some (.uint m.toNat)) := by
  have hleaf : ∀ k : Kind, signedKind k = true ∨ unsignedKind k = true →
      k ≠ Kind.Ptr ∧ k ≠ Kind.Struct := by
    intro k hk
    cases k <;> simp [signedKind, unsignedKind] at hk <;> exact ⟨by decide, by decide⟩
  constructor
  · intro hk hlo hhi
    obtain ⟨hp, hst⟩ := hleaf _ (Or.inl hk)
    obtain ⟨sg, ds, hnum, hval⟩ := FormatInt_numeral m
    apply Decode_focus n D env t et fs vs i f _ ht he hlen hf _ hothers
    intro self v
    rw [decodeField_leaf _ _ _ _ _ _ _ tg htag hex hp hst, henv, if_neg (FormatInt_ne_empty m),
      setField_signed_numeral n D f.typ v _ sg .decimal ds hk hnum (by rw [Radix.base, hval]; exact hlo)
        (by rw [Radix.base, hval]; exact hhi)]
    rw [Radix.base, hval]
  · intro hk hlo hhi
    obtain ⟨hp, hst⟩ := hleaf _ (Or.inr hk)
    obtain ⟨ds, hnum, hval⟩ := FormatUint_numeral m.natAbs
    have hfmt : FormatInt m = FormatUint m.natAbs := by
      unfold FormatInt
      rw [if_neg (by omega)]
    have hnat : m.natAbs = m.toNat := by omega
    have hfit : m.toNat < 2 ^ Bits (kind D f.typ) := by
      have : ((m.toNat : Nat) : Int) < ((2 ^ Bits (kind D f.typ) : Nat) : Int) := by
        push_cast
        omega
      exact_mod_cast this
    apply Decode_focus n D env t et fs vs i f _ ht he hlen hf _ hothers
    intro self v
    rw [decodeField_leaf _ _ _ _ _ _ _ tg htag hex hp hst, henv, if_neg (FormatInt_ne_empty m),
      hfmt, setField_unsigned_numeral n D f.typ v _ .decimal ds hk hnum
        (by rw [Radix.base, hval, hnat]; exact hfit)]
    rw [Radix.base, hval, hnat]

/-- C3 at the structure and environment of `TestIntegers`: the int32 field
and the uint64 field. -/
theorem C3_decimal_integer_witness :
    (∃ vs1, Decode 0 noDecls integersEnv (.ptr integersType)
        (.ptr (some (.struct [.int 0, .int 0, .int 0, .uint 0, .uint 0, .uint 0]))) =
        some (.ptr (some (.struct vs1)), Outcome.nil) ∧ vs1[1]? = some (.int 392930)) ∧
    (∃ vs1, Decode 0 noDecls integersEnv (.ptr integersType)
        (.ptr (some (.struct [.int 0, .int 0, .int 0, .uint 0, .uint 0, .uint 0]))) =
        some (.ptr (some (.struct vs1)), Outcome.nil) ∧
      vs1[5]? = some (.uint (39292309209302 : Int).toNat)) := by
  have e1 : FormatInt 392930 = "392930" := by
    simp [FormatInt, FormatUint, digitChar]
  have e2 : FormatInt 39292309209302 = "39292309209302" := by
    simp [FormatInt, FormatUint, digitChar]
  constructor
  · exact (C3_decimal_integer 0 noDecls integersEnv (.ptr integersType) integersType _
      [.int 0, .int 0, .int 0, .uint 0, .uint 0, .uint 0] 1
      (exportedField "Int32" (.basic Kind.Int32) (some "V_INT32")) "V_INT32" 392930
      rfl rfl rfl rfl rfl rfl (by rw [e1]; rfl) (integersType_benign 1)).1 rfl
      (by decide) (by decide)
  · exact (C3_decimal_integer 0 noDecls integersEnv (.ptr integersType) integersType _
      [.int 0, .int 0, .int 0, .uint 0, .uint 0, .uint 0] 5
      (exportedField "Uint64" (.basic Kind.Uint64) (some "V_UINT64")) "V_UINT64" 39292309209302
      rfl rfl rfl rfl rfl rfl (by rw [e2]; rfl) (integersType_benign 5)).2 rfl
      (by decide) (by decide)

/-- C4, as the code has it: for texts free of commas whose joined text is not
empty, `Decode` on a structure with an annotated, writable list-of-text field
whose variable holds the joined text (the other fields being skipped or
scalar) returns nil and stores the list of the original texts, in order. -/
theorem C4_list_roundtrip [CaseTables] (n : Nat) (D : Decls) (env : Env) (t et : GoType)
    (fs : List (StructField GoType)) (vs : List Value) (i : Nat)
    (f : StructField GoType) (tg : String) (xs : List String)
    (ht : resolve D t = .ptr et) (he : resolve D et = .struct fs)
    (hlen : vs.length = fs.length) (hf : fs[i]? = some f)
    (hk : kind D f.typ = Kind.Slice) (hek : kind D (elemType D f.typ) = Kind.String)
    (htag : f.tag = some tg) (hex : f.exported = true)
    (hfree : ∀ x ∈ xs, Free ',' x) (hne : Join xs ',' ≠ "")
    (henv : env (ToUpper tg) = Join xs ',')
    (hothers : ∀ (j : Nat) (g : StructField GoType), j ≠ i → fs[j]? = some g → Benign D g) :
    ∃ vs1, Decode (n + 1) D env t (.ptr (some (.struct vs))) =
        some (.ptr (some (.struct vs1)), Outcome.nil) ∧
      vs1[i]? = some (.slice (some (xs.map Value.string))) := by
  have hxs : xs ≠ [] := by
    intro h
    rw [h] at hne
    exact hne rfl
  apply Decode_focus (n + 1) D env t et fs vs i f _ ht he hlen hf _ hothers
  intro self v
  have hp : kind D f.typ ≠ Kind.Ptr := by rw [hk]; decide
  have hst : kind D f.typ ≠ Kind.Struct := by rw [hk]; decide
  rw [decodeField_leaf _ _ _ _ _ _ _ tg htag hex hp hst, henv, if_neg hne,
    setField_slice_text n D f.typ v _ hk hek, Split_Join ',' xs hxs hfree]

/-- C4 at the structure and the texts of `TestSlice`. -/
theorem C4_list_roundtrip_witness :
    ∃ vs1, Decode 1 noDecls (joinedEnv ["test!!", "no", "really"]) (.ptr sliceType)
        (.ptr (some (.struct [.slice none]))) =
        some (.ptr (some (.struct vs1)), Outcome.nil) ∧
      vs1[0]? = some (.slice (some [.string "test!!", .string "no", .string "really"])) :=
  C4_list_roundtrip 0 noDecls (joinedEnv ["test!!", "no", "really"]) (.ptr sliceType) sliceType
    [exportedField "Val" (.slice (.basic Kind.String)) (some "STRUCT_TEST")] [.slice none] 0
    (exportedField "Val" (.slice (.basic Kind.String)) (some "STRUCT_TEST")) "STRUCT_TEST"
    ["test!!", "no", "really"] rfl rfl rfl rfl rfl rfl rfl rfl
    (by intro x hx; simp only [List.mem_cons, List.mem_singleton, List.not_mem_nil, or_false] at hx
        rcases hx with h | h | h <;> subst h <;> unfold Free <;> decide)
    (by decide) rfl
    (by intro j g hj hg
        cases j with
        | zero => exact absurd rfl hj
        | succ k => simp at hg)

/-- C4 fails as stated: the sequence of the single empty text joins to the
empty text, so the field is not written; it stays the nil list instead of
becoming a list of length one. -/
theorem C4_counterexample :
    Join [""] ',' = "" ∧
    Decode 1 noDecls (joinedEnv [""]) (.ptr sliceType) (.ptr (some (.struct [.slice none]))) =
      some (.ptr (some (.struct [.slice none])), Outcome.nil) := by
  exact ⟨rfl, rfl⟩

/-- C5: on a field whose type is convertible to `map[string]string`, for
every text and every prior content of the field, `setField` returns nil and
stores a map of text keys and text elements, no key twice, in which a key `k`
has the element `v` exactly when the last comma-separated piece of the form
`k=...` with exactly one '=' reads `k=v`; pieces without '=' or with more than
one contribute nothing.  In particular, for pairs free of ',' and '=' encoded
as `k1=v1,k2=v2,...`, the map holds exactly the keys of the pairs, each with
the value of its last pair. -/
theorem C5_map_decoding (n : Nat) (D : Decls) (t : GoType) (prior : Value) (text : String)
    (hc : ConvertibleToAllowed D t = true) :
    ∃ m, setField n D t prior text = some (.map (some m), Outcome.nil) ∧ TextMap m ∧
      (∀ k w, MapIndex m k = some w ↔
        ∃ v, w = .string v ∧ LastPair (Split text ',') k v) ∧
      (∀ ps : List (String × String),
        (∀ p ∈ ps, Free ',' p.1 ∧ Free ',' p.2 ∧ Free '=' p.1 ∧ Free '=' p.2) →
        text = Join (ps.map (fun p => p.1 ++ "=" ++ p.2)) ',' →
        ∀ k w, MapIndex m k = some w ↔ ∃ v, w = .string v ∧ LastOf ps k v) := by
  have hidx : ∀ k w, MapIndex (fillMap (Split text ',') []) k = some w ↔
      ∃ v, w = .string v ∧ LastPair (Split text ',') k v := by
    intro k w
    rw [MapIndex_fillMap]
    cases hl : lastValue (Split text ',') k with
    | some v0 =>
      have h0 := (lastValue_iff k v0 _).mp hl
      simp only [Option.some.injEq]
      constructor
      · intro h
        exact ⟨v0, h.symm, h0⟩
      · rintro ⟨v, hw, hv⟩
        have := (lastValue_iff k v _).mpr hv
        rw [hl] at this
        cases this
        exact hw.symm
    | none =>
      simp only [MapIndex, reduceCtorEq, false_iff]
      rintro ⟨v, _, hv⟩
      have := (lastValue_iff k v _).mpr hv
      rw [hl] at this
      cases this
  refine ⟨fillMap (Split text ',') [], setField_map n D t prior text hc,
    TextMap_fillMap _ [] (by simp [TextMap]), hidx, ?_⟩
  intro ps hfree htext k w
  rw [hidx]
  have hiff : ∀ v, LastPair (Split text ',') k v ↔ LastOf ps k v := by
    intro v
    cases ps with
    | nil =>
      subst htext
      have hs : Split (Join (List.map (fun p : String × String => p.1 ++ "=" ++ p.2) []) ',')
          ',' = [""] := rfl
      rw [hs]
      constructor
      · rintro ⟨pre, x, post, heq, hx, _⟩
        cases pre with
        | nil =>
          simp only [List.nil_append, List.cons.injEq] at heq
          rw [← heq.1] at hx
          exact absurd hx (not_IsPair_empty k v)
        | cons a pre => simp at heq
      · rintro ⟨pre, post, heq, _⟩
        simp at heq
    | cons q rest =>
      rw [htext, Split_Join ',' _ (by simp)]
      · exact LastPair_render k v (q :: rest) (fun p hp => (hfree p hp).2.2)
      · intro x hx
        obtain ⟨p, hp, rfl⟩ := List.mem_map.mp hx
        exact Free_render p.1 p.2 (hfree p hp).1 (hfree p hp).2.1
  constructor
  · rintro ⟨v, hw, hv⟩
    exact ⟨v, hw, (hiff v).mp hv⟩
  · rintro ⟨v, hw, hv⟩
    exact ⟨v, hw, (hiff v).mpr hv⟩

/-- C5 at the text of `TestMap` and the defined type `mapstr`, on a field
that held another map before. -/
theorem C5_map_decoding_witness :
    ∃ m, setField 0 mapstrDecls (.named "mapstr")
        (.map (some [(.string "old", .string "entry")])) "a=b,x=y,1=2,!!!!=n" =
        some (.map (some m), Outcome.nil) ∧ TextMap m ∧
      (∀ k w, MapIndex m k = some w ↔
        ∃ v, w = .string v ∧ LastPair (Split "a=b,x=y,1=2,!!!!=n" ',') k v) ∧
      (∀ ps : List (String × String),
        (∀ p ∈ ps, Free ',' p.1 ∧ Free ',' p.2 ∧ Free '=' p.1 ∧ Free '=' p.2) →
        "a=b,x=y,1=2,!!!!=n" = Join (ps.map (fun p => p.1 ++ "=" ++ p.2)) ',' →
        ∀ k w, MapIndex m k = some w ↔ ∃ v, w = .string v ∧ LastOf ps k v) :=
  C5_map_decoding 0 mapstrDecls (.named "mapstr")
    (.map (some [(.string "old", .string "entry")])) "a=b,x=y,1=2,!!!!=n" rfl

/-- C6, as the code has it: in a structure with an annotated, writable map
field whose type is not convertible to `map[string]string`, whenever the
field's variable holds a non-empty text, whatever its content, and the fields
declared before it are skipped or scalar, `Decode` returns the error naming
the field's type. -/
theorem C6_unconvertible_map_is_error [CaseTables] (n : Nat) (D : Decls) (env : Env) (t et : GoType)
    (fs : List (StructField GoType)) (vs : List Value) (i : Nat)
    (f : StructField GoType) (tg : String)
    (ht : resolve D t = .ptr et) (he : resolve D et = .struct fs)
    (hlen : vs.length = fs.length) (hf : fs[i]? = some f)
    (hk : kind D f.typ = Kind.Map) (hc : ConvertibleToAllowed D f.typ = false)
    (htag : f.tag = some tg) (hex : f.exported = true)
    (hne : env (ToUpper tg) ≠ "")
    (hbefore : ∀ (j : Nat) (g : StructField GoType), j < i → fs[j]? = some g → Benign D g) :
    ∃ vs1, Decode n D env t (.ptr (some (.struct vs))) =
      some (.ptr (some (.struct vs1)), Outcome.error (.mapNotConvertible f.typ)) := by
  obtain ⟨self, hself⟩ := Decode_ptr_struct n D env t et fs vs ht he
  have hp : kind D f.typ ≠ Kind.Ptr := by rw [hk]; decide
  have hst : kind D f.typ ≠ Kind.Struct := by rw [hk]; decide
  have hi : i < vs.length := by
    rw [hlen]
    exact (List.getElem?_eq_some.mp hf).1
  have hstep : decodeField self (setField n D) (Zero n D) D env true f vs[i] =
      some (vs[i], Outcome.error (.mapNotConvertible f.typ)) := by
    rw [decodeField_leaf _ _ _ _ _ _ _ tg htag hex hp hst]
    simp [hne, setField_map_unconvertible n D f.typ vs[i] _ hk hc]
  obtain ⟨vs1, hvs1⟩ := decodeFields_first_failure _ fs vs i f vs[i] vs[i] _ hf
    (List.getElem?_eq_getElem hi) hstep (by simp)
    (fun j g w hj hg _ => decodeField_benign _ _ n D env g w (hbefore j g hj hg))
  exact ⟨vs1, by rw [hself, hvs1]⟩

/-- C6 at the structure `invalidstructtype` and environment of `TestMap`. -/
theorem C6_unconvertible_map_witness :
    ∃ vs1, Decode 0 noDecls mapEnv (.ptr invalidMapType) (.ptr (some (.struct [.map none]))) =
      some (.ptr (some (.struct vs1)),
        Outcome.error (.mapNotConvertible (.map (.basic Kind.String) (.basic Kind.Int)))) :=
  C6_unconvertible_map_is_error 0 noDecls mapEnv (.ptr invalidMapType) invalidMapType
    [exportedField "Val" (.map (.basic Kind.String) (.basic Kind.Int)) (some "STRUCT_MAP")]
    [.map none] 0
    (exportedField "Val" (.map (.basic Kind.String) (.basic Kind.Int)) (some "STRUCT_MAP"))
    "STRUCT_MAP" rfl rfl rfl rfl rfl rfl rfl rfl (by decide)
    (fun j g hj _ => absurd hj (Nat.not_lt_zero j))

/-- C6 fails as stated: with no variable set, `Decode` on
`invalidstructtype` returns nil, not an error. -/
theorem C6_counterexample :
    Decode 0 noDecls emptyEnv (.ptr invalidMapType) (.ptr (some (.struct [.map none]))) =
      some (.ptr (some (.struct [.map none])), Outcome.nil) := by
  rfl

/-- C7: an annotated field that is neither a nested structure nor a pointer
and whose upper-cased variable is absent or empty has the same value after
`Decode` as before, whatever else the structure holds and however the call
ends; and on a structure made of such fields only, all of whose variables are
absent or empty, `Decode` returns nil (and changes nothing). -/
theorem C7_absent_variable_leaves_field [CaseTables] (n : Nat) (D : Decls) (env : Env) (t et : GoType)
    (fs : List (StructField GoType)) (vs : List Value)
    (ht : resolve D t = .ptr et) (he : resolve D et = .struct fs) :
    (∀ (i : Nat) (f : StructField GoType) (tg : String) (r : Value) (o : Outcome),
      fs[i]? = some f → f.tag = some tg →
      kind D f.typ ≠ Kind.Ptr → kind D f.typ ≠ Kind.Struct →
      env (ToUpper tg) = "" →
      Decode n D env t (.ptr (some (.struct vs))) = some (r, o) →
      ∃ vs1, r = .ptr (some (.struct vs1)) ∧ vs1[i]? = vs[i]?) ∧
    ((∀ f ∈ fs, ∃ tg, f.tag = some tg ∧ kind D f.typ ≠ Kind.Ptr ∧
        kind D f.typ ≠ Kind.Struct ∧ env (ToUpper tg) = "") →
      Decode n D env t (.ptr (some (.struct vs))) =
        some (.ptr (some (.struct vs)), Outcome.nil)) := by
  obtain ⟨self, hself⟩ := Decode_ptr_struct n D env t et fs vs ht he
  constructor
  · intro i f tg r o hf htag hp hs hempty hdec
    rw [hself] at hdec
    cases hl : decodeFields (decodeField self (setField n D) (Zero n D) D env true) fs vs with
    | none => simp [hl] at hdec
    | some res =>
      obtain ⟨vs1, o1⟩ := res
      simp only [hl, Option.some.injEq, Prod.mk.injEq] at hdec
      refine ⟨vs1, hdec.1.symm, ?_⟩
      apply decodeFields_frame _ fs vs vs1 o1 i hl
      intro f2 v2 r2 hf2 _ hstep
      rw [hf] at hf2
      cases hf2
      rw [decodeField_leaf_empty _ _ _ _ _ _ _ _ tg htag hp hs hempty] at hstep
      cases hstep
      rfl
  · intro hall
    rw [hself, decodeFields_unchanged _ fs vs]
    intro f hf v
    obtain ⟨tg, h1, h2, h3, h4⟩ := hall f hf
    exact decodeField_leaf_empty _ _ _ _ _ _ _ _ tg h1 h2 h3 h4

/-- C7 at the structure of `TestString` holding "kept", with no variable
set. -/
theorem C7_absent_variable_witness :
    (∃ vs1, (Value.ptr (some (.struct [.string "kept"]))) = .ptr (some (.struct vs1)) ∧
      vs1[0]? = [Value.string "kept"][0]?) ∧
    Decode 0 noDecls emptyEnv (.ptr stringType) (.ptr (some (.struct [.string "kept"]))) =
      some (.ptr (some (.struct [.string "kept"])), Outcome.nil) := by
  have h := C7_absent_variable_leaves_field 0 noDecls emptyEnv (.ptr stringType) stringType
    [exportedField "Val" (.basic Kind.String) (some "STRUCT_TEST")] [.string "kept"] rfl rfl
  refine ⟨h.1 0 _ "STRUCT_TEST" _ _ rfl rfl (by decide) (by decide) rfl rfl, h.2 ?_⟩
  intro f hf
  simp only [List.mem_singleton] at hf
  subst hf
  exact ⟨"STRUCT_TEST", rfl, by decide, by decide, rfl⟩

/-- C8, as the code has it: on a field of kind int, int32, int64, uint,
uint32 or uint64, `setField` returns nil for every text; when the parse fails
the failure is a malformed text or an overflow; a malformed text sets the
field to zero, and an overflow sets it to the bound of the field's width:
the largest value, or the smallest one when the text starts with a minus
sign. -/
theorem C8_failed_parse (n : Nat) (D : Decls) (t : GoType) (prior : Value) (text : String) :
    (unsignedKind (kind D t) = true →
      ∃ x, setField n D t prior text = some (.uint x, Outcome.nil) ∧
        ((ParseUint text 0 (Bits (kind D t))).2 = none ∨
          (ParseUint text 0 (Bits (kind D t))).2 = some .ErrSyn ∨
          (ParseUint text 0 (Bits (kind D t))).2 = some .ErrRange) ∧
        ((ParseUint text 0 (Bits (kind D t))).2 = some .ErrSyn → x = 0) ∧
        ((ParseUint text 0 (Bits (kind D t))).2 = some .ErrRange →
          x = 2 ^ Bits (kind D t) - 1)) ∧
    (signedKind (kind D t) = true →
      ∃ x, setField n D t prior text = some (.int x, Outcome.nil) ∧
        ((ParseInt text 0 (Bits (kind D t))).2 = none ∨
          (ParseInt text 0 (Bits (kind D t))).2 = some .ErrSyn ∨
          (ParseInt text 0 (Bits (kind D t))).2 = some .ErrRange) ∧
        ((ParseInt text 0 (Bits (kind D t))).2 = some .ErrSyn → x = 0) ∧
        ((ParseInt text 0 (Bits (kind D t))).2 = some .ErrRange →
          (Negative text → x = -(2 ^ (Bits (kind D t) - 1) : Int)) ∧
          (¬ Negative text → x = 2 ^ (Bits (kind D t) - 1) - 1))) := by
  obtain ⟨self, hself⟩ := setField_eq_body n D
  have hu : ∀ k : Kind, unsignedKind k = true →
      Bits k ≠ 0 ∧ Bits k ≤ 64 := by
    intro k hk
    cases k <;> simp [unsignedKind] at hk <;> simp [Bits, IntSize]
  have hs : ∀ k : Kind, signedKind k = true →
      Bits k ≠ 0 ∧ Bits k ≤ 64 := by
    intro k hk
    cases k <;> simp [signedKind] at hk <;> simp [Bits, IntSize]
  constructor
  · intro hk
    obtain ⟨h0, h64⟩ := hu _ hk
    have hf := parseUintChars_fail text.data (Bits (kind D t)) h0 h64
    have hlt : 2 ^ Bits (kind D t) - 1 < 2 ^ 64 := by
      have : 2 ^ Bits (kind D t) ≤ 2 ^ 64 := Nat.pow_le_pow_right (by norm_num) h64
      have : 0 < 2 ^ Bits (kind D t) := by positivity
      omega
    have hpos : 0 < 2 ^ Bits (kind D t) := by positivity
    refine ⟨(ParseUint text 0 (Bits (kind D t))).1 % 2 ^ Bits (kind D t), ?_, ?_, ?_, ?_⟩
    · rw [hself]
      unfold setFieldBody
      cases hkd : kind D t <;> simp [hkd, unsignedKind] at hk ⊢ <;> rfl
    · unfold ParseUint
      rcases hf with hf | ⟨hf, _⟩ | ⟨hf, _⟩
      · exact Or.inl hf
      · exact Or.inr (Or.inl hf)
      · exact Or.inr (Or.inr hf)
    · intro he
      unfold ParseUint at he ⊢
      rcases hf with hf | ⟨_, hv⟩ | ⟨hf, _⟩
      · rw [hf] at he; cases he
      · rw [hv]; simp
      · rw [hf] at he; cases he
    · intro he
      unfold ParseUint at he ⊢
      rcases hf with hf | ⟨hf, _⟩ | ⟨_, hv⟩
      · rw [hf] at he; cases he
      · rw [hf] at he; cases he
      · rw [hv, Nat.mod_eq_of_lt hlt]
        exact Nat.mod_eq_of_lt (by omega)
  · intro hk
    obtain ⟨h0, h64⟩ := hs _ hk
    obtain ⟨hf1, hf2, hf3⟩ := ParseInt_fail text (Bits (kind D t)) h0 h64
    have hpos : (0 : Int) < 2 ^ (Bits (kind D t) - 1) := by positivity
    refine ⟨wrapSigned (Bits (kind D t)) (ParseInt text 0 (Bits (kind D t))).1, ?_, hf1, ?_, ?_⟩
    · rw [hself]
      unfold setFieldBody
      cases hkd : kind D t <;> simp [hkd, signedKind] at hk ⊢ <;> rfl
    · intro he
      rw [hf2 he]
      exact wrapSigned_id _ 0 h0 (by omega) (by omega)
    · intro he
      constructor
      · intro hn
        rw [(hf3 he).1 hn]
        exact wrapSigned_id _ _ h0 (by omega) (by omega)
      · intro hn
        rw [(hf3 he).2 hn]
        exact wrapSigned_id _ _ h0 (by omega) (by omega)

/-- C8 at an int32 field and a numeral one above its range. -/
theorem C8_failed_parse_witness :
    ∃ x, setField 0 noDecls (.basic Kind.Int32) (.int 7) "2147483648" =
        some (.int x, Outcome.nil) ∧
      ((ParseInt "2147483648" 0 32).2 = none ∨
        (ParseInt "2147483648" 0 32).2 = some .ErrSyn ∨
        (ParseInt "2147483648" 0 32).2 = some .ErrRange) ∧
      ((ParseInt "2147483648" 0 32).2 = some .ErrSyn → x = 0) ∧
      ((ParseInt "2147483648" 0 32).2 = some .ErrRange →
        (Negative "2147483648" → x = -(2 ^ (32 - 1) : Int)) ∧
        (¬ Negative "2147483648" → x = 2 ^ (32 - 1) - 1)) :=
  (C8_failed_parse 0 noDecls (.basic Kind.Int32) (.int 7) "2147483648").2 rfl

/-- C8 fails as stated: on an int32 field the text "2147483648", a numeral
one above the range, is an overflow for the parser, and `setField` sets the
field to 2147483647, not to zero.  The text "5000000000x", which is not a
numeral at all, is an overflow for the parser as well, which stops at the
digit that exceeds the width: the field is set to 2147483647 again. -/
theorem C8_counterexample :
    (ParseInt "2147483648" 0 32).2 = some NumError.ErrRange ∧
    setField 0 noDecls (.basic Kind.Int32) (.int 7) "2147483648" =
      some (.int 2147483647, Outcome.nil) ∧
    (ParseInt "5000000000x" 0 32).2 = some NumError.ErrRange ∧
    setField 0 noDecls (.basic Kind.Int32) (.int 7) "5000000000x" =
      some (.int 2147483647, Outcome.nil) := by
  exact ⟨by decide, rfl, by decide, rfl⟩

/-- C9, as the code has it: `setField` supports the integer kinds int, int32,
int64, uint, uint32 and uint64.  On such a field every numeral within the
range of the field's width (decimal, or with the prefix 0x or 0X for base 16,
or with a leading 0 for base 8; with an optional sign on a signed field) sets
the field to the denoted value and returns nil.  On a field of kind int8,
int16, uint8 or uint16 `setField` halts with "unsupported type", whatever the
text. -/
theorem C9_integer_kinds (n : Nat) (D : Decls) (t : GoType) (prior : Value) (text : String)
    (r : Radix) (ds : List Nat) :
    (∀ sg : Sign, signedKind (kind D t) = true → IsSignedNumeral text.data sg r ds →
      -(2 ^ (Bits (kind D t) - 1) : Int) ≤ sg.apply (digitsValue r.base ds) →
      sg.apply (digitsValue r.base ds) < 2 ^ (Bits (kind D t) - 1) →
      setField n D t prior text =
        some (.int (sg.apply (digitsValue r.base ds)), Outcome.nil)) ∧
    (unsignedKind (kind D t) = true → IsNumeral text.data r ds →
      digitsValue r.base ds < 2 ^ Bits (kind D t) →
      setField n D t prior text = some (.uint (digitsValue r.base ds), Outcome.nil)) ∧
    (narrowKind (kind D t) = true →
      setField n D t prior text =
        some (prior, Outcome.halt (.unsupportedType (kind D t)))) := by
  refine ⟨?_, ?_, ?_⟩
  · intro sg hk hnum hlo hhi
    exact setField_signed_numeral n D t prior text sg r ds hk hnum hlo hhi
  · intro hk hnum hhi
    exact setField_unsigned_numeral n D t prior text r ds hk hnum hhi
  · intro hk
    obtain ⟨self, hself⟩ := setField_eq_body n D
    rw [hself]
    unfold setFieldBody
    cases hkd : kind D t <;> simp only [hkd, narrowKind, Bool.false_eq_true] at hk <;> rfl

/-- C9 at an int64 field and the text "-0x1F", and at an int16 field. -/
theorem C9_integer_kinds_witness :
    setField 0 noDecls (.basic Kind.Int64) (.int 0) "-0x1F" =
      some (.int (Sign.minus.apply (digitsValue Radix.hex.base [1, 15])), Outcome.nil) ∧
    setField 0 noDecls (.basic Kind.Int16) (.int 3) "17" =
      some (.int 3, Outcome.halt (.unsupportedType Kind.Int16)) := by
  refine ⟨(C9_integer_kinds 0 noDecls (.basic Kind.Int64) (.int 0) "-0x1F" .hex [1, 15]).1
      .minus rfl ?_ (by decide) (by decide),
    (C9_integer_kinds 0 noDecls (.basic Kind.Int16) (.int 3) "17" .decimal [1, 7]).2.2 rfl⟩
  refine ⟨['0', 'x', '1', 'F'], rfl, ['1', 'F'], rfl, ?_, by decide, Or.inl rfl⟩
  intro d hd
  simp only [List.mem_cons, List.mem_singleton, List.not_mem_nil, or_false] at hd
  rcases hd with h | h <;> subst h <;> decide

/-- C9 fails as stated: "1" is a decimal numeral within the range of int8,
yet on an int8 field `setField` halts with "unsupported type" and the field
keeps its value. -/
theorem C9_counterexample :
    IsSignedNumeral "1".data .absent .decimal [1] ∧
    setField 0 noDecls (.basic Kind.Int8) (.int 0) "1" =
      some (.int 0, Outcome.halt (.unsupportedType Kind.Int8)) := by
  refine ⟨⟨['1'], rfl, ['1'], rfl, ?_, by decide, rfl, by decide⟩, rfl⟩
  intro d hd
  simp only [List.mem_singleton] at hd
  subst hd
  decide

/-- C10: on a boolean field `setField` returns nil for every text, and the
field becomes true exactly when the text is one of 1, t, T, TRUE, true, True;
every other text, an accepted spelling of false or malformed, gives false. -/
theorem C10_bool_field (n : Nat) (D : Decls) (t : GoType) (prior : Value) (text : String)
    (hk : kind D t = Kind.Bool) :
    setField n D t prior text =
      some (.bool (decide (text ∈ ["1", "t", "T", "TRUE", "true", "True"])), Outcome.nil) := by
  obtain ⟨self, hself⟩ := setField_eq_body n D
  rw [hself]
  have hb : (ParseBool text).1 = decide (text ∈ ["1", "t", "T", "TRUE", "true", "True"]) := by
    unfold ParseBool
    by_cases h1 : text = "1" ∨ text = "t" ∨ text = "T" ∨ text = "true" ∨ text = "TRUE"
        ∨ text = "True"
    · rw [if_pos h1]
      symm
      simp only [decide_eq_true_eq, List.mem_cons, List.mem_singleton, List.not_mem_nil,
        or_false]
      tauto
    · rw [if_neg h1]
      have h2 : ¬ text ∈ ["1", "t", "T", "TRUE", "true", "True"] := by
        simp only [List.mem_cons, List.mem_singleton, List.not_mem_nil, or_false]
        tauto
      split_ifs <;> simp [h2]
  simp [setFieldBody, hk, hb]

/-- C10 at a boolean field holding true and the text "yes". -/
theorem C10_bool_field_witness :
    setField 0 noDecls (.basic Kind.Bool) (.bool true) "yes" =
      some (.bool (decide ("yes" ∈ ["1", "t", "T", "TRUE", "true", "True"])), Outcome.nil) :=
  C10_bool_field 0 noDecls (.basic Kind.Bool) (.bool true) "yes" rfl

/-- C11 (amended): on a list field whose element type has the zero value
`z`, for every text and every prior content of the field: the text has one
piece more than it has commas; when every piece is coerced to the element
type with outcome nil, `setField` returns nil and stores the list of the
coerced pieces, one per piece and in order; when the coercion of a piece ends
with another outcome after the pieces before it were coerced with nil,
`setField` ends with that outcome and the field keeps its prior value;
`setField` ends with an outcome other than nil only in that way; and in a
list of integers every piece takes a position: a piece on which the parser
reports a syntax error (the empty piece included) gives zero, and a piece on
which it reports a range error gives the bound of the element width, the
smallest value for a signed element and a piece starting with a minus sign,
the largest value otherwise. -/
theorem C11_list_field (n : Nat) (D : Decls) (t : GoType) (prior : Value) (text : String)
    (z : Value) (hk : kind D t = Kind.Slice) (hz : Zero (n + 1) D (elemType D t) = some z) :
    (Split text ',').length = text.data.count ',' + 1 ∧
    ((∀ p ∈ Split text ',', ∃ e, setField n D (elemType D t) z p = some (e, Outcome.nil)) →
      ∃ elems, setField (n + 1) D t prior text = some (.slice (some elems), Outcome.nil) ∧
        elems.length = (Split text ',').length ∧
        ∀ (i : Nat) (p : String), (Split text ',')[i]? = some p →
          ∃ e, elems[i]? = some e ∧
            setField n D (elemType D t) z p = some (e, Outcome.nil)) ∧
    (∀ (i : Nat) (p : String) (e : Value) (o : Outcome), (Split text ',')[i]? = some p →
      setField n D (elemType D t) z p = some (e, o) → o ≠ Outcome.nil →
      (∀ (j : Nat) (q : String), j < i → (Split text ',')[j]? = some q →
        ∃ e1, setField n D (elemType D t) z q = some (e1, Outcome.nil)) →
      setField (n + 1) D t prior text = some (prior, o)) ∧
    (∀ (r : Value) (o : Outcome), setField (n + 1) D t prior text = some (r, o) →
      o ≠ Outcome.nil →
      r = prior ∧ ∃ (i : Nat) (p : String) (e : Value), (Split text ',')[i]? = some p ∧
        setField n D (elemType D t) z p = some (e, o)) ∧
    (signedKind (kind D (elemType D t)) = true →
      ∃ elems, setField (n + 1) D t prior text = some (.slice (some elems), Outcome.nil) ∧
        elems.length = text.data.count ',' + 1 ∧
        ∀ (i : Nat) (p : String), (Split text ',')[i]? = some p →
          ((ParseInt p 0 (Bits (kind D (elemType D t)))).2 = some .ErrSyn →
            elems[i]? = some (.int 0)) ∧
          ((ParseInt p 0 (Bits (kind D (elemType D t)))).2 = some .ErrRange →
            (Negative p →
              elems[i]? = some (.int (-(2 ^ (Bits (kind D (elemType D t)) - 1) : Int)))) ∧
            (¬ Negative p →
              elems[i]? = some (.int (2 ^ (Bits (kind D (elemType D t)) - 1) - 1))))) ∧
    (unsignedKind (kind D (elemType D t)) = true →
      ∃ elems, setField (n + 1) D t prior text = some (.slice (some elems), Outcome.nil) ∧
        elems.length = text.data.count ',' + 1 ∧
        ∀ (i : Nat) (p : String), (Split text ',')[i]? = some p →
          ((ParseUint p 0 (Bits (kind D (elemType D t)))).2 = some .ErrSyn →
            elems[i]? = some (.uint 0)) ∧
          ((ParseUint p 0 (Bits (kind D (elemType D t)))).2 = some .ErrRange →
            elems[i]? = some (.uint (2 ^ Bits (kind D (elemType D t)) - 1)))) := by
  have hsl := setField_slice n D t prior text z hk hz
  have hall : (∀ p ∈ Split text ',',
      ∃ e, setField n D (elemType D t) z p = some (e, Outcome.nil)) →
      ∃ elems, setField (n + 1) D t prior text = some (.slice (some elems), Outcome.nil) ∧
        elems.length = (Split text ',').length ∧
        ∀ (i : Nat) (p : String), (Split text ',')[i]? = some p →
          ∃ e, elems[i]? = some e ∧
            setField n D (elemType D t) z p = some (e, Outcome.nil) := by
    intro h
    obtain ⟨elems, h1, h2, h3⟩ := setElems_all_nil (setField n D) (elemType D t) z _ h
    exact ⟨elems, by rw [hsl, h1], h2, h3⟩
  refine ⟨Split_length text ',', hall, ?_, ?_, ?_, ?_⟩
  · intro i p e o hp hs ho hb
    obtain ⟨es, hes⟩ := setElems_first_failure (setField n D) (elemType D t) z _ i p e o
      hp hs ho hb
    rw [hsl, hes]
    cases o with
    | nil => exact absurd rfl ho
    | error x => rfl
    | halt x => rfl
  · intro r o hr ho
    rw [hsl] at hr
    cases hl : setElems (setField n D) (elemType D t) z (Split text ',') with
    | none => simp [hl] at hr
    | some res =>
      obtain ⟨es, o1⟩ := res
      cases o1 with
      | nil =>
        simp only [hl, Option.some.injEq, Prod.mk.injEq] at hr
        exact absurd hr.2.symm ho
      | error x =>
        simp only [hl, Option.some.injEq, Prod.mk.injEq] at hr
        obtain ⟨h1, h2⟩ := hr
        subst h1; subst h2
        exact ⟨rfl, setElems_failure_source _ _ _ _ es _ hl (by simp)⟩
      | halt x =>
        simp only [hl, Option.some.injEq, Prod.mk.injEq] at hr
        obtain ⟨h1, h2⟩ := hr
        subst h1; subst h2
        exact ⟨rfl, setElems_failure_source _ _ _ _ es _ hl (by simp)⟩
  · intro hs
    obtain ⟨elems, h1, h2, h3⟩ := hall (fun p _ => ⟨_, setField_signed n D _ z p hs⟩)
    refine ⟨elems, h1, by rw [h2, Split_length], ?_⟩
    intro i p hp
    obtain ⟨e, h4, h5⟩ := h3 i p hp
    refine ⟨?_, ?_⟩
    · intro he
      rw [setField_signed_malformed n D _ z p hs he] at h5
      simp only [Option.some.injEq, Prod.mk.injEq, and_true] at h5
      rw [h4, ← h5]
    · intro he
      have ho := setField_signed_overflow n D _ z p hs he
      constructor
      · intro hn
        rw [ho.1 hn] at h5
        simp only [Option.some.injEq, Prod.mk.injEq, and_true] at h5
        rw [h4, ← h5]
      · intro hn
        rw [ho.2 hn] at h5
        simp only [Option.some.injEq, Prod.mk.injEq, and_true] at h5
        rw [h4, ← h5]
  · intro hs
    obtain ⟨elems, h1, h2, h3⟩ := hall (fun p _ => ⟨_, setField_unsigned n D _ z p hs⟩)
    refine ⟨elems, h1, by rw [h2, Split_length], ?_⟩
    intro i p hp
    obtain ⟨e, h4, h5⟩ := h3 i p hp
    refine ⟨?_, ?_⟩
    · intro he
      rw [setField_unsigned_malformed n D _ z p hs he] at h5
      simp only [Option.some.injEq, Prod.mk.injEq, and_true] at h5
      rw [h4, ← h5]
    · intro he
      rw [setField_unsigned_overflow n D _ z p hs he] at h5
      simp only [Option.some.injEq, Prod.mk.injEq, and_true] at h5
      rw [h4, ← h5]

/-- C11 at a list of integers and the text "1,,x,102", which has three commas
and an empty and a malformed piece: four elements, 1, 0, 0 and 102. -/
theorem C11_list_field_witness :
    (Split "1,,x,102" ',').length = "1,,x,102".data.count ',' + 1 ∧
    (∃ elems, setField 1 noDecls (.slice (.basic Kind.Int)) (.slice none) "1,,x,102" =
        some (.slice (some elems), Outcome.nil) ∧
      elems.length = "1,,x,102".data.count ',' + 1 ∧
      ∀ (i : Nat) (p : String), (Split "1,,x,102" ',')[i]? = some p →
        ((ParseInt p 0 (Bits (kind noDecls (elemType noDecls (.slice (.basic Kind.Int)))))).2 =
            some .ErrSyn →
          elems[i]? = some (.int 0)) ∧
        ((ParseInt p 0 (Bits (kind noDecls (elemType noDecls (.slice (.basic Kind.Int)))))).2 =
            some .ErrRange →
          (Negative p →
            elems[i]? = some (.int (-(2 ^ (Bits (kind noDecls
              (elemType noDecls (.slice (.basic Kind.Int)))) - 1) : Int)))) ∧
          (¬ Negative p →
            elems[i]? = some (.int (2 ^ (Bits (kind noDecls
              (elemType noDecls (.slice (.basic Kind.Int)))) - 1) - 1))))) ∧
    setField 1 noDecls (.slice (.basic Kind.Int)) (.slice none) "1,,x,102" =
      some (.slice (some [.int 1, .int 0, .int 0, .int 102]), Outcome.nil) := by
  have h := C11_list_field 0 noDecls (.slice (.basic Kind.Int)) (.slice none) "1,,x,102"
    (.int 0) rfl rfl
  exact ⟨h.1, h.2.2.2.2.1 rfl, rfl⟩

/-- C11 fails as stated: in a list of int the piece "99999999999999999999x"
is not a numeral, and the element is 9223372036854775807, not 0: the parser
reports the overflow of the digits before it reaches the letter.  In a list
of int32 the piece "5000000000x" gives 2147483647 in the same way. -/
theorem C11_counterexample :
    setField 1 noDecls (.slice (.basic Kind.Int)) (.slice none) "1,99999999999999999999x" =
      some (.slice (some [.int 1, .int 9223372036854775807]), Outcome.nil) ∧
    setField 1 noDecls (.slice (.basic Kind.Int32)) (.slice none) "5000000000x" =
      some (.slice (some [.int 2147483647]), Outcome.nil) := by
  exact ⟨rfl, rfl⟩

/-- C12, as the code has it: an annotated, writable field whose kind is none
of those the coercer names and is neither a pointer nor a structure (a
floating-point field, an 8-bit integer) and whose variable holds a non-empty
text makes `Decode` halt with "unsupported type", the fields before it being
skipped or scalar; an annotated, writable nested structure whose variable
holds a non-empty text makes `Decode` halt in the same way once its recursive
`Decode` has returned nil; and a field that is neither a pointer nor a
structure and whose variable is absent or empty is left as it is, with
outcome nil. -/
theorem C12_unsupported_kind_halts [CaseTables] (n : Nat) (D : Decls) (env : Env) (t et : GoType)
    (fs : List (StructField GoType)) (vs : List Value) (i : Nat)
    (f : StructField GoType) (tg : String)
    (ht : resolve D t = .ptr et) (he : resolve D et = .struct fs)
    (hlen : vs.length = fs.length) (hf : fs[i]? = some f)
    (htag : f.tag = some tg) (hex : f.exported = true) :
    (supportedKind (kind D f.typ) = false → kind D f.typ ≠ Kind.Ptr →
      kind D f.typ ≠ Kind.Struct → env (ToUpper tg) ≠ "" →
      (∀ (j : Nat) (g : StructField GoType), j < i → fs[j]? = some g → Benign D g) →
      ∃ vs1, Decode n D env t (.ptr (some (.struct vs))) =
        some (.ptr (some (.struct vs1)), Outcome.halt (.unsupportedType (kind D f.typ)))) ∧
    (kind D f.typ = Kind.Struct → env (ToUpper tg) ≠ "" →
      ∀ v v1, vs[i]? = some v →
        Decode n D env (.ptr f.typ) (.ptr (some v)) = some (.ptr (some v1), Outcome.nil) →
        (∀ (j : Nat) (g : StructField GoType), j < i → fs[j]? = some g → Benign D g) →
        ∃ vs1, Decode (n + 1) D env t (.ptr (some (.struct vs))) =
          some (.ptr (some (.struct vs1)), Outcome.halt (.unsupportedType Kind.Struct))) ∧
    (kind D f.typ ≠ Kind.Ptr → kind D f.typ ≠ Kind.Struct → env (ToUpper tg) = "" →
      ∀ v, fieldStep n D env f v = some (v, Outcome.nil)) := by
  have hi : i < vs.length := by
    rw [hlen]
    exact (List.getElem?_eq_some.mp hf).1
  refine ⟨?_, ?_, ?_⟩
  · intro hsup hp hst hne hbefore
    have hstep : fieldStep n D env f vs[i] =
        some (vs[i], Outcome.halt (.unsupportedType (kind D f.typ))) := by
      unfold fieldStep
      rw [decodeField_leaf _ _ _ _ _ _ _ tg htag hex hp hst, if_neg hne]
      exact setField_unsupported n D f.typ _ _ hsup
    obtain ⟨vs1, h1⟩ := decodeFields_first_failure (fieldStep n D env) fs vs i f vs[i] vs[i] _
      hf (List.getElem?_eq_getElem hi) hstep (by simp)
      (fun j g w hj hg _ => decodeField_benign _ _ n D env g w (hbefore j g hj hg))
    exact ⟨vs1, by rw [Decode_eq_loop n D env t et fs vs ht he, h1]⟩
  · intro hk hne v v1 hv hinner hbefore
    have hstep : fieldStep (n + 1) D env f v =
        some (v1, Outcome.halt (.unsupportedType Kind.Struct)) := by
      rw [fieldStep_struct n D env f tg v htag hex hk]
      simp only [decodeNested, hinner, hne, if_false]
      have hs := setField_unsupported (n + 1) D f.typ v1 (env (ToUpper tg))
        (by rw [hk]; rfl)
      rw [hs, hk]
    obtain ⟨vs1, h1⟩ := decodeFields_first_failure (fieldStep (n + 1) D env) fs vs i f v v1 _
      hf hv hstep (by simp)
      (fun j g w hj hg _ => decodeField_benign _ _ (n + 1) D env g w (hbefore j g hj hg))
    exact ⟨vs1, by rw [Decode_eq_loop (n + 1) D env t et fs vs ht he, h1]⟩
  · intro hp hst hempty v
    exact decodeField_leaf_empty _ _ _ _ _ _ _ _ tg htag hp hst hempty

/-- C12 at a structure with one annotated float64 field whose variable CFG
holds "x". -/
theorem C12_unsupported_kind_witness :
    ∃ vs1, Decode 0 noDecls cfgEnv
        (.ptr (.struct [exportedField "Ratio" (.basic Kind.Float64) (some "CFG")]))
        (.ptr (some (.struct [.other Kind.Float64]))) =
      some (.ptr (some (.struct vs1)), Outcome.halt (.unsupportedType Kind.Float64)) :=
  (C12_unsupported_kind_halts 0 noDecls cfgEnv
    (.ptr (.struct [exportedField "Ratio" (.basic Kind.Float64) (some "CFG")]))
    (.struct [exportedField "Ratio" (.basic Kind.Float64) (some "CFG")])
    [exportedField "Ratio" (.basic Kind.Float64) (some "CFG")] [.other Kind.Float64] 0
    (exportedField "Ratio" (.basic Kind.Float64) (some "CFG")) "CFG"
    rfl rfl rfl rfl rfl rfl).1 rfl (by decide) (by decide) (by decide)
    (fun j _ hj _ => absurd hj (Nat.not_lt_zero j))

/-- C12 fails as stated.  An annotated nested structure whose variable CFG
holds "x" and whose inner map field cannot be decoded makes `Decode` return
that error instead of halting; and an annotated pointer to an integer makes
`Decode` halt although its variable COUNT is absent. -/
theorem C12_counterexample :
    cfgLimitsEnv (ToUpper "CFG") = "x" ∧
    Decode 1 noDecls cfgLimitsEnv (.ptr badNestedType)
        (.ptr (some (.struct [.struct [.map none]]))) =
      some (.ptr (some (.struct [.struct [.map none]])),
        Outcome.error (.mapNotConvertible (.map (.basic Kind.String) (.basic Kind.Int)))) ∧
    emptyEnv (ToUpper "COUNT") = "" ∧
    Decode 1 noDecls emptyEnv (.ptr intPtrType) (.ptr (some (.struct [.ptr none]))) =
      some (.ptr (some (.struct [.ptr (some (.int 0))])),
        Outcome.halt (.numFieldOnNonStruct Kind.Int)) := by
  exact ⟨by decide, rfl, rfl, rfl⟩

/-- C13: annotations matter only through their upper-casing, and the
environment only through the variables so named.  Let `R` relate types that
are identical except for their annotations, corresponding annotations `a`,
`b` being equal after upper-casing and the two environments agreeing on the
variable `ToUpper a` (`Alike`).  Then for related types and the same value,
`Decode` gives the same outcome and the same field values.  With one
environment this is the irrelevance of letter case; with one type it says
that the variable consulted for an annotation `a` is the one named
`ToUpper a`. -/
theorem C13_annotation_case [CaseTables] (env1 env2 : Env) (R : GoType → GoType → Prop) (D1 D2 : Decls)
    (n : Nat) (t1 t2 : GoType) (v : Value)
    (hA : Alike env1 env2 R D1 D2) (hR : R t1 t2) :
    Decode n D1 env1 t1 v = Decode n D2 env2 t2 v :=
  (Decode_alike env1 env2 (orInvalid R) D1 D2 (Alike_orInvalid env1 env2 R D1 D2 hA)
    (Or.inr ⟨rfl, rfl⟩) n).1 t1 t2 v (Or.inl hR)

theorem C13_annotation_case_witness :
    Decode 1 noDecls stringEnv (.ptr stringType) (.ptr (some (.struct [.string ""]))) =
        Decode 1 noDecls stringEnv (.ptr lowerStringType)
          (.ptr (some (.struct [.string ""]))) ∧
      Decode 1 noDecls stringEnv (.ptr lowerStringType) (.ptr (some (.struct [.string ""]))) =
        some (.ptr (some (.struct [.string "test!!"])), Outcome.nil) :=
  ⟨C13_annotation_case stringEnv stringEnv stringRel noDecls noDecls 1 (.ptr stringType)
      (.ptr lowerStringType) (.ptr (some (.struct [.string ""])))
      (by
        intro t1 t2 h
        rcases h with ⟨rfl, rfl⟩ | ⟨rfl, rfl⟩ | ⟨rfl, rfl⟩
        · exact Or.inr (Or.inl ⟨rfl, rfl⟩)
        · exact List.Forall₂.cons ⟨rfl, rfl, ⟨by decide, rfl⟩, Or.inr (Or.inr ⟨rfl, rfl⟩)⟩
            List.Forall₂.nil
        · exact rfl)
      (Or.inl ⟨rfl, rfl⟩),
    rfl⟩

/-- C14: `Decode` of a pointer to a nil pointer to the structure of
`TestString` halts: the element of the argument is a pointer, not a
structure, when the fields are counted.  `Decode` of the nil pointer itself
halts as well, in the assignment of the fresh structure to a value that is
not addressable.  Only a pointer to an existing structure is decoded. -/
theorem C14_pointer_to_nil_pointer_halts [CaseTables] (n : Nat) :
    Decode n noDecls stringEnv (.ptr (.ptr stringType)) (.ptr (some (.ptr none))) =
      some (.ptr (some (.ptr none)), Outcome.halt (.numFieldOnNonStruct Kind.Ptr)) ∧
    Decode n noDecls stringEnv (.ptr stringType) (.ptr none) =
      some (.ptr none, Outcome.halt .setUnaddressable) ∧
    Decode n noDecls stringEnv (.ptr stringType) (.ptr (some (.struct [.string ""]))) =
      some (.ptr (some (.struct [.string "test!!"])), Outcome.nil) := by
  cases n <;> exact ⟨rfl, rfl, rfl⟩

/-- C15 (amended): on a type where the recursion of `Decode` ends, that is,
whose followed pointer and structure fields (annotated, and possible to set)
lead within `n` steps to structures without such fields, `Decode` returns for
every value and every environment: with the budget `n` and every larger one,
after a number of iterations of the field loop, nested calls included, that
is at most the static field count of the type; and whatever budget `Decode`
returns under, the result is the same.  Fields that `Decode` skips do not
matter: the type may reach itself through them. -/
theorem C15_terminates_where_recursion_ends [CaseTables] (n : Nat) (D : Decls) (env : Env)
    (t : GoType) (v : Value) (hd : walkDepth n D t = true) :
    ∃ (r : Value × Outcome) (k : Nat),
      (∀ m, n ≤ m → Decode m D env t v = some r) ∧
      Iterations n D env t v = some k ∧ k ≤ fieldCount n D t ∧
      ∀ (m : Nat) (r2 : Value × Outcome), Decode m D env t v = some r2 → r2 = r := by
  obtain ⟨r, k, h1, h2, h3⟩ := Decode_of_walkDepth D env n t hd v
  exact ⟨r, k, fun m hm => Decode_mono D env n m hm t v r h1, h2, h3,
    fun m r2 hm => Decode_budget_independent D env m n t v r2 r hm h1⟩

/-- C15 at `type Chain struct { Val string; Next *Chain }` with only `Val`
annotated: the type reaches itself, but through a field that `Decode` skips;
the two fields are visited once each. -/
theorem C15_terminates_where_recursion_ends_witness :
    walkDepth 0 chainDecls (.ptr (.named "Chain")) = true ∧
    (∃ (r : Value × Outcome) (k : Nat),
      (∀ m, 0 ≤ m → Decode m chainDecls fullEnv (.ptr (.named "Chain"))
        (.ptr (some (.struct [.string "", .ptr none]))) = some r) ∧
      Iterations 0 chainDecls fullEnv (.ptr (.named "Chain"))
        (.ptr (some (.struct [.string "", .ptr none]))) = some k ∧
      k ≤ fieldCount 0 chainDecls (.ptr (.named "Chain")) ∧
      ∀ (m : Nat) (r2 : Value × Outcome),
        Decode m chainDecls fullEnv (.ptr (.named "Chain"))
          (.ptr (some (.struct [.string "", .ptr none]))) = some r2 → r2 = r) ∧
    Decode 0 chainDecls fullEnv (.ptr (.named "Chain"))
        (.ptr (some (.struct [.string "", .ptr none]))) =
      some (.ptr (some (.struct [.string "x", .ptr none])), Outcome.nil) ∧
    Iterations 0 chainDecls fullEnv (.ptr (.named "Chain"))
        (.ptr (some (.struct [.string "", .ptr none]))) = some 2 ∧
    fieldCount 0 chainDecls (.ptr (.named "Chain")) = 2 :=
  ⟨rfl, C15_terminates_where_recursion_ends 0 chainDecls fullEnv (.ptr (.named "Chain"))
    (.ptr (some (.struct [.string "", .ptr none]))) rfl, rfl, rfl, rfl⟩

/-- C15 (as stated) fails: for `type Node struct { Next *Node }` with `Next`
annotated and nil, in an environment without variables, `Decode` of a pointer
to a node returns under no budget: each call allocates the next node and
decodes it. -/
theorem C15_counterexample :
    ¬ ∃ (n : Nat) (r : Value × Outcome),
      Decode n nodeDecls emptyEnv (.ptr (.named "Node"))
        (.ptr (some (.struct [.ptr none]))) = some r := by
  rintro ⟨n, r, h⟩
  rw [node_never_returns n] at h
  cases h

/-- C16: `Decode` is fail-fast.  If the iterations of the fields before field
`i` end with nil and the iteration of field `i` ends with another outcome `o`
(an error of the coercer or of a recursive `Decode`, or a halt), then `Decode`
ends with that same `o`, every field declared after `i` keeps its prior value,
every field declared before `i` keeps the value its iteration gave it, and
field `i` holds what its iteration left. -/
theorem C16_fail_fast [CaseTables] (n : Nat) (D : Decls) (env : Env) (t et : GoType)
    (fs : List (StructField GoType)) (vs : List Value) (i : Nat)
    (f : StructField GoType) (v v1 : Value) (o : Outcome)
    (ht : resolve D t = .ptr et) (he : resolve D et = .struct fs)
    (hf : fs[i]? = some f) (hv : vs[i]? = some v)
    (hstep : fieldStep n D env f v = some (v1, o)) (ho : o ≠ Outcome.nil)
    (hbefore : ∀ (j : Nat) (g : StructField GoType) (w : Value), j < i → fs[j]? = some g →
      vs[j]? = some w → ∃ w1, fieldStep n D env g w = some (w1, Outcome.nil)) :
    ∃ vs1, Decode n D env t (.ptr (some (.struct vs))) = some (.ptr (some (.struct vs1)), o) ∧
      vs1.length = vs.length ∧ vs1[i]? = some v1 ∧ (∀ j, i < j → vs1[j]? = vs[j]?) ∧
      (∀ (j : Nat) (g : StructField GoType) (w : Value), j < i → fs[j]? = some g →
        vs[j]? = some w →
        ∃ w1, vs1[j]? = some w1 ∧ fieldStep n D env g w = some (w1, Outcome.nil)) := by
  obtain ⟨vs1, h1, h2, h3, h4, h5⟩ :=
    decodeFields_failure_at (fieldStep n D env) fs vs i f v v1 o hf hv hstep ho hbefore
  exact ⟨vs1, by rw [Decode_eq_loop n D env t et fs vs ht he, h1], h2, h3, h4, h5⟩

/-- C16 at `failFastType`, whose second field fails: the first field is
decoded, the third keeps its text. -/
theorem C16_fail_fast_witness :
    ∃ vs1, Decode 0 noDecls mixedEnv (.ptr failFastType)
        (.ptr (some (.struct [.string "", .map none, .string "kept"]))) =
        some (.ptr (some (.struct vs1)),
          Outcome.error (.mapNotConvertible (.map (.basic Kind.String) (.basic Kind.Int)))) ∧
      vs1.length = [Value.string "", Value.map none, Value.string "kept"].length ∧
      vs1[1]? = some (.map none) ∧
      (∀ j, 1 < j → vs1[j]? = [Value.string "", Value.map none, Value.string "kept"][j]?) ∧
      (∀ (j : Nat) (g : StructField GoType) (w : Value), j < 1 →
        [exportedField "First" (.basic Kind.String) (some "NAME"),
          exportedField "Limits" (.map (.basic Kind.String) (.basic Kind.Int)) (some "LIMITS"),
          exportedField "Last" (.basic Kind.String) (some "NAME")][j]? = some g →
        [Value.string "", Value.map none, Value.string "kept"][j]? = some w →
        ∃ w1, vs1[j]? = some w1 ∧
          fieldStep 0 noDecls mixedEnv g w = some (w1, Outcome.nil)) :=
  C16_fail_fast 0 noDecls mixedEnv (.ptr failFastType) failFastType _
    [.string "", .map none, .string "kept"] 1
    (exportedField "Limits" (.map (.basic Kind.String) (.basic Kind.Int)) (some "LIMITS"))
    (.map none) (.map none) _ rfl rfl rfl rfl rfl (by simp)
    (by
      intro j g w hj hg hw
      have hj0 : j = 0 := by omega
      subst hj0
      simp only [List.getElem?_cons_zero, Option.some.injEq] at hg hw
      subst hg; subst hw
      exact ⟨.string "x", rfl⟩)

/-- C17: a field without annotation, or one that is not writable, is left
exactly as it was, whatever its shape: its iteration returns nil and the same
value without using the recursive call, the coercer or the allocator; after
`Decode` the field holds what it held, however the call ends; and on a
structure made of such fields only, `Decode` returns nil and changes
nothing. -/
theorem C17_skipped_field [CaseTables] (n : Nat) (D : Decls) (env : Env) (t et : GoType)
    (fs : List (StructField GoType)) (vs : List Value)
    (ht : resolve D t = .ptr et) (he : resolve D et = .struct fs) :
    (∀ (i : Nat) (f : StructField GoType), fs[i]? = some f →
      (f.tag = none ∨ f.exported = false) →
      (∀ self setF zero a v, decodeField self setF zero D env a f v = some (v, Outcome.nil)) ∧
      (∀ r o, Decode n D env t (.ptr (some (.struct vs))) = some (r, o) →
        ∃ vs1, r = .ptr (some (.struct vs1)) ∧ vs1[i]? = vs[i]?)) ∧
    ((∀ f ∈ fs, f.tag = none ∨ f.exported = false) →
      Decode n D env t (.ptr (some (.struct vs))) =
        some (.ptr (some (.struct vs)), Outcome.nil)) := by
  constructor
  · intro i f hf hskip
    refine ⟨fun self setF zero a v => decodeField_skip self setF zero D env a f v hskip, ?_⟩
    intro r o hdec
    rw [Decode_eq_loop n D env t et fs vs ht he] at hdec
    cases hl : decodeFields (fieldStep n D env) fs vs with
    | none => simp [hl] at hdec
    | some res =>
      obtain ⟨vs1, o1⟩ := res
      simp only [hl, Option.some.injEq, Prod.mk.injEq] at hdec
      refine ⟨vs1, hdec.1.symm, ?_⟩
      apply decodeFields_frame _ fs vs vs1 o1 i hl
      intro f2 v2 r2 hf2 _ hstep
      rw [hf] at hf2
      cases hf2
      unfold fieldStep at hstep
      rw [decodeField_skip _ _ _ _ _ _ _ _ hskip] at hstep
      cases hstep
      rfl
  · intro hall
    rw [Decode_eq_loop n D env t et fs vs ht he, decodeFields_unchanged _ fs vs]
    intro f hf v
    exact decodeField_skip _ _ _ _ _ _ _ _ (hall f hf)

/-- C17 at the structure of `TestEmbedded`: the un-annotated pointer stays
nil and the un-annotated nested structure keeps its content. -/
theorem C17_skipped_field_witness :
    (∃ vs1, Value.ptr (some (.struct [.string "test!!", .struct [.string ""], .ptr none])) =
        .ptr (some (.struct vs1)) ∧
      vs1[2]? = [Value.string "", Value.struct [.string ""], Value.ptr none][2]?) ∧
    (∃ vs1, Value.ptr (some (.struct [.string "test!!", .struct [.string ""], .ptr none])) =
        .ptr (some (.struct vs1)) ∧
      vs1[1]? = [Value.string "", Value.struct [.string ""], Value.ptr none][1]?) := by
  have h := C17_skipped_field 3 embeddedDecls embeddedEnv (.ptr embeddedType) embeddedType
    [exportedField "Val" (.basic Kind.String) (some "STRUCT_TEST"),
     exportedField "Embedded"
       (.struct [exportedField "EmbeddedVal" (.basic Kind.String) (some "EMBEDDED_TEST")])
       none,
     exportedField "Ptr" (.ptr (.named "Structptr")) none]
    [.string "", .struct [.string ""], .ptr none] rfl rfl
  exact ⟨(h.1 2 _ rfl (Or.inl rfl)).2 _ _ rfl, (h.1 1 _ rfl (Or.inl rfl)).2 _ _ rfl⟩

/-- C18: an annotated, writable field that is a pointer or a nested structure
is decoded by a recursive `Decode` of its content.  For a pointer field the
iteration is `Decode` of the existing pointee, in place, or of a fresh zero
value when the pointer was nil, and the pointer is not nil afterwards; for a
nested structure whose own variable is absent or empty the iteration is
`Decode` of the structure through its address.  In both cases the outcome of
the iteration is that of the recursive call; after a `Decode` that returns nil
the field holds what the iteration produced, and an outcome of the iteration
other than nil, reached after iterations that ended with nil, is the outcome
of the outer `Decode`. -/
theorem C18_nested_decoding [CaseTables] (n : Nat) (D : Decls) (env : Env) (f : StructField GoType)
    (tg : String) (htag : f.tag = some tg) (hex : f.exported = true) :
    (kind D f.typ = Kind.Ptr →
      (∀ p, fieldStep (n + 1) D env f (.ptr (some p)) =
        Decode n D env f.typ (.ptr (some p))) ∧
      (∀ z, Zero (n + 1) D (elemType D f.typ) = some z →
        fieldStep (n + 1) D env f (.ptr none) = Decode n D env f.typ (.ptr (some z))) ∧
      (∀ v r o, (v = .ptr none ∨ ∃ p, v = .ptr (some p)) →
        fieldStep (n + 1) D env f v = some (r, o) → ∃ p1, r = .ptr (some p1))) ∧
    (kind D f.typ = Kind.Struct → env (ToUpper tg) = "" →
      ∀ v v1 o, Decode n D env (.ptr f.typ) (.ptr (some v)) = some (.ptr (some v1), o) →
        fieldStep (n + 1) D env f v = some (v1, o)) ∧
    (∀ (t et : GoType) (fs : List (StructField GoType)) (vs : List Value) (i : Nat),
      resolve D t = .ptr et → resolve D et = .struct fs → fs[i]? = some f →
      (∀ vs1 v, Decode (n + 1) D env t (.ptr (some (.struct vs))) =
          some (.ptr (some (.struct vs1)), Outcome.nil) → vs[i]? = some v →
        ∃ r, vs1[i]? = some r ∧ fieldStep (n + 1) D env f v = some (r, Outcome.nil)) ∧
      (∀ v r o, vs[i]? = some v → fieldStep (n + 1) D env f v = some (r, o) →
        o ≠ Outcome.nil →
        (∀ (j : Nat) (g : StructField GoType) (w : Value), j < i → fs[j]? = some g →
          vs[j]? = some w → ∃ w1, fieldStep (n + 1) D env g w = some (w1, Outcome.nil)) →
        ∃ vs1, Decode (n + 1) D env t (.ptr (some (.struct vs))) =
          some (.ptr (some (.struct vs1)), o))) := by
  refine ⟨?_, ?_, ?_⟩
  · intro hk
    refine ⟨?_, ?_, ?_⟩
    · intro p
      rw [fieldStep_ptr n D env f tg _ htag hex hk]
      rfl
    · intro z hz
      rw [fieldStep_ptr n D env f tg _ htag hex hk]
      simp only [allocIfNil, hz]
    · intro v r o hv hstep
      rw [fieldStep_ptr n D env f tg _ htag hex hk] at hstep
      rcases hv with hv | ⟨p, hv⟩
      · subst hv
        simp only [allocIfNil] at hstep
        cases hz : Zero (n + 1) D (elemType D f.typ) with
        | none => simp [hz] at hstep
        | some z =>
          simp only [hz] at hstep
          exact Decode_nonnil n D env f.typ z r o hstep
      · subst hv
        exact Decode_nonnil n D env f.typ p r o hstep
  · intro hk hempty v v1 o hinner
    rw [fieldStep_struct n D env f tg v htag hex hk]
    simp only [decodeNested, hinner]
    cases o with
    | nil => simp [hempty]
    | error e => rfl
    | halt p => rfl
  · intro t et fs vs i ht he hf
    constructor
    · intro vs1 v hdec hv
      rw [Decode_eq_loop (n + 1) D env t et fs vs ht he] at hdec
      cases hl : decodeFields (fieldStep (n + 1) D env) fs vs with
      | none => simp [hl] at hdec
      | some res =>
        obtain ⟨vs2, o2⟩ := res
        simp only [hl, Option.some.injEq, Prod.mk.injEq, Value.ptr.injEq,
          Value.struct.injEq] at hdec
        obtain ⟨h1, h2⟩ := hdec
        subst h1; subst h2
        exact decodeFields_nil_get _ fs vs vs2 i f v hl hf hv
    · intro v r o hv hstep ho hbefore
      obtain ⟨vs1, h1⟩ := decodeFields_first_failure (fieldStep (n + 1) D env) fs vs i f v r o
        hf hv hstep ho hbefore
      exact ⟨vs1, by rw [Decode_eq_loop (n + 1) D env t et fs vs ht he, h1]⟩

/-- C18 at the pointer field of `ptrHolderType`, with no variable set: the
nil pointer is replaced by a decoded zero `Inner`, and `Decode` returns
nil. -/
theorem C18_nested_decoding_witness :
    fieldStep 2 mixedDecls emptyEnv
        (exportedField "Cfg" (.ptr (.named "Inner")) (some "CFG")) (.ptr none) =
      Decode 1 mixedDecls emptyEnv (.ptr (.named "Inner")) (.ptr (some (.struct [.string ""]))) ∧
    Decode 2 mixedDecls emptyEnv (.ptr ptrHolderType) (.ptr (some (.struct [.ptr none]))) =
      some (.ptr (some (.struct [.ptr (some (.struct [.string ""]))])), Outcome.nil) := by
  have h := C18_nested_decoding 1 mixedDecls emptyEnv
    (exportedField "Cfg" (.ptr (.named "Inner")) (some "CFG")) "CFG" rfl rfl
  exact ⟨(h.1 rfl).2.1 _ rfl, rfl⟩

/-- C19, as the code has it: after the recursion step of an annotated,
writable pointer field `Decode` goes on to the next field; the iteration is
the allocation followed by the recursive call, and the field's own variable
and the coercer play no part.  After the recursion step of an annotated,
writable nested structure that returned nil, `Decode` looks up the field's
own variable and, when the text is not empty, hands the field to the
coercer, which halts on a structure. -/
theorem C19_lookup_after_recursion [CaseTables] (n : Nat) (D : Decls) (env : Env) (f : StructField GoType)
    (tg : String) (htag : f.tag = some tg) (hex : f.exported = true) :
    (kind D f.typ = Kind.Ptr → ∀ v,
      fieldStep (n + 1) D env f v =
        (allocIfNil (Zero (n + 1) D) (elemType D f.typ) v).bind (Decode n D env f.typ)) ∧
    (kind D f.typ = Kind.Struct → ∀ v v1,
      Decode n D env (.ptr f.typ) (.ptr (some v)) = some (.ptr (some v1), Outcome.nil) →
      fieldStep (n + 1) D env f v =
        if env (ToUpper tg) = "" then some (v1, Outcome.nil)
        else some (v1, Outcome.halt (.unsupportedType Kind.Struct))) := by
  constructor
  · intro hk v
    rw [fieldStep_ptr n D env f tg v htag hex hk]
    cases allocIfNil (Zero (n + 1) D) (elemType D f.typ) v <;> rfl
  · intro hk v v1 hinner
    rw [fieldStep_struct n D env f tg v htag hex hk]
    simp only [decodeNested, hinner]
    by_cases he : env (ToUpper tg) = ""
    · simp [he]
    · simp only [he, if_false]
      have hs := setField_unsupported (n + 1) D f.typ v1 (env (ToUpper tg))
        (by rw [hk]; rfl)
      rw [hs, hk]

/-- C19 at the two holders of `Inner` with CFG set: the pointer field gives
the recursive call, the structure field halts. -/
theorem C19_lookup_after_recursion_witness :
    fieldStep 2 mixedDecls cfgEnv (exportedField "Cfg" (.ptr (.named "Inner")) (some "CFG"))
        (.ptr none) =
      (allocIfNil (Zero 2 mixedDecls) (elemType mixedDecls (.ptr (.named "Inner")))
        (.ptr none)).bind (Decode 1 mixedDecls cfgEnv (.ptr (.named "Inner"))) ∧
    fieldStep 2 mixedDecls cfgEnv (exportedField "Cfg" (.named "Inner") (some "CFG"))
        (.struct [.string ""]) =
      if cfgEnv (ToUpper "CFG") = "" then some (.struct [.string ""], Outcome.nil)
      else some (.struct [.string ""], Outcome.halt (.unsupportedType Kind.Struct)) :=
  ⟨(C19_lookup_after_recursion 1 mixedDecls cfgEnv
      (exportedField "Cfg" (.ptr (.named "Inner")) (some "CFG")) "CFG" rfl rfl).1 rfl _,
    (C19_lookup_after_recursion 1 mixedDecls cfgEnv
      (exportedField "Cfg" (.named "Inner") (some "CFG")) "CFG" rfl rfl).2 rfl _ _ rfl⟩

/-- C19 fails as stated: with CFG set to "x", the structure with an annotated
pointer to `Inner` is decoded with outcome nil (the pointer is allocated, no
lookup of CFG, no coercer), while the structure with an annotated nested
`Inner` makes `Decode` halt in the coercer. -/
theorem C19_counterexample :
    cfgEnv (ToUpper "CFG") = "x" ∧
    Decode 2 mixedDecls cfgEnv (.ptr ptrHolderType) (.ptr (some (.struct [.ptr none]))) =
      some (.ptr (some (.struct [.ptr (some (.struct [.string ""]))])), Outcome.nil) ∧
    Decode 2 mixedDecls cfgEnv (.ptr structHolderType)
        (.ptr (some (.struct [.struct [.string ""]]))) =
      some (.ptr (some (.struct [.struct [.string ""]])),
        Outcome.halt (.unsupportedType Kind.Struct)) := by
  exact ⟨by decide, rfl, rfl⟩

/-- C20: `Decode` is idempotent under a fixed environment.  When `Decode`
returns nil and the value `r`, running `Decode` again on `r`, with the same
environment and the same or a larger budget, returns nil and leaves `r` as it
is: every field, the lists, the maps and the contents of nested structures
and pointers included, keeps its value. -/
theorem C20_decode_twice [CaseTables] (n m : Nat) (D : Decls) (env : Env) (t : GoType) (v r : Value)
    (hm : n ≤ m) (h : Decode n D env t v = some (r, Outcome.nil)) :
    Decode m D env t r = some (r, Outcome.nil) :=
  Decode_mono D env n m hm t r _ (Decode_twice D env n t v r h).1

/-- C20 at `fullType`: the zero value decodes to `fullDecoded`, which decodes
to itself. -/
theorem C20_decode_twice_witness :
    Decode 2 mixedDecls fullEnv (.ptr fullType)
        (.ptr (some (.struct [.string "", .ptr none, .slice none, .map none]))) =
      some (fullDecoded, Outcome.nil) ∧
    Decode 2 mixedDecls fullEnv (.ptr fullType) fullDecoded = some (fullDecoded, Outcome.nil) :=
  ⟨rfl, C20_decode_twice 2 2 mixedDecls fullEnv (.ptr fullType)
    (.ptr (some (.struct [.string "", .ptr none, .slice none, .map none]))) fullDecoded
    (Nat.le_refl 2) rfl⟩

end GoEnv
